import Mathlib

/-!
2D curve editing interfaces: B-splines and natural cubic splines.

A shallow embedding of `B-Splines/Source/BSpline.cpp` and
`Natural Cubic Splines/Source/NaturalCubicSpline.cpp`.

Conventions of the embedding.

* Coordinates (`float`/`double` in the source) are exact rationals; the curve
  evaluation and the linear system are stated in exact arithmetic.
* The two searches that compare a computed distance with a limit, `selectPoint`
  and the edge search of the insertion, are given twice.  `selectPoint`,
  `nearestLine` and `insertPoint` are the searches in exact arithmetic: `sqrt`
  is strictly monotone on non-negative numbers, so every comparison
  `dist < minDist` is carried out on the squares, and the theorems restate the
  result with `Real.sqrt`; the event model runs on these.  `selectPointWith`,
  `nearestLineWith` and `insertPointWith` take the arithmetic as a parameter
  (`Arith`); `bsplineArith` and `naturalArith` are the floating-point arithmetic
  of the two programs and `exactArith` gives back the first three.
* An array obtained from `new Vector3f[n]` starts with `n` unset entries
  (`none`); an entry becomes `some v` when it is assigned.
* Loop counters and sizes are natural numbers.  A loop bound such as
  `(int)p.size()-1` is negative only when the loop body must not run, which
  truncated subtraction reproduces.  The repetition count (`int r`) is a
  natural number as well: a negative count is outside the properties stated.
* A subscript outside a `std::vector` has no defined result; a step that would
  perform one has no successor state (`none`).
* `A.colPivHouseholderQr().solve(b)` is Eigen code; properties of the solved
  coefficients are stated for every `c` with `A * c = b`.
-/

namespace CurveEditing

/-! ## Vectors -/

/-- Eigen `Vector3f`, with exact coordinates. -/
structure Vec3 where
  x : ℚ
  y : ℚ
  z : ℚ
deriving DecidableEq

namespace Vec3

/-- Componentwise sum. -/
def add (u v : Vec3) : Vec3 := ⟨u.x + v.x, u.y + v.y, u.z + v.z⟩

/-- Componentwise difference. -/
def sub (u v : Vec3) : Vec3 := ⟨u.x - v.x, u.y - v.y, u.z - v.z⟩

/-- Product with a scalar written on the right, as in `b[0]*B0`. -/
def scale (u : Vec3) (s : ℚ) : Vec3 := ⟨u.x * s, u.y * s, u.z * s⟩

/-- Quotient by a scalar, as in `(...) / 6`. -/
def divide (u : Vec3) (s : ℚ) : Vec3 := ⟨u.x / s, u.y / s, u.z / s⟩

/-- Eigen `dot`. -/
def dot (u v : Vec3) : ℚ := u.x * v.x + u.y * v.y + u.z * v.z

end Vec3

/-! ## Input events and the point store searches shared by the two programs

`keyboard`, `selectPoint` and the edge search of `insertControlPoint` /
`insertDataPoint` are the same text in both source files, up to the type of the
point distance: `double` in the B-spline file, `float` in the natural-spline
file.  The definitions of this section are the searches in exact arithmetic;
the section on the arithmetic of the two searches gives them on the floating
point arithmetic of each program. -/

/-- The global `char mode`: zero-initialised, then one of `'a'`, `'r'`, `'d'`, `'i'`. -/
inductive Mode where
  | unset
  | a
  | r
  | d
  | i
deriving DecidableEq

/-- The keys that `keyboard` distinguishes. -/
inductive Key where
  | Q
  | ESCAPE
  | A
  | R
  | D
  | I
  | other
deriving DecidableEq

/-- GLFW key and button actions. -/
inductive Action where
  | press
  | release
  | repeated
deriving DecidableEq

/-- GLFW mouse buttons: the left one and the others. -/
inductive Button where
  | left
  | other
deriving DecidableEq

/-- The globals `coordinateX`, `coordinateY` declared in `glSetup.h`: the window
position of the origin. -/
structure Screen where
  coordinateX : ℤ
  coordinateY : ℤ
deriving DecidableEq

/-- Function `convertCoordinates`: `x = x - coordinateX; y = coordinateY - y`. -/
def convertCoordinates (g : Screen) (xPos yPos : ℚ) : ℚ × ℚ :=
  (xPos - g.coordinateX, g.coordinateY - yPos)

/-- The mode that `keyboard` leaves behind (both programs): only a key press of
`A`, `R`, `D`, `I` changes it. -/
def keyboardMode (mode : Mode) (key : Key) (action : Action) : Mode :=
  if action = Action.press then
    match key with
    | Key.A => Mode.a
    | Key.R => Mode.r
    | Key.D => Mode.d
    | Key.I => Mode.i
    | _ => mode
  else mode

/-- The square of the distance that `selectPoint` takes the root of:
`(x - p[i][0]) * (x - p[i][0]) + (y - p[i][1]) * (y - p[i][1])`. -/
def planarDistSq (x y : ℚ) (v : Vec3) : ℚ :=
  (x - v.x) * (x - v.x) + (y - v.y) * (y - v.y)

/-- Body of the loop of `selectPoint` in exact arithmetic.  The accumulator is
`(minDist², nearestPoint)`; `p.getD i _` is `p[i]`, the loop keeps `i < p.size()`. -/
def selectStep (p : List Vec3) (x y : ℚ) (acc : ℚ × ℤ) (i : Nat) : ℚ × ℤ :=
  let dist := planarDistSq x y (p.getD i ⟨0, 0, 0⟩)
  if dist < acc.1 then (dist, (i : ℤ)) else acc

/-- Function `int selectPoint(double x, double y)` in exact arithmetic: starts
from `minDist = 15`, `nearestPoint = -1`. -/
def selectPoint (p : List Vec3) (x y : ℚ) : ℤ :=
  ((List.range p.length).foldl (selectStep p x y) (15 * 15, -1)).2

/-- Eigen `ParametrizedLine<float, 3>::Through(a, b).squaredDistance(q)` in exact
arithmetic: with `direction = (b - a).normalized()` and `diff = q - a` it is
`(diff - direction.dot(diff) * direction).squaredNorm()`; the two norms of the
normalisation multiply to `(b - a).dot(b - a)`. -/
def lineDistSq (a b q : Vec3) : ℚ :=
  let e := b.sub a
  let diff := q.sub a
  let w := diff.sub (e.scale (e.dot diff / e.dot e))
  w.dot w

/-- The "line segment area" test of the insertion search in exact arithmetic:
`(p[i+1]-p[i]).dot(inputPos-p[i]) > 0 && (p[i]-p[i+1]).dot(inputPos-p[i+1]) > 0`. -/
def inSegmentArea (a b q : Vec3) : Prop :=
  (b.sub a).dot (q.sub a) > 0 ∧ (a.sub b).dot (q.sub b) > 0

instance (a b q : Vec3) : Decidable (inSegmentArea a b q) := by
  unfold inSegmentArea
  exact inferInstance

/-- Body of the search loop of `insertControlPoint` / `insertDataPoint` in exact
arithmetic.  The accumulator is `(minDist², nearestLine)`. -/
def nearestLineStep (p : List Vec3) (inputPos : Vec3) (acc : ℚ × ℤ) (i : Nat) : ℚ × ℤ :=
  let a := p.getD i ⟨0, 0, 0⟩
  let b := p.getD (i + 1) ⟨0, 0, 0⟩
  if inSegmentArea a b inputPos then
    let dist := lineDistSq a b inputPos
    if dist < acc.1 then (dist, (i : ℤ)) else acc
  else acc

/-- The search loop of `insertControlPoint` / `insertDataPoint` in exact
arithmetic: starts from `minDist = 10`, `nearestLine = -1`, runs over
`i < (int)p.size()-1`. -/
def nearestLine (p : List Vec3) (inputPos : Vec3) : ℤ :=
  ((List.range (p.length - 1)).foldl (nearestLineStep p inputPos) (10 * 10, -1)).2

/-- The call `p.erase(p.begin() + index)` guarded by `index >= 0`, the list part of
`removeControlPoint` / `removeDataPoint`. -/
def erasePoint (p : List Vec3) (index : ℤ) : List Vec3 :=
  if 0 ≤ index then p.eraseIdx index.toNat else p

/-- The list part of `insertControlPoint` / `insertDataPoint` in exact arithmetic:
`p.insert(p.begin()+nearestLine+1, inputPos)` guarded by `nearestLine >= 0`. -/
def insertPoint (p : List Vec3) (xPos yPos : ℚ) : List Vec3 :=
  let inputPos : Vec3 := ⟨xPos, yPos, 0⟩
  let nearest := nearestLine p inputPos
  if 0 ≤ nearest then p.insertIdx (nearest.toNat + 1) inputPos else p

/-- Segment `i` of the polygon `p` qualifies for the insertion of `q`, in the
words of the specification: both dot products are positive and the distance
from `q` to the line through `p[i]`, `p[i+1]` is below 10. -/
def Qualifies (p : List Vec3) (q : Vec3) (i : Nat) : Prop :=
  i + 1 < p.length ∧
  ((p.getD (i + 1) ⟨0, 0, 0⟩).sub (p.getD i ⟨0, 0, 0⟩)).dot (q.sub (p.getD i ⟨0, 0, 0⟩)) > 0 ∧
  ((p.getD i ⟨0, 0, 0⟩).sub (p.getD (i + 1) ⟨0, 0, 0⟩)).dot
    (q.sub (p.getD (i + 1) ⟨0, 0, 0⟩)) > 0 ∧
  Real.sqrt (lineDistSq (p.getD i ⟨0, 0, 0⟩) (p.getD (i + 1) ⟨0, 0, 0⟩) q : ℚ) < 10

/-- The events that drive either program: a keyboard callback, a mouse button
callback with the cursor at `(cx, cy)` in window coordinates, and the drag
update at the end of one pass of the main loop with the cursor at `(cx, cy)`. -/
inductive Event where
  | key (k : Key) (a : Action)
  | mouse (b : Button) (a : Action) (cx cy : ℚ)
  | frame (cx cy : ℚ)
deriving DecidableEq

/-- An event sequence that switches to add mode and then presses the left button
thirteen times at window position `(1, 1)`. -/
def fillEvents : List Event :=
  Event.key Key.A Action.press ::
    List.replicate 13 (Event.mouse Button.left Action.press 1 1)

/-! ## B-spline program -/

namespace BSpline

/-- Constant `const int N = 12`: the maximum number of control points. -/
def N : Nat := 12

/-- The globals `nControlPoints` and `controlPoints` written by `construct`. -/
structure Expanded where
  nControlPoints : Nat
  controlPoints : List (Option Vec3)
deriving DecidableEq

/-- Reading `controlPoints[i]`: `none` stands for an entry never assigned. -/
def readAt (cp : List (Option Vec3)) (i : Nat) : Option Vec3 := cp.getD i none

/-- First loop of `construct`:
`for i < p.size(): controlPoints[i+repetition] = Vector3f(p[i][0], p[i][1], p[i][2])`. -/
def copyStored (p : List Vec3) (repetition : Nat) (cp : List (Option Vec3)) :
    List (Option Vec3) :=
  (List.range p.length).foldl (fun a i => a.set (i + repetition) p[i]?) cp

/-- Body of the second loop of `construct`, two assignments in source order. -/
def repeatStep (size repetition : Nat) (cp : List (Option Vec3)) (i : Nat) :
    List (Option Vec3) :=
  let cp1 := cp.set i (readAt cp repetition)
  cp1.set (size + repetition + i) (readAt cp1 (size + repetition - 1))

/-- Second loop of `construct`: `for i < repetition`. -/
def repeatEnds (size repetition : Nat) (cp : List (Option Vec3)) : List (Option Vec3) :=
  (List.range repetition).foldl (repeatStep size repetition) cp

/-- Function `void construct(int r)` on the stored points `p`. -/
def construct (p : List Vec3) (r : Nat) : Expanded :=
  let repetition := r
  let nControlPoints := p.length + 2 * repetition
  let fresh : List (Option Vec3) := List.replicate nControlPoints none
  { nControlPoints := nControlPoints
    controlPoints := repeatEnds p.length repetition (copyStored p repetition fresh) }

/-- Function `Vector3f BsplinePoint(Vector3f b[4], float t1)`. -/
def BsplinePoint (b : Fin 4 → Vec3) (t1 : ℚ) : Vec3 :=
  let t2 := t1 * t1
  let t3 := t2 * t1
  let B0 := 1 - 3 * t1 + 3 * t2 - t3
  let B1 := 4 - 6 * t2 + 3 * t3
  let B2 := 1 + 3 * t1 + 3 * t2 - 3 * t3
  let B3 := t3
  ((((b 0).scale B0).add ((b 1).scale B1)).add ((b 2).scale B2) |>.add ((b 3).scale B3)).divide 6

/-- Constant `int N_POINTS_PER_SEGMENTS = 40` of `drawBSpline`. -/
def N_POINTS_PER_SEGMENTS : Nat := 40

/-- The copy `for j < 4: b[j] = controlPoints[i+j]`; `none` when one of the four
entries was never assigned. -/
def window (cp : List (Option Vec3)) (i : Nat) : Option (Fin 4 → Vec3) :=
  match readAt cp i, readAt cp (i + 1), readAt cp (i + 2), readAt cp (i + 3) with
  | some b0, some b1, some b2, some b3 => some ![b0, b1, b2, b3]
  | _, _, _, _ => none

/-- Parameter of sample `j`: `(float)j / (N_POINTS_PER_SEGMENTS-1)`. -/
def sampleParam (j : Nat) : ℚ := (j : ℚ) / ((N_POINTS_PER_SEGMENTS : ℚ) - 1)

/-- The vertices of one line strip: `BsplinePoint(b, t)` for `j < 40`. -/
def sampleSegment (b : Fin 4 → Vec3) : List Vec3 :=
  (List.range N_POINTS_PER_SEGMENTS).map fun j => BsplinePoint b (sampleParam j)

/-- The curve part of `drawBSpline`: one line strip per `i < nControlPoints-3`,
in loop order.  A strip is `none` when its window holds an unassigned entry. -/
def drawBSpline (e : Expanded) : List (Option (List Vec3)) :=
  (List.range (e.nControlPoints - 3)).map fun i =>
    (window e.controlPoints i).map sampleSegment

/-- The three stored points of the scenarios of the specification. -/
def scenarioPoints : List Vec3 := [⟨0, 0, 0⟩, ⟨10, 0, 0⟩, ⟨10, 10, 0⟩]

/-- The globals of `BSpline.cpp` that the callbacks and the main loop change. -/
structure State where
  p : List Vec3
  mode : Mode
  dragPoint : ℤ
  isDragging : Bool
  repetition : Nat
  xPos : ℚ
  yPos : ℚ
  expanded : Expanded
deriving DecidableEq

/-- The state when the main loop starts: `repetition` from the command line,
no point, `construct(0)` done. -/
def initial (repetition : Nat) : State :=
  { p := [], mode := Mode.unset, dragPoint := 0, isDragging := false,
    repetition := repetition, xPos := 0, yPos := 0, expanded := construct [] 0 }

/-- Function `void keyboard(...)`. -/
def keyboard (s : State) (key : Key) (action : Action) : State :=
  { s with mode := keyboardMode s.mode key action }

/-- Function `void addControlPoint(float x, float y)`. -/
def addControlPoint (s : State) (x y : ℚ) : State :=
  let p := s.p ++ [⟨x, y, 0⟩]
  { s with p := p, expanded := construct p s.repetition }

/-- Function `void removeControlPoint(int index)`. -/
def removeControlPoint (s : State) (index : ℤ) : State :=
  if 0 ≤ index then
    let p := erasePoint s.p index
    { s with p := p, expanded := construct p s.repetition }
  else s

/-- Function `void dragControlPoint(int index)`. -/
def dragControlPoint (s : State) (index : ℤ) : State :=
  if 0 ≤ index then { s with dragPoint := index, isDragging := true } else s

/-- Function `void insertControlPoint(float xPos, float yPos)` in exact arithmetic. -/
def insertControlPoint (s : State) (xPos yPos : ℚ) : State :=
  if 0 ≤ nearestLine s.p ⟨xPos, yPos, 0⟩ then
    let p := insertPoint s.p xPos yPos
    { s with p := p, expanded := construct p s.repetition }
  else s

/-- The pair `glfwGetCursorPos(window, &xPos, &yPos); convertCoordinates(&xPos, &yPos);`. -/
def readCursor (g : Screen) (s : State) (cx cy : ℚ) : State :=
  { s with xPos := (convertCoordinates g cx cy).1, yPos := (convertCoordinates g cx cy).2 }

/-- Function `void mouse(...)` with the cursor at `(cx, cy)`. -/
def mouse (g : Screen) (s : State) (button : Button) (action : Action) (cx cy : ℚ) : State :=
  if button = Button.left ∧ action = Action.press then
    match s.mode with
    | Mode.a =>
      if s.p.length < N then
        let s1 := readCursor g s cx cy
        addControlPoint s1 s1.xPos s1.yPos
      else s
    | Mode.r =>
      let s1 := readCursor g s cx cy
      removeControlPoint s1 (selectPoint s1.p s1.xPos s1.yPos)
    | Mode.d =>
      let s1 := readCursor g s cx cy
      dragControlPoint s1 (selectPoint s1.p s1.xPos s1.yPos)
    | Mode.i =>
      if s.p.length < N then
        let s1 := readCursor g s cx cy
        insertControlPoint s1 s1.xPos s1.yPos
      else s
    | Mode.unset => s
  else if button = Button.left ∧ action = Action.release then
    match s.mode with
    | Mode.d => { s with isDragging := false }
    | _ => s
  else s

/-- The drag update of the main loop: when `isDragging`, the cursor is read,
`p[dragPoint][0]` and `p[dragPoint][1]` are overwritten and the array is rebuilt.
`std::vector::operator[]` has no defined result outside `0 .. size-1`: there the
step has no successor (`none`). -/
def dragUpdate (g : Screen) (s : State) (cx cy : ℚ) : Option State :=
  if s.isDragging then
    let s1 := readCursor g s cx cy
    if 0 ≤ s1.dragPoint ∧ s1.dragPoint < s1.p.length then
      let k := s1.dragPoint.toNat
      let p := s1.p.modify (fun v => { v with x := s1.xPos, y := s1.yPos }) k
      some { s1 with p := p, expanded := construct p s1.repetition }
    else none
  else some s

/-- One event of the B-spline program. -/
def step (g : Screen) (s : State) : Event → Option State
  | Event.key k a => some (keyboard s k a)
  | Event.mouse b a cx cy => some (mouse g s b a cx cy)
  | Event.frame cx cy => dragUpdate g s cx cy

/-- A sequence of events, from left to right; `none` once a step is undefined. -/
def run (g : Screen) (s : State) : List Event → Option State
  | [] => some s
  | e :: es => (step g s e).bind fun s1 => run g s1 es


end BSpline

/-! ## Natural cubic spline program -/

namespace NaturalSpline

/-- Constant `const int N = 11`: the number of segments the system is built for. -/
def N : Nat := 11

/-- An Eigen `MatrixXd`, entry by entry; entries outside the allocated size are
never read by the model. -/
abbrev Mat := Nat → Nat → ℚ

/-- Eigen `setZero()`. -/
def Mat.setZero : Mat := fun _ _ => 0

/-- One assignment `M(row, col) = val`. -/
structure Write where
  row : Nat
  col : Nat
  val : ℚ
deriving DecidableEq

/-- The matrix after one assignment. -/
def Mat.write (M : Mat) (w : Write) : Mat :=
  fun i j => if i = w.row ∧ j = w.col then w.val else M i j

/-- The matrix after a list of assignments, in order. -/
def Mat.writes (M : Mat) (ws : List Write) : Mat := ws.foldl Mat.write M

/-- Eigen `M.row(row).setZero()`. -/
def Mat.zeroRow (M : Mat) (row : Nat) : Mat :=
  fun i j => if i = row then 0 else M i j

/-- First loop of `buildLinearSystem` (`for i < N; i++, row += 2`): the
assignments of one pass, and the equation number after it. -/
def interpolationStep (acc : List Write × Nat) (i : Nat) : List Write × Nat :=
  let row := acc.2
  (acc.1 ++ [⟨row, 4 * i + 0, 1⟩,
             ⟨row + 1, 4 * i + 0, 1⟩, ⟨row + 1, 4 * i + 1, 1⟩,
             ⟨row + 1, 4 * i + 2, 1⟩, ⟨row + 1, 4 * i + 3, 1⟩], row + 2)

/-- Second loop of `buildLinearSystem` (`for i < N-1; i++, row++`). -/
def tangentStep (acc : List Write × Nat) (i : Nat) : List Write × Nat :=
  let row := acc.2
  (acc.1 ++ [⟨row, 4 * i + 1, 1⟩, ⟨row, 4 * i + 2, 2⟩, ⟨row, 4 * i + 3, 3⟩,
             ⟨row, 4 * i + 5, -1⟩], row + 1)

/-- Third loop of `buildLinearSystem` (`for i < N-1; i++, row++`). -/
def curvatureStep (acc : List Write × Nat) (i : Nat) : List Write × Nat :=
  let row := acc.2
  (acc.1 ++ [⟨row, 4 * i + 2, 2⟩, ⟨row, 4 * i + 3, 6⟩, ⟨row, 4 * i + 6, -2⟩], row + 1)

/-- All assignments to `A` made by `buildLinearSystem`, in program order. -/
def buildWrites : List Write :=
  let acc0 : List Write × Nat := ([], 0)
  let acc1 := (List.range N).foldl interpolationStep acc0
  let acc2 := (List.range (N - 1)).foldl tangentStep acc1
  let acc3 := (List.range (N - 1)).foldl curvatureStep acc2
  acc3.1 ++ [⟨acc3.2, 2, 2⟩]

/-- Function `void buildLinearSystem()`: the pair `(A, b)`, both `setZero()` first. -/
def buildLinearSystem : Mat × Mat :=
  (Mat.setZero.writes buildWrites, Mat.setZero)

/-- Entry `(r, j)` of an interpolation row `r < 2N`: row `2i` is `c0` of segment
`i`, row `2i+1` is `c0 + c1 + c2 + c3` of segment `i`. -/
def interpolationEntry (r j : Nat) : ℚ :=
  if r % 2 = 0 then (if j = 4 * (r / 2) then 1 else 0)
  else (if 4 * (r / 2) ≤ j ∧ j ≤ 4 * (r / 2) + 3 then 1 else 0)

/-- Entry `j` of the tangent-continuity row of segments `m`, `m + 1`. -/
def tangentEntry (m j : Nat) : ℚ :=
  if j = 4 * m + 1 then 1
  else if j = 4 * m + 2 then 2
  else if j = 4 * m + 3 then 3
  else if j = 4 * m + 5 then -1
  else 0

/-- Entry `j` of the second-derivative-continuity row of segments `m`, `m + 1`. -/
def curvatureEntry (m j : Nat) : ℚ :=
  if j = 4 * m + 2 then 2
  else if j = 4 * m + 3 then 6
  else if j = 4 * m + 6 then -2
  else 0

/-- Closed form of the matrix that `buildLinearSystem` leaves in `A` (`N = 11`):
rows 0..21 interpolation, 22..31 tangent continuity, 32..41 second-derivative
continuity, row 42 the start condition, everything else zero. -/
def builtEntry (r j : Nat) : ℚ :=
  if r < 22 then interpolationEntry r j
  else if r < 32 then tangentEntry (r - 22) j
  else if r < 42 then curvatureEntry (r - 32) j
  else if r = 42 ∧ j = 2 then 2
  else 0

/-- Body of the loop of `arrangeMatrix` (`for i < (int)p.size()-1; i++, row += 2`):
the six assignments to `b`.  `p.getD i _` is `p[i]`. -/
def rhsStep (p : List Vec3) (acc : List Write × Nat) (i : Nat) : List Write × Nat :=
  let row := acc.2
  let u := p.getD i ⟨0, 0, 0⟩
  let v := p.getD (i + 1) ⟨0, 0, 0⟩
  (acc.1 ++ [⟨row, 0, u.x⟩, ⟨row, 1, u.y⟩, ⟨row, 2, u.z⟩,
             ⟨row + 1, 0, v.x⟩, ⟨row + 1, 1, v.y⟩, ⟨row + 1, 2, v.z⟩], row + 2)

/-- All assignments to `b` made by `arrangeMatrix`, in program order. -/
def rhsWrites (p : List Vec3) : List Write :=
  ((List.range (p.length - 1)).foldl (rhsStep p) ([], 0)).1

/-- The assignments to `A` made by `arrangeMatrix` after `A.row(4*N-1).setZero()`:
none unless `p.size() >= 2`. -/
def boundaryWrites (p : List Vec3) : List Write :=
  if 2 ≤ p.length then
    [⟨4 * N - 1, 4 * (p.length - 2) + 2, 2⟩, ⟨4 * N - 1, 4 * (p.length - 2) + 3, 6⟩]
  else []

/-- Function `void arrangeMatrix()`: the new pair `(A, b)` from the old `A` and the points. -/
def arrangeMatrix (A : Mat) (p : List Vec3) : Mat × Mat :=
  ((A.zeroRow (4 * N - 1)).writes (boundaryWrites p), Mat.setZero.writes (rhsWrites p))

/-- The cubic that `drawNaturalCubicSpline` evaluates for segment `i` at `t`:
`c(4*i+0, k) + (c(4*i+1, k) + (c(4*i+2, k) + c(4*i+3, k)*t)*t)*t` for `k = 0, 1, 2`. -/
def cubicPoint (c : Mat) (i : Nat) (t : ℚ) : Vec3 :=
  ⟨c (4 * i + 0) 0 + (c (4 * i + 1) 0 + (c (4 * i + 2) 0 + c (4 * i + 3) 0 * t) * t) * t,
   c (4 * i + 0) 1 + (c (4 * i + 1) 1 + (c (4 * i + 2) 1 + c (4 * i + 3) 1 * t) * t) * t,
   c (4 * i + 0) 2 + (c (4 * i + 1) 2 + (c (4 * i + 2) 2 + c (4 * i + 3) 2 * t) * t) * t⟩

/-- The curve part of `drawNaturalCubicSpline`: one line strip of 40 vertices per
`i < (int)p.size()-1`. -/
def drawNaturalCubicSpline (p : List Vec3) (c : Mat) : List (List Vec3) :=
  (List.range (p.length - 1)).map fun i =>
    (List.range 40).map fun j => cubicPoint c i ((j : ℚ) / (40 - 1))

/-- Coordinate `k` of a point, as in `p[i][k]`. -/
def coord (v : Vec3) (k : Nat) : ℚ :=
  match k with
  | 0 => v.x
  | 1 => v.y
  | 2 => v.z
  | _ => 0

/-- The linear system `A * c = b` with `A` of size `4N x 4N` and `b`, `c` of size
`4N x 3`, written out entry by entry. -/
def Solves (A b c : Mat) : Prop :=
  ∀ r, r < 4 * N → ∀ k, k < 3 → (∑ j in Finset.range (4 * N), A r j * c j k) = b r k

/-- The matrix `A` as a `4N x 4N` matrix. -/
def systemMatrix (A : Mat) : Matrix (Fin (4 * N)) (Fin (4 * N)) ℚ :=
  Matrix.of fun i j => A i j

/-- The pair `(A, b)` after `buildLinearSystem()` followed by one
`arrangeMatrix()` on the points `p`. -/
def refreshedSystem (p : List Vec3) : Mat × Mat :=
  arrangeMatrix buildLinearSystem.1 p

/-- First derivative at `t` of coordinate `k` of the cubic of segment `i`:
`c1 + 2*c2*t + 3*c3*t^2`. -/
def firstDerivative (c : Mat) (i k : Nat) (t : ℚ) : ℚ :=
  c (4 * i + 1) k + 2 * c (4 * i + 2) k * t + 3 * c (4 * i + 3) k * t ^ 2

/-- Second derivative at `t` of coordinate `k` of the cubic of segment `i`:
`2*c2 + 6*c3*t`. -/
def secondDerivative (c : Mat) (i k : Nat) (t : ℚ) : ℚ :=
  2 * c (4 * i + 2) k + 6 * c (4 * i + 3) k * t

instance (A b c : Mat) : Decidable (Solves A b c) := by
  unfold Solves
  exact inferInstance

/-- The two data points `(0,0,0)`, `(1,0,0)` of the straight-line scenario. -/
def twoPoints : List Vec3 := [⟨0, 0, 0⟩, ⟨1, 0, 0⟩]

/-- Three equally spaced data points on the x axis. -/
def threePoints : List Vec3 := [⟨0, 0, 0⟩, ⟨1, 0, 0⟩, ⟨2, 0, 0⟩]

/-- First- and second-order x coefficients of the `i`-th inactive segment behind
a straight line of slope 1: `(1, 0)` on the first one, then carried through the
continuity rows. -/
def lineChain : Nat → ℚ × ℚ
  | 0 => (1, 0)
  | i + 1 => (-2 * (lineChain i).1 - (lineChain i).2, -3 * (lineChain i).1 - 2 * (lineChain i).2)

/-- The solution of the refreshed system for the `m + 1` data points
`(0,0,0), (1,0,0), ..., (m,0,0)`: only the x column is non-zero; an active
segment `i < m` has the coefficients `i, 1, 0, 0` and the inactive segment
`m + i` has `0, a, b, -(a + b)` with `(a, b) = lineChain i`. -/
def lineSolution (m : Nat) : Mat := fun j k =>
  if k = 0 ∧ j < 4 * N then
    if j / 4 < m then
      match j % 4 with
      | 0 => ((j / 4 : Nat) : ℚ)
      | 1 => 1
      | _ => 0
    else
      match j % 4 with
      | 0 => 0
      | 1 => (lineChain (j / 4 - m)).1
      | 2 => (lineChain (j / 4 - m)).2
      | _ => -((lineChain (j / 4 - m)).1 + (lineChain (j / 4 - m)).2)
  else 0

/-- The globals of `NaturalCubicSpline.cpp` that the callbacks and the main loop
change. -/
structure State where
  p : List Vec3
  mode : Mode
  dragPoint : ℤ
  isDragging : Bool
  xPos : ℚ
  yPos : ℚ
  A : Mat
  b : Mat
  c : Mat

/-- The state when the main loop starts: no point, `buildLinearSystem()` done,
`c` not yet computed. -/
def initial : State :=
  { p := [], mode := Mode.unset, dragPoint := 0, isDragging := false,
    xPos := 0, yPos := 0, A := buildLinearSystem.1, b := buildLinearSystem.2,
    c := Mat.setZero }

/-- The pair `arrangeMatrix(); solveLinearSystem();` on the current points.  The solver
`A.colPivHouseholderQr().solve(b)` belongs to Eigen and is a parameter. -/
def refresh (solve : Mat → Mat → Mat) (s : State) : State :=
  let Ab := arrangeMatrix s.A s.p
  { s with A := Ab.1, b := Ab.2, c := solve Ab.1 Ab.2 }

/-- Function `void keyboard(...)`. -/
def keyboard (s : State) (key : Key) (action : Action) : State :=
  { s with mode := keyboardMode s.mode key action }

/-- Function `void addDataPoint(float xPos, float yPos)`. -/
def addDataPoint (solve : Mat → Mat → Mat) (s : State) (xPos yPos : ℚ) : State :=
  refresh solve { s with p := s.p ++ [⟨xPos, yPos, 0⟩] }

/-- Function `void removeDataPoint(int index)`. -/
def removeDataPoint (solve : Mat → Mat → Mat) (s : State) (index : ℤ) : State :=
  if 0 ≤ index then refresh solve { s with p := erasePoint s.p index } else s

/-- Function `void dragDataPoint(int index)`. -/
def dragDataPoint (s : State) (index : ℤ) : State :=
  if 0 ≤ index then { s with dragPoint := index, isDragging := true } else s

/-- Function `void insertDataPoint(float xPos, float yPos)` in exact arithmetic. -/
def insertDataPoint (solve : Mat → Mat → Mat) (s : State) (xPos yPos : ℚ) : State :=
  if 0 ≤ nearestLine s.p ⟨xPos, yPos, 0⟩ then
    refresh solve { s with p := insertPoint s.p xPos yPos }
  else s

/-- The pair `glfwGetCursorPos(window, &xPos, &yPos); convertCoordinates(&xPos, &yPos);`. -/
def readCursor (g : Screen) (s : State) (cx cy : ℚ) : State :=
  { s with xPos := (convertCoordinates g cx cy).1, yPos := (convertCoordinates g cx cy).2 }

/-- Function `void mouse(...)` with the cursor at `(cx, cy)`. -/
def mouse (solve : Mat → Mat → Mat) (g : Screen) (s : State) (button : Button)
    (action : Action) (cx cy : ℚ) : State :=
  if button = Button.left ∧ action = Action.press then
    match s.mode with
    | Mode.a =>
      if s.p.length < N + 1 then
        let s1 := readCursor g s cx cy
        addDataPoint solve s1 s1.xPos s1.yPos
      else s
    | Mode.r =>
      let s1 := readCursor g s cx cy
      removeDataPoint solve s1 (selectPoint s1.p s1.xPos s1.yPos)
    | Mode.d =>
      let s1 := readCursor g s cx cy
      dragDataPoint s1 (selectPoint s1.p s1.xPos s1.yPos)
    | Mode.i =>
      if s.p.length < N + 1 then
        let s1 := readCursor g s cx cy
        insertDataPoint solve s1 s1.xPos s1.yPos
      else s
    | Mode.unset => s
  else if button = Button.left ∧ action = Action.release then
    match s.mode with
    | Mode.d => { s with isDragging := false }
    | _ => s
  else s

/-- The drag update of the main loop; `none` when `p[dragPoint]` is outside
`0 .. size-1`, where `std::vector::operator[]` has no defined result. -/
def dragUpdate (solve : Mat → Mat → Mat) (g : Screen) (s : State) (cx cy : ℚ) :
    Option State :=
  if s.isDragging then
    let s1 := readCursor g s cx cy
    if 0 ≤ s1.dragPoint ∧ s1.dragPoint < s1.p.length then
      let k := s1.dragPoint.toNat
      let p := s1.p.modify (fun v => { v with x := s1.xPos, y := s1.yPos }) k
      some (refresh solve { s1 with p := p })
    else none
  else some s

/-- One event of the natural-spline program. -/
def step (solve : Mat → Mat → Mat) (g : Screen) (s : State) : Event → Option State
  | Event.key k a => some (keyboard s k a)
  | Event.mouse b a cx cy => some (mouse solve g s b a cx cy)
  | Event.frame cx cy => dragUpdate solve g s cx cy

/-- A sequence of events, from left to right; `none` once a step is undefined. -/
def run (solve : Mat → Mat → Mat) (g : Screen) (s : State) : List Event → Option State
  | [] => some s
  | e :: es => (step solve g s e).bind fun s1 => run solve g s1 es

end NaturalSpline

/-! ## Further data for the properties of the point store, the rebuild and the drawing -/

/-- A store holding the single point `(0,0,0)`. -/
def singlePoint : List Vec3 := [⟨0, 0, 0⟩]

/-- Three stored points whose first one lies at `(5, 1)`, over the edge between
the other two. -/
def coincidentPoints : List Vec3 := [⟨5, 1, 0⟩, ⟨0, 0, 0⟩, ⟨10, 0, 0⟩]

/-- The function `construct` started on an array with arbitrary previous contents
`fresh`, which is what `new Vector3f[nControlPoints]` hands out. -/
def BSpline.constructFrom (fresh : List (Option Vec3)) (p : List Vec3) (r : Nat) :
    BSpline.Expanded :=
  { nControlPoints := p.length + 2 * r
    controlPoints := BSpline.repeatEnds p.length r (BSpline.copyStored p r fresh) }

/-- The matrix `A` after `buildLinearSystem()` and then one `arrangeMatrix()` for
each point list of `history`, in order. -/
def NaturalSpline.refreshedAfter (history : List (List Vec3)) : NaturalSpline.Mat :=
  history.foldl (fun A p => (NaturalSpline.arrangeMatrix A p).1) NaturalSpline.buildLinearSystem.1

/-- The entries `c(row, col)` that `drawNaturalCubicSpline` reads to evaluate the
cubic of segment `i`, in source order (x, then y, then z). -/
def NaturalSpline.segmentReads (i : Nat) : List (Nat × Nat) :=
  [(4 * i + 0, 0), (4 * i + 1, 0), (4 * i + 2, 0), (4 * i + 3, 0),
   (4 * i + 0, 1), (4 * i + 1, 1), (4 * i + 2, 1), (4 * i + 3, 1),
   (4 * i + 0, 2), (4 * i + 1, 2), (4 * i + 2, 2), (4 * i + 3, 2)]

/-- All entries of `c` that `drawNaturalCubicSpline` reads: those of every
segment `i < (int)p.size()-1`. -/
def NaturalSpline.drawReads (p : List Vec3) : List (Nat × Nat) :=
  (List.range (p.length - 1)).flatMap NaturalSpline.segmentReads

/-- Events that add a point at window position `(1, 1)`, start dragging it,
switch to remove mode with the button held, release, and remove the point. -/
def staleDragEvents : List Event :=
  [Event.key Key.A Action.press,
   Event.mouse Button.left Action.press 1 1,
   Event.mouse Button.left Action.release 1 1,
   Event.key Key.D Action.press,
   Event.mouse Button.left Action.press 1 1,
   Event.frame 1 1,
   Event.key Key.R Action.press,
   Event.mouse Button.left Action.release 1 1,
   Event.mouse Button.left Action.press 1 1]

/-- Events that add a point at window position `(1, 1)` and remove it again. -/
def addRemoveEvents : List Event :=
  [Event.key Key.A Action.press,
   Event.mouse Button.left Action.press 1 1,
   Event.mouse Button.left Action.release 1 1,
   Event.key Key.R Action.press,
   Event.mouse Button.left Action.press 1 1]

/-- The expanded array of the scenario points with `r = 2`, as plain values. -/
def BSpline.scenarioExpanded : List Vec3 :=
  [⟨0, 0, 0⟩, ⟨0, 0, 0⟩, ⟨0, 0, 0⟩, ⟨10, 0, 0⟩, ⟨10, 10, 0⟩, ⟨10, 10, 0⟩, ⟨10, 10, 0⟩]

/-! ## The arithmetic of the two searches

The source computes the distances that `selectPoint` and the edge search
compare with 15 and 10 in binary floating point: `selectPoint` of the B-spline
program in `double`, `selectPoint` of the natural-spline program in `double`
narrowed to `float`, and the edge search of both programs in `float` through
Eigen.  `roundFloat` and `sqrtFloat` are the IEEE 754 operations "round to
nearest, ties to even" and "correctly rounded square root" for a format with
`P` significant bits.  The exponent range of the formats is not imposed (no
overflow, no subnormal numbers): the exponents from -2048 to 2047 are there,
which holds every finite `float` and `double`.  Every C++ operation is rounded on
its own (no fused multiply-add, no wider intermediate format). -/

/-- The power `2^e` for an integer exponent. -/
def twoPow (e : ℤ) : ℚ :=
  if 0 ≤ e then ((2 ^ e.toNat : Nat) : ℚ) else 1 / ((2 ^ (-e).toNat : Nat) : ℚ)

/-- Binary search for the exponent: the bits `2^(k-1), ..., 2, 1` are added to `r`
from the highest down, each one kept when `2^(r + bit - 2048) ≤ q`. -/
def binaryExponentAux (q : ℚ) : Nat → Nat → Nat
  | 0, r => r
  | k + 1, r =>
    if twoPow (((r + 2 ^ k : Nat) : ℤ) - 2048) ≤ q then binaryExponentAux q k (r + 2 ^ k)
    else binaryExponentAux q k r

/-- The exponent of a nonzero number: the integer `e` with `2^e ≤ |q| < 2^(e+1)`,
searched in `-2048 ≤ e < 2048`, which holds every finite `float` and `double`. -/
def binaryExponent (q : ℚ) : ℤ := (binaryExponentAux |q| 12 0 : ℤ) - 2048

/-- Rounding of the integer part `n` with remainder `r` in `[0, 1)`: to the
nearest integer, a tie to the even one. -/
def nearestEven (n : ℤ) (r : ℚ) : ℤ :=
  if r < 1 / 2 then n else if 1 / 2 < r then n + 1 else if n % 2 = 0 then n else n + 1

/-- Rounding to the nearest number with `P` significant bits, ties to even:
the result of an IEEE 754 operation whose exact value is `q`. -/
def roundFloat (P : Nat) (q : ℚ) : ℚ :=
  if q = 0 then 0 else
    let ulp := twoPow (binaryExponent q - ((P : ℤ) - 1))
    let m := |q| / ulp
    let n := (nearestEven ⌊m⌋ (m - ⌊m⌋) : ℚ) * ulp
    if q < 0 then -n else n

/-- Integer square root by binary search: the bits `2^(k-1), ..., 2, 1` are added
to `r` from the highest down, each one kept when the square stays at most `n`. -/
def isqrtAux (n : Nat) : Nat → Nat → Nat
  | 0, r => r
  | k + 1, r =>
    if (r + 2 ^ k) * (r + 2 ^ k) ≤ n then isqrtAux n k (r + 2 ^ k) else isqrtAux n k r

/-- The integer nearest to the square root of `t`, for `0 ≤ t < 4^P`, a tie to the
even one: `n` is the integer part of the root, found as the integer square root
of the integer part of `t`, and the rounding compares `t` with `(n + 1/2)²`. -/
def nearestRoot (P : Nat) (t : ℚ) : ℤ :=
  let n : ℤ := (isqrtAux ⌊t⌋.toNat P 0 : ℤ)
  let half : ℚ := ((n : ℚ) + 1 / 2) * ((n : ℚ) + 1 / 2)
  if t < half then n else if half < t then n + 1 else if n % 2 = 0 then n else n + 1

/-- The correctly rounded square root with `P` significant bits, the result of the
IEEE 754 operation `sqrt`: with `ulp` the grid spacing at the root, it is the
integer nearest to `√q / ulp`, the root of `q / ulp²`, times `ulp`. -/
def sqrtFloat (P : Nat) (q : ℚ) : ℚ :=
  if q ≤ 0 then 0 else
    let ulp := twoPow (Int.fdiv (binaryExponent q) 2 - ((P : ℤ) - 1))
    (nearestRoot P (q / (ulp * ulp)) : ℚ) * ulp

/-- An operation result in C++ `float` (IEEE 754 binary32, 24 significant bits). -/
def float32 (q : ℚ) : ℚ := roundFloat 24 q

/-- An operation result in C++ `double` (IEEE 754 binary64, 53 significant bits). -/
def float64 (q : ℚ) : ℚ := roundFloat 53 q

/-- The function `sqrt` on a `float`. -/
def sqrt32 (q : ℚ) : ℚ := sqrtFloat 24 q

/-- The function `sqrt` on a `double`. -/
def sqrt64 (q : ℚ) : ℚ := sqrtFloat 53 q

namespace Vec3

/-- Difference of two `Vector3f`. -/
def subF (u v : Vec3) : Vec3 := ⟨float32 (u.x - v.x), float32 (u.y - v.y), float32 (u.z - v.z)⟩

/-- Product `s * u` of a `float` and a `Vector3f`. -/
def scaleF (s : ℚ) (u : Vec3) : Vec3 := ⟨float32 (s * u.x), float32 (s * u.y), float32 (s * u.z)⟩

/-- Quotient `u / s` of a `Vector3f` by a `float`. -/
def divideF (u : Vec3) (s : ℚ) : Vec3 := ⟨float32 (u.x / s), float32 (u.y / s), float32 (u.z / s)⟩

/-- Eigen `dot` of two `Vector3f`: the three products are summed by the unrolled
reduction of Eigen, first half plus second half, which is `x + (y + z)`. -/
def dotF (u v : Vec3) : ℚ :=
  float32 (float32 (u.x * v.x) + float32 (float32 (u.y * v.y) + float32 (u.z * v.z)))

/-- Eigen `normalized`: `z = squaredNorm(); if (z > 0) return n / sqrt(z); else return n;`. -/
def normalizedF (u : Vec3) : Vec3 :=
  let z := u.dotF u
  if z > 0 then u.divideF (sqrt32 z) else u

end Vec3

/-- The distance expression of `selectPoint` in the B-spline program:
`double dist = sqrt((x - p[i][0]) * (x - p[i][0]) + (y - p[i][1]) * (y - p[i][1]))`
with `double x, y` and the `float` coordinates widened to `double`. -/
def doubleDist (x y : ℚ) (v : Vec3) : ℚ :=
  sqrt64 (float64 (float64 (float64 (x - v.x) * float64 (x - v.x)) +
    float64 (float64 (y - v.y) * float64 (y - v.y))))

/-- The distance expression of `selectPoint` in the natural-spline program:
`float dist = sqrt(...)`, the `double` value of the same expression narrowed
to `float`. -/
def floatDist (x y : ℚ) (v : Vec3) : ℚ := float32 (doubleDist x y v)

/-- The "line segment area" test in `float`:
`(p[i+1]-p[i]).dot(inputPos-p[i]) > 0 && (p[i]-p[i+1]).dot(inputPos-p[i+1]) > 0`. -/
def inSegmentAreaF (a b q : Vec3) : Bool :=
  decide ((b.subF a).dotF (q.subF a) > 0) && decide ((a.subF b).dotF (q.subF b) > 0)

/-- Eigen `ParametrizedLine<float, 3>::Through(a, b).distance(q)`: the line has
`origin = a` and `direction = (b - a).normalized()`; `squaredDistance` is
`diff = q - origin; (diff - direction.dot(diff) * direction).squaredNorm()`, and
`distance` is its `sqrt`. -/
def lineDistF (a b q : Vec3) : ℚ :=
  let direction := (b.subF a).normalizedF
  let diff := q.subF a
  let w := diff.subF (Vec3.scaleF (direction.dotF diff) direction)
  sqrt32 (w.dotF w)

/-- The arithmetic that the point searches run on: the narrowing of a `double`
argument to the `float` parameter that is stored, the distance from the query
to a stored point with the start value of `minDist` in `selectPoint`, and the
segment test and the distance from the query to a line with the start value of
`minDist` in the edge search. -/
structure Arith where
  store : ℚ → ℚ
  pointDist : ℚ → ℚ → Vec3 → ℚ
  pointLimit : ℚ
  inArea : Vec3 → Vec3 → Vec3 → Bool
  lineDist : Vec3 → Vec3 → Vec3 → ℚ
  lineLimit : ℚ

/-- Exact arithmetic: nothing is rounded; the distances and the limits are
carried as their squares, which compare like the distances themselves. -/
def exactArith : Arith where
  store := id
  pointDist := planarDistSq
  pointLimit := 15 * 15
  inArea := fun a b q => decide (inSegmentArea a b q)
  lineDist := lineDistSq
  lineLimit := 10 * 10

/-- The arithmetic of `BSpline.cpp`: `selectPoint` in `double`, the edge search in `float`. -/
def bsplineArith : Arith where
  store := float32
  pointDist := doubleDist
  pointLimit := 15
  inArea := inSegmentAreaF
  lineDist := lineDistF
  lineLimit := 10

/-- The arithmetic of `NaturalCubicSpline.cpp`: `selectPoint` with `float dist` and
`float minDist`, the edge search in `float`. -/
def naturalArith : Arith where
  store := float32
  pointDist := floatDist
  pointLimit := 15
  inArea := inSegmentAreaF
  lineDist := lineDistF
  lineLimit := 10

/-- Body of the loop of `selectPoint` on the arithmetic `A`.  The accumulator is
`(minDist, nearestPoint)`. -/
def selectStepWith (A : Arith) (p : List Vec3) (x y : ℚ) (acc : ℚ × ℤ) (i : Nat) : ℚ × ℤ :=
  let dist := A.pointDist x y (p.getD i ⟨0, 0, 0⟩)
  if dist < acc.1 then (dist, (i : ℤ)) else acc

/-- Function `int selectPoint(double x, double y)` on the arithmetic `A`. -/
def selectPointWith (A : Arith) (p : List Vec3) (x y : ℚ) : ℤ :=
  ((List.range p.length).foldl (selectStepWith A p x y) (A.pointLimit, -1)).2

/-- Body of the search loop of `insertControlPoint` / `insertDataPoint` on the
arithmetic `A`.  The accumulator is `(minDist, nearestLine)`. -/
def nearestLineStepWith (A : Arith) (p : List Vec3) (inputPos : Vec3) (acc : ℚ × ℤ)
    (i : Nat) : ℚ × ℤ :=
  let a := p.getD i ⟨0, 0, 0⟩
  let b := p.getD (i + 1) ⟨0, 0, 0⟩
  if A.inArea a b inputPos = true then
    let dist := A.lineDist a b inputPos
    if dist < acc.1 then (dist, (i : ℤ)) else acc
  else acc

/-- The search loop of `insertControlPoint` / `insertDataPoint` on the arithmetic `A`. -/
def nearestLineWith (A : Arith) (p : List Vec3) (inputPos : Vec3) : ℤ :=
  ((List.range (p.length - 1)).foldl (nearestLineStepWith A p inputPos) (A.lineLimit, -1)).2

/-- The point `Vector3f inputPos(xPos, yPos, 0)` built from the `float` parameters
of `insertControlPoint` / `insertDataPoint`. -/
def inputPoint (A : Arith) (xPos yPos : ℚ) : Vec3 := ⟨A.store xPos, A.store yPos, 0⟩

/-- The list part of `insertControlPoint` / `insertDataPoint` on the arithmetic `A`. -/
def insertPointWith (A : Arith) (p : List Vec3) (xPos yPos : ℚ) : List Vec3 :=
  let inputPos := inputPoint A xPos yPos
  let nearest := nearestLineWith A p inputPos
  if 0 ≤ nearest then p.insertIdx (nearest.toNat + 1) inputPos else p

/-- Segment `i` of the polygon `p` qualifies for the insertion of `q` on the
arithmetic `A`: the segment test holds and the computed distance is below the
start value of `minDist`. -/
def QualifiesWith (A : Arith) (p : List Vec3) (q : Vec3) (i : Nat) : Prop :=
  i + 1 < p.length ∧
  A.inArea (p.getD i ⟨0, 0, 0⟩) (p.getD (i + 1) ⟨0, 0, 0⟩) q = true ∧
  A.lineDist (p.getD i ⟨0, 0, 0⟩) (p.getD (i + 1) ⟨0, 0, 0⟩) q < A.lineLimit

/-- Function `void insertControlPoint(float xPos, float yPos)` on the arithmetic `A`. -/
def BSpline.insertControlPointWith (A : Arith) (s : BSpline.State) (xPos yPos : ℚ) :
    BSpline.State :=
  if 0 ≤ nearestLineWith A s.p (inputPoint A xPos yPos) then
    let p := insertPointWith A s.p xPos yPos
    { s with p := p, expanded := BSpline.construct p s.repetition }
  else s

/-- Function `void insertDataPoint(float xPos, float yPos)` on the arithmetic `A`. -/
def NaturalSpline.insertDataPointWith (A : Arith)
    (solve : NaturalSpline.Mat → NaturalSpline.Mat → NaturalSpline.Mat)
    (s : NaturalSpline.State) (xPos yPos : ℚ) : NaturalSpline.State :=
  if 0 ≤ nearestLineWith A s.p (inputPoint A xPos yPos) then
    NaturalSpline.refresh solve { s with p := insertPointWith A s.p xPos yPos }
  else s

/-- Two stored points whose edge is at distance exactly 10 from `(23, 14)`. -/
def edgeAtTen : List Vec3 := [⟨0, 0, 0⟩, ⟨18, 24, 0⟩]

/-- Two stored points whose edge is at squared distance `25304498 / 253045`, just
below 100, from `(-6, 8)`. -/
def edgeBelowTen : List Vec3 := [⟨0, 0, 0⟩, ⟨569, 427, 0⟩]

end CurveEditing

/-! # Theorems -/

namespace CurveEditing

/-- Loop rule: an invariant that holds before a counted loop and is kept by every
iteration holds after it. -/
theorem foldl_range_invariant {α : Type} (f : α → Nat → α) (P : Nat → α → Prop)
    (a0 : α) (n : Nat) (h0 : P 0 a0)
    (hstep : ∀ k a, k < n → P k a → P (k + 1) (f a k)) :
    P n ((List.range n).foldl f a0) := by
  induction n with
  | zero => simpa using h0
  | succ m ih =>
    rw [List.range_succ, List.foldl_append]
    simp only [List.foldl_cons, List.foldl_nil]
    apply hstep m _ (Nat.lt_succ_self m)
    exact ih (fun k a hk hP => hstep k a (Nat.lt_succ_of_lt hk) hP)

namespace BSpline

theorem readAt_set (l : List (Option Vec3)) (i j : Nat) (a : Option Vec3) :
    readAt (l.set i a) j = if i = j ∧ i < l.length then a else readAt l j := by
  unfold readAt
  rw [List.getD_eq_getElem?_getD, List.getD_eq_getElem?_getD, List.getElem?_set]
  by_cases hij : i = j
  · subst hij
    by_cases hl : i < l.length
    · simp [hl]
    · have : l[i]? = none := List.getElem?_eq_none (by omega)
      simp [hl, this]
  · simp [hij]

theorem readAt_replicate (n j : Nat) : readAt (List.replicate n none) j = none := by
  unfold readAt
  rw [List.getD_eq_getElem?_getD, List.getElem?_replicate]
  split <;> rfl

/-- State of the array after the first loop of `construct`. -/
theorem copyStored_spec (p : List Vec3) (r : Nat) :
    (copyStored p r (List.replicate (p.length + 2 * r) none)).length = p.length + 2 * r ∧
    ∀ j, readAt (copyStored p r (List.replicate (p.length + 2 * r) none)) j =
      if r ≤ j ∧ j < r + p.length then p[j - r]? else none := by
  unfold copyStored
  refine foldl_range_invariant (fun a i => a.set (i + r) p[i]?)
    (fun k a => a.length = p.length + 2 * r ∧
      ∀ j, readAt a j = if r ≤ j ∧ j < r + k then p[j - r]? else none)
    _ p.length ?_ ?_
  · refine ⟨by simp, fun j => ?_⟩
    rw [readAt_replicate, if_neg (by omega)]
  · rintro k a hk ⟨hlen, hrd⟩
    refine ⟨by simp [hlen], fun j => ?_⟩
    rw [readAt_set, hrd j]
    split_ifs <;> first | rfl | (exfalso; omega) | (congr 1; omega)

/-- Contents of the expanded array, entry by entry, for a non-empty point list. -/
theorem construct_entries (p : List Vec3) (r : Nat) (hL : 1 ≤ p.length) :
    (construct p r).controlPoints.length = p.length + 2 * r ∧
    ∀ j, readAt (construct p r).controlPoints j =
      if r ≤ j ∧ j < r + p.length then p[j - r]?
      else if j < r then p[0]?
      else if p.length + r ≤ j ∧ j < p.length + 2 * r then p[p.length - 1]?
      else none := by
  obtain ⟨hlen0, hrd0⟩ := copyStored_spec p r
  show (repeatEnds p.length r _).length = _ ∧ ∀ j, readAt (repeatEnds p.length r _) j = _
  unfold repeatEnds
  have key := foldl_range_invariant (repeatStep p.length r)
    (fun k a => a.length = p.length + 2 * r ∧
      ∀ j, readAt a j =
        if r ≤ j ∧ j < r + p.length then p[j - r]?
        else if j < k then p[0]?
        else if p.length + r ≤ j ∧ j < p.length + r + k then p[p.length - 1]?
        else none)
    (copyStored p r (List.replicate (p.length + 2 * r) none)) r ?_ ?_
  · refine ⟨key.1, fun j => ?_⟩
    rw [key.2 j]
    have : p.length + r + r = p.length + 2 * r := by omega
    rw [this]
  · refine ⟨hlen0, fun j => ?_⟩
    rw [hrd0 j]
    split_ifs <;> first | rfl | (exfalso; omega)
  · rintro k a hk ⟨hlen, hrd⟩
    have hr0 : readAt a r = p[0]? := by
      rw [hrd r, if_pos (by omega)]
      congr 1
      omega
    have hlast : readAt (a.set k (readAt a r)) (p.length + r - 1) = p[p.length - 1]? := by
      rw [readAt_set, if_neg (by omega), hrd, if_pos (by omega)]
      congr 1
      omega
    unfold repeatStep
    refine ⟨by simp [hlen], fun j => ?_⟩
    simp only []
    rw [readAt_set, hlast, readAt_set, hr0, hrd j, List.length_set]
    split_ifs <;> first | rfl | (exfalso; omega)

theorem getElem?_of_readAt (cp : List (Option Vec3)) (j : Nat) (v : Vec3)
    (h : readAt cp j = some v) : cp[j]? = some (some v) := by
  unfold readAt at h
  rw [List.getD_eq_getElem?_getD] at h
  cases hc : cp[j]? with
  | none => rw [hc] at h; simp at h
  | some o => rw [hc] at h; simpa using h

/-- C1: for a non-empty stored point list `p` of length `L` and a repetition
count `r`, `construct r` yields an array of length `L + 2r` (also recorded in
`nControlPoints`) whose entry `i + r` is `p[i]`, whose entries below `r` are the
first stored point and whose entries from `L + r` on are the last stored point. -/
theorem construct_expanded (p : List Vec3) (r : Nat) (hL : 1 ≤ p.length) :
    (construct p r).nControlPoints = p.length + 2 * r ∧
    (construct p r).controlPoints.length = p.length + 2 * r ∧
    (∀ i, (hi : i < p.length) → (construct p r).controlPoints[i + r]? = some (some p[i])) ∧
    (∀ i, i < r → (construct p r).controlPoints[i]? = some (some p[0])) ∧
    (∀ i, p.length + r ≤ i → i < p.length + 2 * r →
      (construct p r).controlPoints[i]? = some (some p[p.length - 1])) := by
  obtain ⟨hlen, hrd⟩ := construct_entries p r hL
  refine ⟨rfl, hlen, fun i hi => ?_, fun i hi => ?_, fun i h1 h2 => ?_⟩
  · apply getElem?_of_readAt
    rw [hrd, if_pos (by omega)]
    have : i + r - r = i := by omega
    rw [this, List.getElem?_eq_getElem hi]
  · apply getElem?_of_readAt
    rw [hrd, if_neg (by omega), if_pos hi, List.getElem?_eq_getElem]
  · apply getElem?_of_readAt
    rw [hrd, if_neg (by omega), if_neg (by omega), if_pos ⟨h1, h2⟩, List.getElem?_eq_getElem]

/-- C1 at the scenario points with `r = 2`. -/
theorem construct_expanded_witness :
    1 ≤ scenarioPoints.length ∧
    (construct scenarioPoints 2).nControlPoints = scenarioPoints.length + 2 * 2 ∧
    (construct scenarioPoints 2).controlPoints.length = scenarioPoints.length + 2 * 2 ∧
    (∀ i, (hi : i < scenarioPoints.length) →
      (construct scenarioPoints 2).controlPoints[i + 2]? = some (some scenarioPoints[i])) ∧
    (∀ i, i < 2 → (construct scenarioPoints 2).controlPoints[i]? = some (some scenarioPoints[0])) ∧
    (∀ i, scenarioPoints.length + 2 ≤ i → i < scenarioPoints.length + 2 * 2 →
      (construct scenarioPoints 2).controlPoints[i]? =
        some (some scenarioPoints[scenarioPoints.length - 1])) :=
  ⟨by decide, construct_expanded scenarioPoints 2 (by decide)⟩

/-- C7: the values of `BsplinePoint` at `t = 0` and `t = 1`, and the polynomial it
evaluates, coordinate by coordinate. -/
theorem BsplinePoint_endpoints (b : Fin 4 → Vec3) :
    BsplinePoint b 0 =
      ⟨((b 0).x + 4 * (b 1).x + (b 2).x) / 6, ((b 0).y + 4 * (b 1).y + (b 2).y) / 6,
       ((b 0).z + 4 * (b 1).z + (b 2).z) / 6⟩ ∧
    BsplinePoint b 1 =
      ⟨((b 1).x + 4 * (b 2).x + (b 3).x) / 6, ((b 1).y + 4 * (b 2).y + (b 3).y) / 6,
       ((b 1).z + 4 * (b 2).z + (b 3).z) / 6⟩ ∧
    ∀ t : ℚ, BsplinePoint b t =
      ⟨((b 0).x * (1 - 3 * t + 3 * t ^ 2 - t ^ 3) + (b 1).x * (4 - 6 * t ^ 2 + 3 * t ^ 3)
          + (b 2).x * (1 + 3 * t + 3 * t ^ 2 - 3 * t ^ 3) + (b 3).x * t ^ 3) / 6,
       ((b 0).y * (1 - 3 * t + 3 * t ^ 2 - t ^ 3) + (b 1).y * (4 - 6 * t ^ 2 + 3 * t ^ 3)
          + (b 2).y * (1 + 3 * t + 3 * t ^ 2 - 3 * t ^ 3) + (b 3).y * t ^ 3) / 6,
       ((b 0).z * (1 - 3 * t + 3 * t ^ 2 - t ^ 3) + (b 1).z * (4 - 6 * t ^ 2 + 3 * t ^ 3)
          + (b 2).z * (1 + 3 * t + 3 * t ^ 2 - 3 * t ^ 3) + (b 3).z * t ^ 3) / 6⟩ := by
  refine ⟨?_, ?_, fun t => ?_⟩ <;>
    simp only [BsplinePoint, Vec3.add, Vec3.scale, Vec3.divide, Vec3.mk.injEq] <;>
    refine ⟨?_, ?_, ?_⟩ <;> ring

/-- A window of three copies of `v` followed by anything starts at `v`. -/
theorem BsplinePoint_zero_clamped (v w : Vec3) : BsplinePoint ![v, v, v, w] 0 = v := by
  cases v
  simp only [BsplinePoint, Vec3.add, Vec3.scale, Vec3.divide, Vec3.mk.injEq,
    Matrix.cons_val_zero, Matrix.cons_val_one, Matrix.head_cons, Matrix.cons_val_two,
    Matrix.tail_cons, Matrix.cons_val_three]
  refine ⟨?_, ?_, ?_⟩ <;> ring

/-- A window of anything followed by three copies of `v` ends at `v`. -/
theorem BsplinePoint_one_clamped (v w : Vec3) : BsplinePoint ![w, v, v, v] 1 = v := by
  cases v
  simp only [BsplinePoint, Vec3.add, Vec3.scale, Vec3.divide, Vec3.mk.injEq,
    Matrix.cons_val_zero, Matrix.cons_val_one, Matrix.head_cons, Matrix.cons_val_two,
    Matrix.tail_cons, Matrix.cons_val_three]
  refine ⟨?_, ?_, ?_⟩ <;> ring

theorem sampleSegment_length (b : Fin 4 → Vec3) : (sampleSegment b).length = 40 := by
  simp [sampleSegment, N_POINTS_PER_SEGMENTS]

theorem sampleSegment_first (b : Fin 4 → Vec3) :
    (sampleSegment b)[0]? = some (BsplinePoint b 0) := by
  simp [sampleSegment, N_POINTS_PER_SEGMENTS, sampleParam, List.getElem?_range]

theorem sampleSegment_last (b : Fin 4 → Vec3) :
    (sampleSegment b)[39]? = some (BsplinePoint b 1) := by
  have h : sampleParam 39 = 1 := by norm_num [sampleParam, N_POINTS_PER_SEGMENTS]
  simp [sampleSegment, N_POINTS_PER_SEGMENTS, List.getElem?_range, h]

theorem drawBSpline_getElem? (e : Expanded) (i : Nat) (hi : i < e.nControlPoints - 3) :
    (drawBSpline e)[i]? = some ((window e.controlPoints i).map sampleSegment) := by
  simp [drawBSpline, List.getElem?_range, hi]

/-- C5: with repetition 2 and a non-empty stored list of length `L`, the sampled
curve has `L + 1` segments, its first sample is the first stored point and the
last sample (`j = 39`, that is `t = 1`) of its last segment is the last stored
point. -/
theorem clamped_interpolates_ends (p : List Vec3) (hL : 1 ≤ p.length) :
    (drawBSpline (construct p 2)).length = p.length + 1 ∧
    sampleParam 0 = 0 ∧ sampleParam 39 = 1 ∧
    ∃ first last : List Vec3,
      (drawBSpline (construct p 2))[0]? = some (some first) ∧
      first[0]? = some p[0] ∧
      (drawBSpline (construct p 2))[p.length]? = some (some last) ∧
      last.length = 40 ∧
      last[39]? = some p[p.length - 1] := by
  obtain ⟨-, hrd⟩ := construct_entries p 2 hL
  have hn : (construct p 2).nControlPoints = p.length + 2 * 2 := rfl
  have h0 : readAt (construct p 2).controlPoints 0 = some p[0] := by
    rw [hrd, if_neg (by omega), if_pos (by omega), List.getElem?_eq_getElem]
  have h1 : readAt (construct p 2).controlPoints (0 + 1) = some p[0] := by
    rw [hrd, if_neg (by omega), if_pos (by omega), List.getElem?_eq_getElem]
  have h2 : readAt (construct p 2).controlPoints (0 + 2) = some p[0] := by
    rw [hrd, if_pos (by omega), List.getElem?_eq_getElem]
  have h3 : ∃ w, readAt (construct p 2).controlPoints (0 + 3) = some w := by
    rw [hrd]
    by_cases h : 2 ≤ p.length
    · rw [if_pos (by omega)]
      exact ⟨p[1], List.getElem?_eq_getElem (by omega)⟩
    · rw [if_neg (by omega), if_neg (by omega), if_pos (by omega)]
      exact ⟨p[p.length - 1], List.getElem?_eq_getElem (by omega)⟩
  have e1 : readAt (construct p 2).controlPoints (p.length + 1) = some p[p.length - 1] := by
    rw [hrd, if_pos (by omega)]
    have : p.length + 1 - 2 = p.length - 1 := by omega
    rw [this, List.getElem?_eq_getElem]
  have e2 : readAt (construct p 2).controlPoints (p.length + 2) = some p[p.length - 1] := by
    rw [hrd, if_neg (by omega), if_neg (by omega), if_pos (by omega), List.getElem?_eq_getElem]
  have e3 : readAt (construct p 2).controlPoints (p.length + 3) = some p[p.length - 1] := by
    rw [hrd, if_neg (by omega), if_neg (by omega), if_pos (by omega), List.getElem?_eq_getElem]
  have e0 : ∃ w, readAt (construct p 2).controlPoints p.length = some w := by
    rw [hrd]
    by_cases h : 2 ≤ p.length
    · rw [if_pos (by omega)]
      exact ⟨p[p.length - 2], List.getElem?_eq_getElem (by omega)⟩
    · rw [if_neg (by omega), if_pos (by omega)]
      exact ⟨p[0], List.getElem?_eq_getElem (by omega)⟩
  obtain ⟨w3, h3⟩ := h3
  obtain ⟨w0, e0⟩ := e0
  have hw0 : window (construct p 2).controlPoints 0 = some ![p[0], p[0], p[0], w3] := by
    unfold window
    rw [h0, h1, h2, h3]
  have hwL : window (construct p 2).controlPoints p.length =
      some ![w0, p[p.length - 1], p[p.length - 1], p[p.length - 1]] := by
    unfold window
    rw [e0, e1, e2, e3]
  refine ⟨by simp [drawBSpline, hn], by simp [sampleParam],
    by norm_num [sampleParam, N_POINTS_PER_SEGMENTS],
    sampleSegment ![p[0], p[0], p[0], w3],
    sampleSegment ![w0, p[p.length - 1], p[p.length - 1], p[p.length - 1]], ?_, ?_, ?_, ?_, ?_⟩
  · rw [drawBSpline_getElem? _ _ (by rw [hn]; omega), hw0]; rfl
  · rw [sampleSegment_first, BsplinePoint_zero_clamped]
  · rw [drawBSpline_getElem? _ _ (by rw [hn]; omega), hwL]; rfl
  · exact sampleSegment_length _
  · rw [sampleSegment_last, BsplinePoint_one_clamped]

/-- C5 at the scenario points. -/
theorem clamped_interpolates_ends_witness :
    1 ≤ scenarioPoints.length ∧
    (drawBSpline (construct scenarioPoints 2)).length = scenarioPoints.length + 1 ∧
    sampleParam 0 = 0 ∧ sampleParam 39 = 1 ∧
    ∃ first last : List Vec3,
      (drawBSpline (construct scenarioPoints 2))[0]? = some (some first) ∧
      first[0]? = some scenarioPoints[0] ∧
      (drawBSpline (construct scenarioPoints 2))[scenarioPoints.length]? = some (some last) ∧
      last.length = 40 ∧
      last[39]? = some scenarioPoints[scenarioPoints.length - 1] :=
  ⟨by decide, clamped_interpolates_ends scenarioPoints (by decide)⟩

/-- C6, as stated, fails: for the scenario points with `r = 2` the first evaluated
point (segment 0 at `t = 0`) does not have x-coordinate `(0 + 4*0 + 10)/6`. -/
theorem scenario_first_point_not_ten_sixths :
    ¬ ((window (construct scenarioPoints 2).controlPoints 0).map
        (fun b => (BsplinePoint b 0).x) = some ((0 + 4 * 0 + 10) / 6)) := by
  decide!

/-- C6, amended: for the scenario points with `r = 2` the expanded array has 7
entries and starts with three copies of `(0,0,0)` followed by `(10,0,0)`, the
curve has 4 segments, and the first evaluated point (segment 0 at `t = 0`, the
first vertex that `drawBSpline` emits) has x-coordinate `(0 + 4*0 + 0)/6 = 0`. -/
theorem scenario_first_point :
    (construct scenarioPoints 2).controlPoints.length = 7 ∧
    (construct scenarioPoints 2).controlPoints.take 4 =
      [some ⟨0, 0, 0⟩, some ⟨0, 0, 0⟩, some ⟨0, 0, 0⟩, some ⟨10, 0, 0⟩] ∧
    (drawBSpline (construct scenarioPoints 2)).length = 4 ∧
    (window (construct scenarioPoints 2).controlPoints 0).map
        (fun b => (BsplinePoint b 0).x) = some ((0 + 4 * 0 + 0) / 6) ∧
    ((drawBSpline (construct scenarioPoints 2))[0]?.join.bind
        (fun s => s[0]?)).map (fun v => v.x) = some 0 := by
  decide!

end BSpline

end CurveEditing

namespace CurveEditing

/-! ## Point store searches -/

theorem planarDistSq_nonneg (x y : ℚ) (v : Vec3) : 0 ≤ planarDistSq x y v := by
  unfold planarDistSq
  exact add_nonneg (mul_self_nonneg _) (mul_self_nonneg _)

theorem lineDistSq_nonneg (a b q : Vec3) : 0 ≤ lineDistSq a b q := by
  unfold lineDistSq Vec3.dot
  exact add_nonneg (add_nonneg (mul_self_nonneg _) (mul_self_nonneg _)) (mul_self_nonneg _)

theorem sqrt_cast_lt_iff (a b : ℚ) (ha : 0 ≤ a) :
    Real.sqrt (a : ℝ) < Real.sqrt (b : ℝ) ↔ a < b := by
  rw [Real.sqrt_lt_sqrt_iff (by exact_mod_cast ha)]
  exact_mod_cast Iff.rfl

theorem sqrt_cast_le_iff (a b : ℚ) (hb : 0 ≤ b) :
    Real.sqrt (a : ℝ) ≤ Real.sqrt (b : ℝ) ↔ a ≤ b := by
  rw [Real.sqrt_le_sqrt_iff (by exact_mod_cast hb)]
  exact_mod_cast Iff.rfl

theorem sqrt_cast_lt_const (a : ℚ) (m : ℚ) (hm : 0 < m) :
    Real.sqrt (a : ℝ) < (m : ℝ) ↔ a < m * m := by
  rw [Real.sqrt_lt' (by exact_mod_cast hm)]
  rw [pow_two]
  exact_mod_cast Iff.rfl

/-- Result of the scan of `selectPoint`, on the squared distances. -/
theorem selectPoint_scan (p : List Vec3) (x y : ℚ) :
    (selectPoint p x y = -1 ∧
      ∀ j, j < p.length → 225 ≤ planarDistSq x y (p.getD j ⟨0, 0, 0⟩)) ∨
    (∃ i, i < p.length ∧ selectPoint p x y = (i : ℤ) ∧
      planarDistSq x y (p.getD i ⟨0, 0, 0⟩) < 225 ∧
      (∀ j, j < p.length →
        planarDistSq x y (p.getD i ⟨0, 0, 0⟩) ≤ planarDistSq x y (p.getD j ⟨0, 0, 0⟩)) ∧
      ∀ j, j < i →
        planarDistSq x y (p.getD i ⟨0, 0, 0⟩) < planarDistSq x y (p.getD j ⟨0, 0, 0⟩)) := by
  have key := foldl_range_invariant (selectStep p x y)
    (fun k (acc : ℚ × ℤ) =>
      (acc.2 = -1 ∧ acc.1 = 225 ∧
        ∀ j, j < k → 225 ≤ planarDistSq x y (p.getD j ⟨0, 0, 0⟩)) ∨
      (∃ i, i < k ∧ acc.2 = (i : ℤ) ∧ acc.1 = planarDistSq x y (p.getD i ⟨0, 0, 0⟩) ∧
        planarDistSq x y (p.getD i ⟨0, 0, 0⟩) < 225 ∧
        (∀ j, j < k →
          planarDistSq x y (p.getD i ⟨0, 0, 0⟩) ≤ planarDistSq x y (p.getD j ⟨0, 0, 0⟩)) ∧
        ∀ j, j < i →
          planarDistSq x y (p.getD i ⟨0, 0, 0⟩) < planarDistSq x y (p.getD j ⟨0, 0, 0⟩)))
    (15 * 15, -1) p.length ?_ ?_
  · rcases key with ⟨h1, -, h3⟩ | ⟨i, hi, h1, -, h3, h4, h5⟩
    · exact Or.inl ⟨h1, h3⟩
    · exact Or.inr ⟨i, hi, h1, h3, h4, h5⟩
  · left
    refine ⟨rfl, by norm_num, fun j hj => ?_⟩
    omega
  · rintro k ⟨m, n⟩ hk (⟨h1, h2, h3⟩ | ⟨i, hi, h1, h2, h3, h4, h5⟩)
    · simp only at h1 h2
      subst h1 h2
      unfold selectStep
      simp only []
      by_cases hd : planarDistSq x y (p.getD k ⟨0, 0, 0⟩) < 225
      · rw [if_pos hd]
        right
        refine ⟨k, Nat.lt_succ_self k, rfl, rfl, hd, fun j hj => ?_, fun j hj => ?_⟩
        · rcases Nat.lt_succ_iff_lt_or_eq.mp hj with hj | hj
          · exact le_of_lt (lt_of_lt_of_le hd (h3 j hj))
          · rw [hj]
        · exact lt_of_lt_of_le hd (h3 j hj)
      · rw [if_neg hd]
        left
        refine ⟨rfl, rfl, fun j hj => ?_⟩
        rcases Nat.lt_succ_iff_lt_or_eq.mp hj with hj | hj
        · exact h3 j hj
        · rw [hj]; exact not_lt.mp hd
    · simp only at h1 h2
      subst h1 h2
      unfold selectStep
      simp only []
      by_cases hd : planarDistSq x y (p.getD k ⟨0, 0, 0⟩) <
          planarDistSq x y (p.getD i ⟨0, 0, 0⟩)
      · rw [if_pos hd]
        right
        refine ⟨k, Nat.lt_succ_self k, rfl, rfl, lt_trans hd h3, fun j hj => ?_,
          fun j hj => ?_⟩
        · rcases Nat.lt_succ_iff_lt_or_eq.mp hj with hj | hj
          · exact le_of_lt (lt_of_lt_of_le hd (h4 j hj))
          · rw [hj]
        · exact lt_of_lt_of_le hd (h4 j hj)
      · rw [if_neg hd]
        right
        refine ⟨i, Nat.lt_succ_of_lt hi, rfl, rfl, h3, fun j hj => ?_, h5⟩
        rcases Nat.lt_succ_iff_lt_or_eq.mp hj with hj | hj
        · exact h4 j hj
        · rw [hj]; exact not_lt.mp hd

/-- Result of the edge search of the insertion, on the squared distances. -/
theorem nearestLine_scan (p : List Vec3) (q : Vec3) :
    (nearestLine p q = -1 ∧
      ∀ j, j < p.length - 1 →
        inSegmentArea (p.getD j ⟨0, 0, 0⟩) (p.getD (j + 1) ⟨0, 0, 0⟩) q →
        100 ≤ lineDistSq (p.getD j ⟨0, 0, 0⟩) (p.getD (j + 1) ⟨0, 0, 0⟩) q) ∨
    (∃ i, i < p.length - 1 ∧ nearestLine p q = (i : ℤ) ∧
      inSegmentArea (p.getD i ⟨0, 0, 0⟩) (p.getD (i + 1) ⟨0, 0, 0⟩) q ∧
      lineDistSq (p.getD i ⟨0, 0, 0⟩) (p.getD (i + 1) ⟨0, 0, 0⟩) q < 100 ∧
      (∀ j, j < p.length - 1 →
        inSegmentArea (p.getD j ⟨0, 0, 0⟩) (p.getD (j + 1) ⟨0, 0, 0⟩) q →
        lineDistSq (p.getD i ⟨0, 0, 0⟩) (p.getD (i + 1) ⟨0, 0, 0⟩) q ≤
          lineDistSq (p.getD j ⟨0, 0, 0⟩) (p.getD (j + 1) ⟨0, 0, 0⟩) q) ∧
      ∀ j, j < i →
        inSegmentArea (p.getD j ⟨0, 0, 0⟩) (p.getD (j + 1) ⟨0, 0, 0⟩) q →
        lineDistSq (p.getD i ⟨0, 0, 0⟩) (p.getD (i + 1) ⟨0, 0, 0⟩) q <
          lineDistSq (p.getD j ⟨0, 0, 0⟩) (p.getD (j + 1) ⟨0, 0, 0⟩) q) := by
  have key := foldl_range_invariant (nearestLineStep p q)
    (fun k (acc : ℚ × ℤ) =>
      (acc.2 = -1 ∧ acc.1 = 100 ∧
        ∀ j, j < k →
          inSegmentArea (p.getD j ⟨0, 0, 0⟩) (p.getD (j + 1) ⟨0, 0, 0⟩) q →
          100 ≤ lineDistSq (p.getD j ⟨0, 0, 0⟩) (p.getD (j + 1) ⟨0, 0, 0⟩) q) ∨
      (∃ i, i < k ∧ acc.2 = (i : ℤ) ∧
        acc.1 = lineDistSq (p.getD i ⟨0, 0, 0⟩) (p.getD (i + 1) ⟨0, 0, 0⟩) q ∧
        inSegmentArea (p.getD i ⟨0, 0, 0⟩) (p.getD (i + 1) ⟨0, 0, 0⟩) q ∧
        lineDistSq (p.getD i ⟨0, 0, 0⟩) (p.getD (i + 1) ⟨0, 0, 0⟩) q < 100 ∧
        (∀ j, j < k →
          inSegmentArea (p.getD j ⟨0, 0, 0⟩) (p.getD (j + 1) ⟨0, 0, 0⟩) q →
          lineDistSq (p.getD i ⟨0, 0, 0⟩) (p.getD (i + 1) ⟨0, 0, 0⟩) q ≤
            lineDistSq (p.getD j ⟨0, 0, 0⟩) (p.getD (j + 1) ⟨0, 0, 0⟩) q) ∧
        ∀ j, j < i →
          inSegmentArea (p.getD j ⟨0, 0, 0⟩) (p.getD (j + 1) ⟨0, 0, 0⟩) q →
          lineDistSq (p.getD i ⟨0, 0, 0⟩) (p.getD (i + 1) ⟨0, 0, 0⟩) q <
            lineDistSq (p.getD j ⟨0, 0, 0⟩) (p.getD (j + 1) ⟨0, 0, 0⟩) q))
    (10 * 10, -1) (p.length - 1) ?_ ?_
  · rcases key with ⟨h1, -, h3⟩ | ⟨i, hi, h1, -, ha, h3, h4, h5⟩
    · exact Or.inl ⟨h1, h3⟩
    · exact Or.inr ⟨i, hi, h1, ha, h3, h4, h5⟩
  · left
    refine ⟨rfl, by norm_num, fun j hj => ?_⟩
    omega
  · rintro k ⟨m, n⟩ hk (⟨h1, h2, h3⟩ | ⟨i, hi, h1, h2, ha, h3, h4, h5⟩)
    · simp only at h1 h2
      subst h1 h2
      unfold nearestLineStep
      simp only []
      by_cases hA : inSegmentArea (p.getD k ⟨0, 0, 0⟩) (p.getD (k + 1) ⟨0, 0, 0⟩) q
      · rw [if_pos hA]
        by_cases hd : lineDistSq (p.getD k ⟨0, 0, 0⟩) (p.getD (k + 1) ⟨0, 0, 0⟩) q < 100
        · rw [if_pos hd]
          right
          refine ⟨k, Nat.lt_succ_self k, rfl, rfl, hA, hd, fun j hj hAj => ?_,
            fun j hj hAj => ?_⟩
          · rcases Nat.lt_succ_iff_lt_or_eq.mp hj with hj | hj
            · exact le_of_lt (lt_of_lt_of_le hd (h3 j hj hAj))
            · rw [hj]
          · exact lt_of_lt_of_le hd (h3 j hj hAj)
        · rw [if_neg hd]
          left
          refine ⟨rfl, rfl, fun j hj hAj => ?_⟩
          rcases Nat.lt_succ_iff_lt_or_eq.mp hj with hj | hj
          · exact h3 j hj hAj
          · rw [hj]; exact not_lt.mp hd
      · rw [if_neg hA]
        left
        refine ⟨rfl, rfl, fun j hj hAj => ?_⟩
        rcases Nat.lt_succ_iff_lt_or_eq.mp hj with hj | hj
        · exact h3 j hj hAj
        · rw [hj] at hAj; exact absurd hAj hA
    · simp only at h1 h2
      subst h1 h2
      unfold nearestLineStep
      simp only []
      by_cases hA : inSegmentArea (p.getD k ⟨0, 0, 0⟩) (p.getD (k + 1) ⟨0, 0, 0⟩) q
      · rw [if_pos hA]
        by_cases hd : lineDistSq (p.getD k ⟨0, 0, 0⟩) (p.getD (k + 1) ⟨0, 0, 0⟩) q <
            lineDistSq (p.getD i ⟨0, 0, 0⟩) (p.getD (i + 1) ⟨0, 0, 0⟩) q
        · rw [if_pos hd]
          right
          refine ⟨k, Nat.lt_succ_self k, rfl, rfl, hA, lt_trans hd h3, fun j hj hAj => ?_,
            fun j hj hAj => ?_⟩
          · rcases Nat.lt_succ_iff_lt_or_eq.mp hj with hj | hj
            · exact le_of_lt (lt_of_lt_of_le hd (h4 j hj hAj))
            · rw [hj]
          · exact lt_of_lt_of_le hd (h4 j hj hAj)
        · rw [if_neg hd]
          right
          refine ⟨i, Nat.lt_succ_of_lt hi, rfl, rfl, ha, h3, fun j hj hAj => ?_, h5⟩
          rcases Nat.lt_succ_iff_lt_or_eq.mp hj with hj | hj
          · exact h4 j hj hAj
          · rw [hj]; exact not_lt.mp hd
      · rw [if_neg hA]
        right
        refine ⟨i, Nat.lt_succ_of_lt hi, rfl, rfl, ha, h3, fun j hj hAj => ?_, h5⟩
        rcases Nat.lt_succ_iff_lt_or_eq.mp hj with hj | hj
        · exact h4 j hj hAj
        · rw [hj] at hAj; exact absurd hAj hA

theorem insertIdx_eq_take_append (l : List Vec3) (a : Vec3) (n : Nat) (h : n ≤ l.length) :
    l.insertIdx n a = l.take n ++ [a] ++ l.drop n := by
  induction n generalizing l with
  | zero => simp [List.insertIdx_zero]
  | succ m ih =>
    cases l with
    | nil => simp at h
    | cons b t =>
      rw [List.insertIdx_succ_cons, ih t (by simpa using h)]
      simp

theorem sqrt_lt_fifteen (a : ℚ) : Real.sqrt (a : ℝ) < 15 ↔ a < 225 := by
  rw [Real.sqrt_lt' (by norm_num : (0 : ℝ) < 15)]
  have h : ((15 : ℝ)) ^ 2 = ((225 : ℚ) : ℝ) := by norm_num
  rw [h, Rat.cast_lt]

theorem sqrt_lt_ten (a : ℚ) : Real.sqrt (a : ℝ) < 10 ↔ a < 100 := by
  rw [Real.sqrt_lt' (by norm_num : (0 : ℝ) < 10)]
  have h : ((10 : ℝ)) ^ 2 = ((100 : ℚ) : ℝ) := by norm_num
  rw [h, Rat.cast_lt]

theorem erasePoint_natCast (p : List Vec3) (i : Nat) :
    erasePoint p (i : ℤ) = p.take i ++ p.drop (i + 1) := by
  unfold erasePoint
  rw [if_pos (Int.natCast_nonneg i), Int.toNat_natCast, List.eraseIdx_eq_take_drop_succ]

theorem erasePoint_neg_one (p : List Vec3) : erasePoint p (-1) = p := by
  unfold erasePoint
  rw [if_neg (by decide)]

theorem BSpline.removeControlPoint_p (s : BSpline.State) (index : ℤ) :
    (BSpline.removeControlPoint s index).p = erasePoint s.p index := by
  unfold BSpline.removeControlPoint
  by_cases h : 0 ≤ index
  · rw [if_pos h]
  · rw [if_neg h]
    unfold erasePoint
    rw [if_neg h]

theorem NaturalSpline.removeDataPoint_p (solve : NaturalSpline.Mat → NaturalSpline.Mat →
    NaturalSpline.Mat) (s : NaturalSpline.State) (index : ℤ) :
    (NaturalSpline.removeDataPoint solve s index).p = erasePoint s.p index := by
  unfold NaturalSpline.removeDataPoint
  by_cases h : 0 ≤ index
  · rw [if_pos h]
    rfl
  · rw [if_neg h]
    unfold erasePoint
    rw [if_neg h]

/-- The selection rule in exact arithmetic: `selectPoint` returns -1 exactly when
every stored point is at planar distance at least 15 from the query; otherwise it
returns the lowest index whose distance is the minimum over all stored points,
that minimum is below 15, and removing with that index (in either program)
deletes exactly that element and keeps the order of the others. -/
theorem selectPoint_removeNearest (p : List Vec3) (x y : ℚ) :
    (selectPoint p x y = -1 ↔
      ∀ v ∈ p, (15 : ℝ) ≤ Real.sqrt ((planarDistSq x y v : ℚ) : ℝ)) ∧
    (selectPoint p x y ≠ -1 →
      ∃ i, ∃ hi : i < p.length, selectPoint p x y = (i : ℤ) ∧
        Real.sqrt ((planarDistSq x y p[i] : ℚ) : ℝ) < 15 ∧
        (∀ v ∈ p, Real.sqrt ((planarDistSq x y p[i] : ℚ) : ℝ) ≤
          Real.sqrt ((planarDistSq x y v : ℚ) : ℝ)) ∧
        (∀ j, (hj : j < i) → Real.sqrt ((planarDistSq x y p[i] : ℚ) : ℝ) <
          Real.sqrt ((planarDistSq x y p[j] : ℚ) : ℝ)) ∧
        erasePoint p (selectPoint p x y) = p.take i ++ p.drop (i + 1) ∧
        (∀ s : BSpline.State, s.p = p →
          (BSpline.removeControlPoint s (selectPoint s.p x y)).p =
            p.take i ++ p.drop (i + 1)) ∧
        (∀ (solve : NaturalSpline.Mat → NaturalSpline.Mat → NaturalSpline.Mat)
          (s : NaturalSpline.State), s.p = p →
          (NaturalSpline.removeDataPoint solve s (selectPoint s.p x y)).p =
            p.take i ++ p.drop (i + 1))) := by
  rcases selectPoint_scan p x y with ⟨h1, h2⟩ | ⟨i, hi, h1, h3, h4, h5⟩
  · refine ⟨⟨fun _ v hv => ?_, fun _ => h1⟩, fun h => absurd h1 h⟩
    obtain ⟨n, hn, rfl⟩ := List.mem_iff_getElem.mp hv
    have := h2 n hn
    rw [List.getD_eq_getElem p _ hn] at this
    rw [← not_lt, sqrt_lt_fifteen]
    exact not_lt.mpr this
  · have hne : selectPoint p x y ≠ -1 := by
      rw [h1]
      intro h
      have : (0 : ℤ) ≤ (i : ℤ) := Int.natCast_nonneg i
      omega
    rw [List.getD_eq_getElem p _ hi] at h3 h4 h5
    have hE : erasePoint p (selectPoint p x y) = p.take i ++ p.drop (i + 1) := by
      rw [h1, erasePoint_natCast]
    refine ⟨⟨fun h => absurd h hne, fun h => ?_⟩, fun _ => ⟨i, hi, h1, ?_, fun v hv => ?_,
      fun j hj => ?_, hE, fun s hs => ?_, fun solve s hs => ?_⟩⟩
    · exfalso
      have h15 := h p[i] (List.getElem_mem hi)
      rw [← not_lt, sqrt_lt_fifteen] at h15
      exact h15 h3
    · rw [sqrt_lt_fifteen]
      exact h3
    · obtain ⟨n, hn, rfl⟩ := List.mem_iff_getElem.mp hv
      rw [sqrt_cast_le_iff _ _ (planarDistSq_nonneg _ _ _)]
      have := h4 n hn
      rwa [List.getD_eq_getElem p _ hn] at this
    · rw [sqrt_cast_lt_iff _ _ (planarDistSq_nonneg _ _ _)]
      have := h5 j hj
      rwa [List.getD_eq_getElem p _ (by omega)] at this
    · rw [BSpline.removeControlPoint_p, hs, hE]
    · rw [NaturalSpline.removeDataPoint_p, hs, hE]

/-- The selection rule in exact arithmetic at the scenario points: the query
`(9, 9)` selects index 2. -/
theorem selectPoint_removeNearest_witness :
    selectPoint BSpline.scenarioPoints 9 9 = 2 ∧
    erasePoint BSpline.scenarioPoints (selectPoint BSpline.scenarioPoints 9 9) =
      [⟨0, 0, 0⟩, ⟨10, 0, 0⟩] ∧
    (selectPoint BSpline.scenarioPoints 9 9 = -1 ↔
      ∀ v ∈ BSpline.scenarioPoints, (15 : ℝ) ≤ Real.sqrt ((planarDistSq 9 9 v : ℚ) : ℝ)) :=
  ⟨by decide!, by decide!, (selectPoint_removeNearest BSpline.scenarioPoints 9 9).1⟩

theorem qualifies_iff (p : List Vec3) (q : Vec3) (i : Nat) :
    Qualifies p q i ↔ i < p.length - 1 ∧
      inSegmentArea (p.getD i ⟨0, 0, 0⟩) (p.getD (i + 1) ⟨0, 0, 0⟩) q ∧
      lineDistSq (p.getD i ⟨0, 0, 0⟩) (p.getD (i + 1) ⟨0, 0, 0⟩) q < 100 := by
  unfold Qualifies inSegmentArea
  rw [sqrt_lt_ten]
  constructor
  · rintro ⟨h1, h2, h3, h4⟩
    exact ⟨by omega, ⟨h2, h3⟩, h4⟩
  · rintro ⟨h1, ⟨h2, h3⟩, h4⟩
    exact ⟨by omega, h2, h3, h4⟩

theorem insertPoint_of_nearest (p : List Vec3) (x y : ℚ) (i : Nat) (hi : i < p.length - 1)
    (h : nearestLine p ⟨x, y, 0⟩ = (i : ℤ)) :
    insertPoint p x y = p.take (i + 1) ++ [⟨x, y, 0⟩] ++ p.drop (i + 1) := by
  unfold insertPoint
  simp only []
  rw [h, if_pos (Int.natCast_nonneg i), Int.toNat_natCast,
    insertIdx_eq_take_append p _ (i + 1) (by omega)]

theorem insertPoint_of_none (p : List Vec3) (x y : ℚ) (h : nearestLine p ⟨x, y, 0⟩ = -1) :
    insertPoint p x y = p := by
  unfold insertPoint
  simp only []
  rw [h, if_neg (by decide)]

theorem BSpline.insertControlPoint_p (s : BSpline.State) (x y : ℚ) :
    (BSpline.insertControlPoint s x y).p = insertPoint s.p x y := by
  unfold BSpline.insertControlPoint
  by_cases h : 0 ≤ nearestLine s.p ⟨x, y, 0⟩
  · rw [if_pos h]
  · rw [if_neg h]
    unfold insertPoint
    simp only []
    rw [if_neg h]

theorem NaturalSpline.insertDataPoint_p (solve : NaturalSpline.Mat → NaturalSpline.Mat →
    NaturalSpline.Mat) (s : NaturalSpline.State) (x y : ℚ) :
    (NaturalSpline.insertDataPoint solve s x y).p = insertPoint s.p x y := by
  unfold NaturalSpline.insertDataPoint
  by_cases h : 0 ≤ nearestLine s.p ⟨x, y, 0⟩
  · rw [if_pos h]
    rfl
  · rw [if_neg h]
    unfold insertPoint
    simp only []
    rw [if_neg h]

/-- The insertion rule in exact arithmetic: when no segment qualifies (in
particular when `p` has fewer than two points) the insertion leaves the point
list unchanged; otherwise the query point is inserted right after the
lowest-index qualifying segment of minimum distance: the result is
`p[0..i] ++ [q] ++ p[i+1..]`, one element longer.  The list part is what
`insertControlPoint` and `insertDataPoint` store. -/
theorem insertOnNearestEdge (p : List Vec3) (x y : ℚ) :
    ((∀ i, ¬ Qualifies p ⟨x, y, 0⟩ i) → insertPoint p x y = p) ∧
    (p.length < 2 → (∀ i, ¬ Qualifies p ⟨x, y, 0⟩ i) ∧ insertPoint p x y = p) ∧
    ((∃ i, Qualifies p ⟨x, y, 0⟩ i) →
      ∃ i, Qualifies p ⟨x, y, 0⟩ i ∧
        (∀ j, Qualifies p ⟨x, y, 0⟩ j →
          Real.sqrt ((lineDistSq (p.getD i ⟨0, 0, 0⟩) (p.getD (i + 1) ⟨0, 0, 0⟩)
            ⟨x, y, 0⟩ : ℚ) : ℝ) ≤
          Real.sqrt ((lineDistSq (p.getD j ⟨0, 0, 0⟩) (p.getD (j + 1) ⟨0, 0, 0⟩)
            ⟨x, y, 0⟩ : ℚ) : ℝ)) ∧
        (∀ j, j < i → Qualifies p ⟨x, y, 0⟩ j →
          Real.sqrt ((lineDistSq (p.getD i ⟨0, 0, 0⟩) (p.getD (i + 1) ⟨0, 0, 0⟩)
            ⟨x, y, 0⟩ : ℚ) : ℝ) <
          Real.sqrt ((lineDistSq (p.getD j ⟨0, 0, 0⟩) (p.getD (j + 1) ⟨0, 0, 0⟩)
            ⟨x, y, 0⟩ : ℚ) : ℝ)) ∧
        insertPoint p x y = p.take (i + 1) ++ [⟨x, y, 0⟩] ++ p.drop (i + 1) ∧
        (insertPoint p x y).length = p.length + 1) ∧
    (∀ s : BSpline.State, s.p = p →
      (BSpline.insertControlPoint s x y).p = insertPoint p x y) ∧
    (∀ (solve : NaturalSpline.Mat → NaturalSpline.Mat → NaturalSpline.Mat)
      (s : NaturalSpline.State), s.p = p →
      (NaturalSpline.insertDataPoint solve s x y).p = insertPoint p x y) := by
  have hstate : (∀ s : BSpline.State, s.p = p →
        (BSpline.insertControlPoint s x y).p = insertPoint p x y) ∧
      (∀ (solve : NaturalSpline.Mat → NaturalSpline.Mat → NaturalSpline.Mat)
        (s : NaturalSpline.State), s.p = p →
        (NaturalSpline.insertDataPoint solve s x y).p = insertPoint p x y) :=
    ⟨fun s hs => by rw [BSpline.insertControlPoint_p, hs],
     fun solve s hs => by rw [NaturalSpline.insertDataPoint_p, hs]⟩
  have hshort : p.length < 2 → ∀ i, ¬ Qualifies p ⟨x, y, 0⟩ i := by
    intro hp i hq
    have := hq.1
    omega
  rcases nearestLine_scan p ⟨x, y, 0⟩ with ⟨h1, h2⟩ | ⟨i, hi, h1, ha, h3, h4, h5⟩
  · have hnone : ∀ i, ¬ Qualifies p ⟨x, y, 0⟩ i := by
      intro i hq
      rw [qualifies_iff] at hq
      exact absurd hq.2.2 (not_lt.mpr (h2 i hq.1 hq.2.1))
    refine ⟨fun _ => insertPoint_of_none p x y h1,
      fun hp => ⟨hshort hp, insertPoint_of_none p x y h1⟩, ?_, hstate⟩
    rintro ⟨i, hq⟩
    exact absurd hq (hnone i)
  · have hq : Qualifies p ⟨x, y, 0⟩ i := (qualifies_iff p _ i).mpr ⟨hi, ha, h3⟩
    have hins := insertPoint_of_nearest p x y i hi h1
    refine ⟨fun h => absurd hq (h i), fun hp => absurd hq (hshort hp i), fun _ => ?_, hstate⟩
    refine ⟨i, hq, fun j hj => ?_, fun j hji hj => ?_, hins, ?_⟩
    · rw [qualifies_iff] at hj
      rw [sqrt_cast_le_iff _ _ (lineDistSq_nonneg _ _ _)]
      exact h4 j hj.1 hj.2.1
    · rw [qualifies_iff] at hj
      rw [sqrt_cast_lt_iff _ _ (lineDistSq_nonneg _ _ _)]
      exact h5 j hji hj.2.1
    · rw [hins]
      simp only [List.length_append, List.length_take, List.length_drop, List.length_cons,
        List.length_nil]
      omega

/-- The insertion rule in exact arithmetic at the scenario points: `(5, 1)` lies
over the first edge and is inserted at index 1. -/
theorem insertOnNearestEdge_witness :
    insertPoint BSpline.scenarioPoints 5 1 =
      [⟨0, 0, 0⟩, ⟨5, 1, 0⟩, ⟨10, 0, 0⟩, ⟨10, 10, 0⟩] ∧
    insertPoint BSpline.scenarioPoints 5 20 = BSpline.scenarioPoints ∧
    ((∀ i, ¬ Qualifies BSpline.scenarioPoints ⟨5, 20, 0⟩ i) →
      insertPoint BSpline.scenarioPoints 5 20 = BSpline.scenarioPoints) :=
  ⟨by decide!, by decide!, (insertOnNearestEdge BSpline.scenarioPoints 5 20).1⟩

end CurveEditing

namespace CurveEditing

/-! ## Capacity of the point list -/

theorem erasePoint_length_le (p : List Vec3) (index : ℤ) :
    (erasePoint p index).length ≤ p.length := by
  unfold erasePoint
  split_ifs
  · rw [List.length_eraseIdx]
    split_ifs <;> omega
  · exact le_refl _

theorem insertPoint_length_le (p : List Vec3) (x y : ℚ) :
    (insertPoint p x y).length ≤ p.length + 1 := by
  unfold insertPoint
  simp only []
  split_ifs
  · exact List.length_insertIdx_le_succ _ _ _
  · omega

namespace BSpline

theorem bspline_readCursor_p (g : Screen) (s : State) (cx cy : ℚ) : (readCursor g s cx cy).p = s.p :=
  rfl

theorem bspline_mouse_length (g : Screen) (s : State) (button : Button) (action : Action)
    (cx cy : ℚ) (h : s.p.length ≤ 12) : (mouse g s button action cx cy).p.length ≤ 12 := by
  unfold mouse
  by_cases h1 : button = Button.left ∧ action = Action.press
  · rw [if_pos h1]
    split
    · by_cases h3 : s.p.length < N
      · rw [if_pos h3]
        simp only [addControlPoint, readCursor, List.length_append, List.length_cons,
          List.length_nil]
        unfold N at h3
        omega
      · rw [if_neg h3]
        exact h
    · simp only []
      rw [removeControlPoint_p]
      exact le_trans (erasePoint_length_le _ _) h
    · simp only [dragControlPoint]
      split_ifs <;> exact h
    · by_cases h3 : s.p.length < N
      · rw [if_pos h3]
        simp only []
        rw [insertControlPoint_p]
        refine le_trans (insertPoint_length_le _ _ _) ?_
        rw [bspline_readCursor_p]
        unfold N at h3
        omega
      · rw [if_neg h3]
        exact h
    · exact h
  · rw [if_neg h1]
    by_cases h2 : button = Button.left ∧ action = Action.release
    · rw [if_pos h2]
      split <;> exact h
    · rw [if_neg h2]
      exact h

theorem bspline_dragUpdate_length (g : Screen) (s s1 : State) (cx cy : ℚ) (h : s.p.length ≤ 12)
    (hs : dragUpdate g s cx cy = some s1) : s1.p.length ≤ 12 := by
  unfold dragUpdate at hs
  by_cases h1 : s.isDragging = true
  · rw [if_pos h1] at hs
    simp only [] at hs
    by_cases h2 : 0 ≤ (readCursor g s cx cy).dragPoint ∧
        (readCursor g s cx cy).dragPoint < (readCursor g s cx cy).p.length
    · rw [if_pos h2, Option.some.injEq] at hs
      subst hs
      simpa [readCursor] using h
    · rw [if_neg h2] at hs
      exact absurd hs (by simp)
  · rw [if_neg h1, Option.some.injEq] at hs
    subst hs
    exact h

theorem bspline_step_length (g : Screen) (s s1 : State) (e : Event) (h : s.p.length ≤ 12)
    (hs : step g s e = some s1) : s1.p.length ≤ 12 := by
  cases e with
  | key k a =>
    simp only [step, Option.some.injEq] at hs
    subst hs
    exact h
  | mouse b a cx cy =>
    simp only [step, Option.some.injEq] at hs
    subst hs
    exact bspline_mouse_length g s b a cx cy h
  | frame cx cy => exact bspline_dragUpdate_length g s s1 cx cy h hs

theorem bspline_run_length (g : Screen) (evs : List Event) (s s1 : State) (h : s.p.length ≤ 12)
    (hs : run g s evs = some s1) : s1.p.length ≤ 12 := by
  induction evs generalizing s with
  | nil =>
    simp only [run, Option.some.injEq] at hs
    subst hs
    exact h
  | cons e es ih =>
    simp only [run] at hs
    cases hstep : step g s e with
    | none => rw [hstep] at hs; simp at hs
    | some s2 =>
      rw [hstep] at hs
      exact ih s2 (bspline_step_length g s s2 e h hstep) hs

theorem bspline_mouse_full (g : Screen) (s : State) (cx cy : ℚ) (hfull : s.p.length = 12)
    (hmode : s.mode = Mode.a ∨ s.mode = Mode.i) :
    mouse g s Button.left Action.press cx cy = s := by
  unfold mouse
  rw [if_pos ⟨rfl, rfl⟩]
  have hN : ¬ s.p.length < N := by unfold N; omega
  rcases hmode with hm | hm <;> rw [hm] <;> simp only [] <;> rw [if_neg hN]

end BSpline

namespace NaturalSpline

theorem natural_readCursor_p (g : Screen) (s : State) (cx cy : ℚ) : (readCursor g s cx cy).p = s.p :=
  rfl

theorem natural_mouse_length (solve : Mat → Mat → Mat) (g : Screen) (s : State) (button : Button)
    (action : Action) (cx cy : ℚ) (h : s.p.length ≤ 12) :
    (mouse solve g s button action cx cy).p.length ≤ 12 := by
  unfold mouse
  by_cases h1 : button = Button.left ∧ action = Action.press
  · rw [if_pos h1]
    split
    · by_cases h3 : s.p.length < N + 1
      · rw [if_pos h3]
        simp only [addDataPoint, refresh, readCursor, List.length_append, List.length_cons,
          List.length_nil]
        unfold N at h3
        omega
      · rw [if_neg h3]
        exact h
    · simp only []
      rw [removeDataPoint_p]
      exact le_trans (erasePoint_length_le _ _) h
    · simp only [dragDataPoint]
      split_ifs <;> exact h
    · by_cases h3 : s.p.length < N + 1
      · rw [if_pos h3]
        simp only []
        rw [insertDataPoint_p]
        refine le_trans (insertPoint_length_le _ _ _) ?_
        rw [natural_readCursor_p]
        unfold N at h3
        omega
      · rw [if_neg h3]
        exact h
    · exact h
  · rw [if_neg h1]
    by_cases h2 : button = Button.left ∧ action = Action.release
    · rw [if_pos h2]
      split <;> exact h
    · rw [if_neg h2]
      exact h

theorem natural_dragUpdate_length (solve : Mat → Mat → Mat) (g : Screen) (s s1 : State) (cx cy : ℚ)
    (h : s.p.length ≤ 12) (hs : dragUpdate solve g s cx cy = some s1) :
    s1.p.length ≤ 12 := by
  unfold dragUpdate at hs
  by_cases h1 : s.isDragging = true
  · rw [if_pos h1] at hs
    simp only [] at hs
    by_cases h2 : 0 ≤ (readCursor g s cx cy).dragPoint ∧
        (readCursor g s cx cy).dragPoint < (readCursor g s cx cy).p.length
    · rw [if_pos h2, Option.some.injEq] at hs
      subst hs
      simpa [refresh, readCursor] using h
    · rw [if_neg h2] at hs
      exact absurd hs (by simp)
  · rw [if_neg h1, Option.some.injEq] at hs
    subst hs
    exact h

theorem natural_step_length (solve : Mat → Mat → Mat) (g : Screen) (s s1 : State) (e : Event)
    (h : s.p.length ≤ 12) (hs : step solve g s e = some s1) : s1.p.length ≤ 12 := by
  cases e with
  | key k a =>
    simp only [step, Option.some.injEq] at hs
    subst hs
    exact h
  | mouse b a cx cy =>
    simp only [step, Option.some.injEq] at hs
    subst hs
    exact natural_mouse_length solve g s b a cx cy h
  | frame cx cy => exact natural_dragUpdate_length solve g s s1 cx cy h hs

theorem natural_run_length (solve : Mat → Mat → Mat) (g : Screen) (evs : List Event) (s s1 : State)
    (h : s.p.length ≤ 12) (hs : run solve g s evs = some s1) : s1.p.length ≤ 12 := by
  induction evs generalizing s with
  | nil =>
    simp only [run, Option.some.injEq] at hs
    subst hs
    exact h
  | cons e es ih =>
    simp only [run] at hs
    cases hstep : step solve g s e with
    | none => rw [hstep] at hs; simp at hs
    | some s2 =>
      rw [hstep] at hs
      exact ih s2 (natural_step_length solve g s s2 e h hstep) hs

theorem natural_mouse_full (solve : Mat → Mat → Mat) (g : Screen) (s : State) (cx cy : ℚ)
    (hfull : s.p.length = 12) (hmode : s.mode = Mode.a ∨ s.mode = Mode.i) :
    mouse solve g s Button.left Action.press cx cy = s := by
  unfold mouse
  rw [if_pos ⟨rfl, rfl⟩]
  have hN : ¬ s.p.length < N + 1 := by unfold N; omega
  rcases hmode with hm | hm <;> rw [hm] <;> simp only [] <;> rw [if_neg hN]

end NaturalSpline

/-- C8: from the initial state of either program, every state reached by a
sequence of key events, mouse button events and drag updates holds at most 12
points; a left press in add or insert mode on a list of 12 points leaves the
whole state (point list and derived curve data) unchanged. -/
theorem capacity_invariant :
    (∀ (g : Screen) (repetition : Nat) (evs : List Event) (s : BSpline.State),
      BSpline.run g (BSpline.initial repetition) evs = some s → s.p.length ≤ 12) ∧
    (∀ (solve : NaturalSpline.Mat → NaturalSpline.Mat → NaturalSpline.Mat) (g : Screen)
      (evs : List Event) (s : NaturalSpline.State),
      NaturalSpline.run solve g NaturalSpline.initial evs = some s → s.p.length ≤ 12) ∧
    (∀ (g : Screen) (s : BSpline.State) (cx cy : ℚ), s.p.length = 12 →
      s.mode = Mode.a ∨ s.mode = Mode.i →
      BSpline.mouse g s Button.left Action.press cx cy = s) ∧
    (∀ (solve : NaturalSpline.Mat → NaturalSpline.Mat → NaturalSpline.Mat) (g : Screen)
      (s : NaturalSpline.State) (cx cy : ℚ), s.p.length = 12 →
      s.mode = Mode.a ∨ s.mode = Mode.i →
      NaturalSpline.mouse solve g s Button.left Action.press cx cy = s) :=
  ⟨fun g r evs s hs => BSpline.bspline_run_length g evs _ s (by simp [BSpline.initial]) hs,
   fun solve g evs s hs =>
     NaturalSpline.natural_run_length solve g evs _ s (by simp [NaturalSpline.initial]) hs,
   fun g s cx cy h1 h2 => BSpline.bspline_mouse_full g s cx cy h1 h2,
   fun solve g s cx cy h1 h2 => NaturalSpline.natural_mouse_full solve g s cx cy h1 h2⟩

/-- C8 on a run of thirteen add presses: both programs stop at 12 points. -/
theorem capacity_invariant_witness :
    (BSpline.run ⟨0, 0⟩ (BSpline.initial 2) fillEvents).map (fun s => s.p.length) = some 12 ∧
    (NaturalSpline.run (fun _ _ => NaturalSpline.Mat.setZero) ⟨0, 0⟩ NaturalSpline.initial
      fillEvents).map (fun s => s.p.length) = some 12 ∧
    (∀ s : BSpline.State,
      BSpline.run ⟨0, 0⟩ (BSpline.initial 2) fillEvents = some s → s.p.length ≤ 12) ∧
    (∀ s : NaturalSpline.State,
      NaturalSpline.run (fun _ _ => NaturalSpline.Mat.setZero) ⟨0, 0⟩ NaturalSpline.initial
        fillEvents = some s → s.p.length ≤ 12) :=
  ⟨by decide!, by decide!, capacity_invariant.1 ⟨0, 0⟩ 2 fillEvents,
   capacity_invariant.2.1 (fun _ _ => NaturalSpline.Mat.setZero) ⟨0, 0⟩ fillEvents⟩

end CurveEditing

namespace CurveEditing

namespace NaturalSpline

/-! ## The matrix built by `buildLinearSystem` -/

theorem writes_append (M : Mat) (ws ws2 : List Write) :
    M.writes (ws ++ ws2) = (M.writes ws).writes ws2 := by
  unfold Mat.writes
  rw [List.foldl_append]

theorem writes_cons (M : Mat) (w : Write) (ws : List Write) :
    M.writes (w :: ws) = (M.write w).writes ws := rfl

theorem writes_nil (M : Mat) : M.writes [] = M := rfl

/-- State after the first loop of `buildLinearSystem`. -/
theorem interpolation_loop :
    ((List.range 11).foldl interpolationStep ([], 0)).2 = 22 ∧
    ∀ r j, Mat.setZero.writes ((List.range 11).foldl interpolationStep ([], 0)).1 r j =
      if r < 22 then interpolationEntry r j else 0 := by
  have key := foldl_range_invariant interpolationStep
    (fun i (acc : List Write × Nat) => acc.2 = 2 * i ∧
      ∀ r j, Mat.setZero.writes acc.1 r j = if r < 2 * i then interpolationEntry r j else 0)
    ([], 0) 11 ?_ ?_
  · exact key
  · refine ⟨rfl, fun r j => ?_⟩
    rw [if_neg (by omega)]
    rfl
  · rintro i ⟨ws, row⟩ hi ⟨hrow, hrd⟩
    simp only at hrow
    subst hrow
    refine ⟨by simp only [interpolationStep]; omega, fun r j => ?_⟩
    simp only [interpolationStep, writes_append, writes_cons, writes_nil, Mat.write]
    rw [hrd r j]
    unfold interpolationEntry
    split_ifs <;> first | rfl | (exfalso; omega)

/-- State after the second loop of `buildLinearSystem`. -/
theorem tangent_loop :
    ((List.range 10).foldl tangentStep
      ((List.range 11).foldl interpolationStep ([], 0))).2 = 32 ∧
    ∀ r j, Mat.setZero.writes ((List.range 10).foldl tangentStep
      ((List.range 11).foldl interpolationStep ([], 0))).1 r j =
      if r < 22 then interpolationEntry r j
      else if r < 32 then tangentEntry (r - 22) j
      else 0 := by
  obtain ⟨hrow0, hrd0⟩ := interpolation_loop
  have key := foldl_range_invariant tangentStep
    (fun i (acc : List Write × Nat) => acc.2 = 22 + i ∧
      ∀ r j, Mat.setZero.writes acc.1 r j =
        if r < 22 then interpolationEntry r j
        else if r < 22 + i then tangentEntry (r - 22) j
        else 0)
    ((List.range 11).foldl interpolationStep ([], 0)) 10 ?_ ?_
  · exact key
  · refine ⟨hrow0, fun r j => ?_⟩
    rw [hrd0 r j]
    split_ifs <;> rfl
  · rintro i ⟨ws, row⟩ hi ⟨hrow, hrd⟩
    simp only at hrow
    subst hrow
    refine ⟨by simp only [tangentStep]; omega, fun r j => ?_⟩
    simp only [tangentStep, writes_append, writes_cons, writes_nil, Mat.write]
    rw [hrd r j]
    by_cases hr : r = 22 + i
    · subst hr
      have e1 : ¬ (22 + i < 22) := by omega
      have e2 : 22 + i < 22 + (i + 1) := by omega
      have e3 : ¬ (22 + i < 22 + i) := by omega
      have e4 : 22 + i - 22 = i := by omega
      simp only [eq_self_iff_true, true_and, e1, e2, e3, e4, if_true, if_false]
      unfold tangentEntry
      split_ifs <;> first | rfl | (exfalso; omega)
    · have w : ∀ c, ¬ (r = 22 + i ∧ j = c) := fun c h => hr h.1
      simp only [w, if_false]
      split_ifs <;> first | rfl | (exfalso; omega)

/-- State after the third loop of `buildLinearSystem`. -/
theorem curvature_loop :
    ((List.range 10).foldl curvatureStep ((List.range 10).foldl tangentStep
      ((List.range 11).foldl interpolationStep ([], 0)))).2 = 42 ∧
    ∀ r j, Mat.setZero.writes ((List.range 10).foldl curvatureStep
      ((List.range 10).foldl tangentStep
        ((List.range 11).foldl interpolationStep ([], 0)))).1 r j =
      if r < 22 then interpolationEntry r j
      else if r < 32 then tangentEntry (r - 22) j
      else if r < 42 then curvatureEntry (r - 32) j
      else 0 := by
  obtain ⟨hrow0, hrd0⟩ := tangent_loop
  have key := foldl_range_invariant curvatureStep
    (fun i (acc : List Write × Nat) => acc.2 = 32 + i ∧
      ∀ r j, Mat.setZero.writes acc.1 r j =
        if r < 22 then interpolationEntry r j
        else if r < 32 then tangentEntry (r - 22) j
        else if r < 32 + i then curvatureEntry (r - 32) j
        else 0)
    ((List.range 10).foldl tangentStep ((List.range 11).foldl interpolationStep ([], 0)))
    10 ?_ ?_
  · exact key
  · refine ⟨hrow0, fun r j => ?_⟩
    rw [hrd0 r j]
    split_ifs <;> rfl
  · rintro i ⟨ws, row⟩ hi ⟨hrow, hrd⟩
    simp only at hrow
    subst hrow
    refine ⟨by simp only [curvatureStep]; omega, fun r j => ?_⟩
    simp only [curvatureStep, writes_append, writes_cons, writes_nil, Mat.write]
    rw [hrd r j]
    by_cases hr : r = 32 + i
    · subst hr
      have e0 : ¬ (32 + i < 22) := by omega
      have e1 : ¬ (32 + i < 32) := by omega
      have e2 : 32 + i < 32 + (i + 1) := by omega
      have e3 : ¬ (32 + i < 32 + i) := by omega
      have e4 : 32 + i - 32 = i := by omega
      simp only [eq_self_iff_true, true_and, e0, e1, e2, e3, e4, if_true, if_false]
      unfold curvatureEntry
      split_ifs <;> first | rfl | (exfalso; omega)
    · have w : ∀ c, ¬ (r = 32 + i ∧ j = c) := fun c h => hr h.1
      simp only [w, if_false]
      split_ifs <;> first | rfl | (exfalso; omega)

/-- The matrix `A` after `buildLinearSystem`, entry by entry. -/
theorem build_entries (r j : Nat) : buildLinearSystem.1 r j = builtEntry r j := by
  obtain ⟨hrow, hrd⟩ := curvature_loop
  have hN : N = 11 := rfl
  have hN1 : N - 1 = 10 := rfl
  unfold buildLinearSystem buildWrites
  simp only [hN, hN1, writes_append, writes_cons, writes_nil, Mat.write]
  rw [hrd r j, hrow]
  unfold builtEntry
  split_ifs <;> first | rfl | (exfalso; omega)

theorem build_interp0 : ∀ i, i < 11 → ∀ j, j < 44 →
    buildLinearSystem.1 (2 * i) j = if j = 4 * i then 1 else 0 := by
  intro i hi j _
  rw [build_entries]
  unfold builtEntry interpolationEntry
  rw [if_pos (by omega), if_pos (by omega)]
  have h : 2 * i / 2 = i := by omega
  rw [h]

theorem build_interp1 : ∀ i, i < 11 → ∀ j, j < 44 →
    buildLinearSystem.1 (2 * i + 1) j =
      (if j = 4 * i then 1 else 0) + (if j = 4 * i + 1 then 1 else 0) +
      (if j = 4 * i + 2 then 1 else 0) + (if j = 4 * i + 3 then 1 else 0) := by
  intro i hi j _
  rw [build_entries]
  unfold builtEntry interpolationEntry
  rw [if_pos (by omega), if_neg (by omega)]
  have h : (2 * i + 1) / 2 = i := by omega
  rw [h]
  split_ifs <;> first | (exfalso; omega) | norm_num

theorem build_tangent : ∀ i, i < 10 → ∀ j, j < 44 →
    buildLinearSystem.1 (22 + i) j =
      (if j = 4 * i + 1 then 1 else 0) + (if j = 4 * i + 2 then 2 else 0) +
      (if j = 4 * i + 3 then 3 else 0) + (if j = 4 * i + 5 then -1 else 0) := by
  intro i hi j _
  rw [build_entries]
  unfold builtEntry tangentEntry
  rw [if_neg (by omega), if_pos (by omega)]
  have h : 22 + i - 22 = i := by omega
  rw [h]
  split_ifs <;> first | (exfalso; omega) | norm_num

theorem build_curvature : ∀ i, i < 10 → ∀ j, j < 44 →
    buildLinearSystem.1 (32 + i) j =
      (if j = 4 * i + 2 then 2 else 0) + (if j = 4 * i + 3 then 6 else 0) +
      (if j = 4 * i + 6 then -2 else 0) := by
  intro i hi j _
  rw [build_entries]
  unfold builtEntry curvatureEntry
  rw [if_neg (by omega), if_neg (by omega), if_pos (by omega)]
  have h : 32 + i - 32 = i := by omega
  rw [h]
  split_ifs <;> first | (exfalso; omega) | norm_num

theorem build_start : ∀ j, j < 44 →
    buildLinearSystem.1 42 j = if j = 2 then 2 else 0 := by
  intro j _
  rw [build_entries]
  unfold builtEntry
  rw [if_neg (by omega), if_neg (by omega), if_neg (by omega)]
  split_ifs <;> first | rfl | (exfalso; omega)

theorem build_last : ∀ j, j < 44 → buildLinearSystem.1 43 j = 0 := by
  intro j _
  rw [build_entries]
  unfold builtEntry
  rw [if_neg (by omega), if_neg (by omega), if_neg (by omega), if_neg (by omega)]

/-! ## The refresh of `arrangeMatrix` -/

theorem arrange_other_rows (A : Mat) (p : List Vec3) (r j : Nat) (hr : r ≠ 4 * N - 1) :
    (arrangeMatrix A p).1 r j = A r j := by
  unfold arrangeMatrix boundaryWrites
  by_cases h : 2 ≤ p.length
  · simp only [if_pos h, writes_cons, writes_nil, Mat.write, Mat.zeroRow]
    rw [if_neg (fun hc => hr hc.1), if_neg (fun hc => hr hc.1), if_neg hr]
  · simp only [if_neg h, writes_nil, Mat.zeroRow]
    rw [if_neg hr]

theorem arrange_last_row (A : Mat) (p : List Vec3) (j : Nat) (h : 2 ≤ p.length) :
    (arrangeMatrix A p).1 (4 * N - 1) j =
      (if j = 4 * (p.length - 2) + 2 then 2 else 0) +
      (if j = 4 * (p.length - 2) + 3 then 6 else 0) := by
  unfold arrangeMatrix boundaryWrites
  simp only [if_pos h, writes_cons, writes_nil, Mat.write, Mat.zeroRow, true_and]
  split_ifs <;> first | (exfalso; omega) | norm_num

/-- The right-hand side after `arrangeMatrix`: rows `2i` and `2i+1` of every
active segment `i` hold `p[i]` and `p[i+1]`, every other entry is zero. -/
theorem arrange_rhs (A : Mat) (p : List Vec3) (r k : Nat) :
    (arrangeMatrix A p).2 r k =
      if r < 2 * (p.length - 1) ∧ k < 3 then coord (p.getD ((r + 1) / 2) ⟨0, 0, 0⟩) k
      else 0 := by
  have key := foldl_range_invariant (rhsStep p)
    (fun i (acc : List Write × Nat) => acc.2 = 2 * i ∧
      ∀ r k, Mat.setZero.writes acc.1 r k =
        if r < 2 * i ∧ k < 3 then coord (p.getD ((r + 1) / 2) ⟨0, 0, 0⟩) k else 0)
    ([], 0) (p.length - 1) ?_ ?_
  · exact key.2 r k
  · refine ⟨rfl, fun r k => ?_⟩
    rw [if_neg (by omega)]
    rfl
  · rintro i ⟨ws, row⟩ hi ⟨hrow, hrd⟩
    simp only at hrow
    subst hrow
    refine ⟨by simp only [rhsStep]; omega, fun r k => ?_⟩
    simp only [rhsStep, writes_append, writes_cons, writes_nil, Mat.write]
    rw [hrd r k]
    split_ifs <;> first
      | rfl
      | (exfalso; omega)
      | (have hr : (r + 1) / 2 = i := by omega
         have hk : k = 0 := by omega
         rw [hr, hk]; rfl)
      | (have hr : (r + 1) / 2 = i := by omega
         have hk : k = 1 := by omega
         rw [hr, hk]; rfl)
      | (have hr : (r + 1) / 2 = i := by omega
         have hk : k = 2 := by omega
         rw [hr, hk]; rfl)
      | (have hr : (r + 1) / 2 = i + 1 := by omega
         have hk : k = 0 := by omega
         rw [hr, hk]; rfl)
      | (have hr : (r + 1) / 2 = i + 1 := by omega
         have hk : k = 1 := by omega
         rw [hr, hk]; rfl)
      | (have hr : (r + 1) / 2 = i + 1 := by omega
         have hk : k = 2 := by omega
         rw [hr, hk]; rfl)

/-! ## Rows of the refreshed system as equations -/

theorem sum_single (f : Nat → ℚ) (a : Nat) (u : ℚ) (ha : a < 44) :
    (∑ j in Finset.range 44, (if j = a then u else 0) * f j) = u * f a := by
  simp only [ite_mul, zero_mul]
  rw [Finset.sum_ite_eq' (Finset.range 44) a (fun j => u * f j),
    if_pos (Finset.mem_range.mpr ha)]

theorem dot_interp0 (p : List Vec3) (f : Nat → ℚ) (i : Nat) (hi : i < 11) :
    (∑ j in Finset.range 44, (refreshedSystem p).1 (2 * i) j * f j) = f (4 * i) := by
  have hrow : ∀ j ∈ Finset.range 44, (refreshedSystem p).1 (2 * i) j * f j =
      (if j = 4 * i then 1 else 0) * f j := by
    intro j hj
    unfold refreshedSystem
    rw [arrange_other_rows _ _ _ _ (by unfold N; omega),
      build_interp0 i hi j (Finset.mem_range.mp hj)]
  rw [Finset.sum_congr rfl hrow, sum_single f _ _ (by omega)]
  ring

theorem dot_interp1 (p : List Vec3) (f : Nat → ℚ) (i : Nat) (hi : i < 11) :
    (∑ j in Finset.range 44, (refreshedSystem p).1 (2 * i + 1) j * f j) =
      f (4 * i) + f (4 * i + 1) + f (4 * i + 2) + f (4 * i + 3) := by
  have hrow : ∀ j ∈ Finset.range 44, (refreshedSystem p).1 (2 * i + 1) j * f j =
      (if j = 4 * i then 1 else 0) * f j + (if j = 4 * i + 1 then 1 else 0) * f j +
      (if j = 4 * i + 2 then 1 else 0) * f j + (if j = 4 * i + 3 then 1 else 0) * f j := by
    intro j hj
    unfold refreshedSystem
    rw [arrange_other_rows _ _ _ _ (by unfold N; omega),
      build_interp1 i hi j (Finset.mem_range.mp hj)]
    ring
  rw [Finset.sum_congr rfl hrow]
  simp only [Finset.sum_add_distrib]
  rw [sum_single f _ _ (by omega), sum_single f _ _ (by omega), sum_single f _ _ (by omega),
    sum_single f _ _ (by omega)]
  ring

theorem dot_tangent (p : List Vec3) (f : Nat → ℚ) (i : Nat) (hi : i < 10) :
    (∑ j in Finset.range 44, (refreshedSystem p).1 (22 + i) j * f j) =
      f (4 * i + 1) + 2 * f (4 * i + 2) + 3 * f (4 * i + 3) - f (4 * i + 5) := by
  have hrow : ∀ j ∈ Finset.range 44, (refreshedSystem p).1 (22 + i) j * f j =
      (if j = 4 * i + 1 then 1 else 0) * f j + (if j = 4 * i + 2 then 2 else 0) * f j +
      (if j = 4 * i + 3 then 3 else 0) * f j + (if j = 4 * i + 5 then -1 else 0) * f j := by
    intro j hj
    unfold refreshedSystem
    rw [arrange_other_rows _ _ _ _ (by unfold N; omega),
      build_tangent i hi j (Finset.mem_range.mp hj)]
    ring
  rw [Finset.sum_congr rfl hrow]
  simp only [Finset.sum_add_distrib]
  rw [sum_single f _ _ (by omega), sum_single f _ _ (by omega), sum_single f _ _ (by omega),
    sum_single f _ _ (by omega)]
  ring

theorem dot_curvature (p : List Vec3) (f : Nat → ℚ) (i : Nat) (hi : i < 10) :
    (∑ j in Finset.range 44, (refreshedSystem p).1 (32 + i) j * f j) =
      2 * f (4 * i + 2) + 6 * f (4 * i + 3) - 2 * f (4 * i + 6) := by
  have hrow : ∀ j ∈ Finset.range 44, (refreshedSystem p).1 (32 + i) j * f j =
      (if j = 4 * i + 2 then 2 else 0) * f j + (if j = 4 * i + 3 then 6 else 0) * f j +
      (if j = 4 * i + 6 then -2 else 0) * f j := by
    intro j hj
    unfold refreshedSystem
    rw [arrange_other_rows _ _ _ _ (by unfold N; omega),
      build_curvature i hi j (Finset.mem_range.mp hj)]
    ring
  rw [Finset.sum_congr rfl hrow]
  simp only [Finset.sum_add_distrib]
  rw [sum_single f _ _ (by omega), sum_single f _ _ (by omega), sum_single f _ _ (by omega)]
  ring

theorem dot_start (p : List Vec3) (f : Nat → ℚ) :
    (∑ j in Finset.range 44, (refreshedSystem p).1 42 j * f j) = 2 * f 2 := by
  have hrow : ∀ j ∈ Finset.range 44, (refreshedSystem p).1 42 j * f j =
      (if j = 2 then 2 else 0) * f j := by
    intro j hj
    unfold refreshedSystem
    rw [arrange_other_rows _ _ _ _ (by unfold N; omega),
      build_start j (Finset.mem_range.mp hj)]
  rw [Finset.sum_congr rfl hrow, sum_single f _ _ (by omega)]

theorem dot_end (p : List Vec3) (f : Nat → ℚ) (h2 : 2 ≤ p.length) (h12 : p.length ≤ 12) :
    (∑ j in Finset.range 44, (refreshedSystem p).1 43 j * f j) =
      2 * f (4 * (p.length - 2) + 2) + 6 * f (4 * (p.length - 2) + 3) := by
  have hrow : ∀ j ∈ Finset.range 44, (refreshedSystem p).1 43 j * f j =
      (if j = 4 * (p.length - 2) + 2 then 2 else 0) * f j +
      (if j = 4 * (p.length - 2) + 3 then 6 else 0) * f j := by
    intro j _
    unfold refreshedSystem
    have h43 : 43 = 4 * N - 1 := rfl
    rw [h43, arrange_last_row _ _ _ h2]
    ring
  rw [Finset.sum_congr rfl hrow]
  simp only [Finset.sum_add_distrib]
  rw [sum_single f _ _ (by omega), sum_single f _ _ (by omega)]

end NaturalSpline

end CurveEditing

namespace CurveEditing

namespace NaturalSpline

/-! ## The refreshed system has only the trivial homogeneous solution -/

/-- Forward substitution through the continuity rows: the first- and second-order
coefficients of every segment are multiples of the first-order coefficient of
segment 0, with factors of alternating sign. -/
theorem coefficients_chain (f : Nat → ℚ)
    (e0 : ∀ i, i < 11 → f (4 * i) = 0)
    (e1 : ∀ i, i < 11 → f (4 * i) + f (4 * i + 1) + f (4 * i + 2) + f (4 * i + 3) = 0)
    (e2 : ∀ i, i < 10 →
      f (4 * i + 1) + 2 * f (4 * i + 2) + 3 * f (4 * i + 3) - f (4 * i + 5) = 0)
    (e3 : ∀ i, i < 10 → 2 * f (4 * i + 2) + 6 * f (4 * i + 3) - 2 * f (4 * i + 6) = 0)
    (e4 : 2 * f 2 = 0) :
    ∀ i, i ≤ 10 → ∃ x y : ℚ, 0 < x ∧ 0 ≤ y ∧
      ((f (4 * i + 1) = x * f 1 ∧ f (4 * i + 2) = y * f 1) ∨
       (f (4 * i + 1) = -x * f 1 ∧ f (4 * i + 2) = -y * f 1)) := by
  intro i
  induction i with
  | zero =>
    intro _
    refine ⟨1, 0, by norm_num, le_refl _, Or.inl ⟨by simp, ?_⟩⟩
    have : f 2 = 0 := by linarith
    simp [this]
  | succ n ih =>
    intro hn
    obtain ⟨x, y, hx, hy, h⟩ := ih (by omega)
    have h0 := e0 n (by omega)
    have h1 := e1 n (by omega)
    have h2 := e2 n (by omega)
    have h3 := e3 n (by omega)
    have i1 : 4 * (n + 1) + 1 = 4 * n + 5 := by ring
    have i2 : 4 * (n + 1) + 2 = 4 * n + 6 := by ring
    rw [i1, i2]
    refine ⟨2 * x + y, 3 * x + 2 * y, by linarith, by linarith, ?_⟩
    rcases h with ⟨ha, hb⟩ | ⟨ha, hb⟩
    · right
      constructor <;> linarith
    · left
      constructor <;> linarith

/-- The homogeneous equations of the refreshed system force every coefficient
to vanish. -/
theorem homogeneous_zero (k : Nat) (hk2 : 2 ≤ k) (hk12 : k ≤ 12) (f : Nat → ℚ)
    (e0 : ∀ i, i < 11 → f (4 * i) = 0)
    (e1 : ∀ i, i < 11 → f (4 * i) + f (4 * i + 1) + f (4 * i + 2) + f (4 * i + 3) = 0)
    (e2 : ∀ i, i < 10 →
      f (4 * i + 1) + 2 * f (4 * i + 2) + 3 * f (4 * i + 3) - f (4 * i + 5) = 0)
    (e3 : ∀ i, i < 10 → 2 * f (4 * i + 2) + 6 * f (4 * i + 3) - 2 * f (4 * i + 6) = 0)
    (e4 : 2 * f 2 = 0)
    (e5 : 2 * f (4 * (k - 2) + 2) + 6 * f (4 * (k - 2) + 3) = 0) :
    ∀ j, j < 44 → f j = 0 := by
  have chain := coefficients_chain f e0 e1 e2 e3 e4
  have hf1 : f 1 = 0 := by
    obtain ⟨x, y, hx, hy, h⟩ := chain (k - 2) (by omega)
    have h0 := e0 (k - 2) (by omega)
    have h1 := e1 (k - 2) (by omega)
    have hpos : 0 < 6 * x + 4 * y := by linarith
    have hprod : (6 * x + 4 * y) * f 1 = 0 := by
      rcases h with ⟨ha, hb⟩ | ⟨ha, hb⟩ <;> linarith
    rcases mul_eq_zero.mp hprod with h | h
    · exact absurd h (ne_of_gt hpos)
    · exact h
  intro j hj
  obtain ⟨x, y, -, -, h⟩ := chain (j / 4) (by omega)
  have h0 := e0 (j / 4) (by omega)
  have h1 := e1 (j / 4) (by omega)
  rw [hf1] at h
  have ha : f (4 * (j / 4) + 1) = 0 := by
    rcases h with ⟨ha, -⟩ | ⟨ha, -⟩ <;> simpa using ha
  have hb : f (4 * (j / 4) + 2) = 0 := by
    rcases h with ⟨-, hb⟩ | ⟨-, hb⟩ <;> simpa using hb
  have hc : f (4 * (j / 4) + 3) = 0 := by linarith
  have hcases : j = 4 * (j / 4) ∨ j = 4 * (j / 4) + 1 ∨ j = 4 * (j / 4) + 2 ∨
      j = 4 * (j / 4) + 3 := by omega
  rcases hcases with h | h | h | h <;> rw [h] <;> assumption

/-- A vector annihilated by every row of the refreshed matrix is zero. -/
theorem kernel_trivial (p : List Vec3) (h2 : 2 ≤ p.length) (h12 : p.length ≤ 12)
    (f : Nat → ℚ)
    (hf : ∀ r, r < 44 → (∑ j in Finset.range 44, (refreshedSystem p).1 r j * f j) = 0) :
    ∀ j, j < 44 → f j = 0 := by
  apply homogeneous_zero p.length h2 h12 f
  · intro i hi
    rw [← dot_interp0 p f i hi]
    exact hf _ (by omega)
  · intro i hi
    rw [← dot_interp1 p f i hi]
    exact hf _ (by omega)
  · intro i hi
    rw [← dot_tangent p f i hi]
    exact hf _ (by omega)
  · intro i hi
    rw [← dot_curvature p f i hi]
    exact hf _ (by omega)
  · rw [← dot_start p f]
    exact hf _ (by omega)
  · rw [← dot_end p f h2 h12]
    exact hf _ (by omega)

/-- Extension of a vector indexed by `Fin 44` to all natural numbers. -/
theorem extend_apply (u : Fin (4 * N) → ℚ) (j : Fin (4 * N)) :
    (fun n : Nat => if h : n < 4 * N then u ⟨n, h⟩ else 0) (j : Nat) = u j := by
  simp only [dif_pos j.isLt]

theorem mulVec_injective (p : List Vec3) (h2 : 2 ≤ p.length) (h12 : p.length ≤ 12) :
    Function.Injective (systemMatrix (refreshedSystem p).1).mulVec := by
  have hker : ∀ u : Fin (4 * N) → ℚ,
      (systemMatrix (refreshedSystem p).1).mulVec u = 0 → u = 0 := by
    intro u hu
    have hz := kernel_trivial p h2 h12
      (fun n : Nat => if h : n < 4 * N then u ⟨n, h⟩ else 0) ?_
    · funext j
      have := hz j j.isLt
      simpa [dif_pos j.isLt] using this
    · intro r hr
      have hrow := congrFun hu ⟨r, hr⟩
      simp only [Matrix.mulVec, Matrix.dotProduct, systemMatrix, Matrix.of_apply,
        Pi.zero_apply] at hrow
      have h44 : (44 : Nat) = 4 * N := rfl
      rw [h44, Finset.sum_range]
      simp only [Fin.is_lt, dite_true, Fin.eta]
      exact hrow
  intro v w hvw
  have : v - w = 0 := hker (v - w) (by rw [Matrix.mulVec_sub, hvw, sub_self])
  exact sub_eq_zero.mp this

theorem det_ne_zero (p : List Vec3) (h2 : 2 ≤ p.length) (h12 : p.length ≤ 12) :
    (systemMatrix (refreshedSystem p).1).det ≠ 0 := by
  have hu := Matrix.mulVec_injective_iff_isUnit.mp (mulVec_injective p h2 h12)
  rw [Matrix.isUnit_iff_isUnit_det] at hu
  exact hu.ne_zero

/-- The refreshed system has a solution. -/
theorem solution_exists (p : List Vec3) (h2 : 2 ≤ p.length) (h12 : p.length ≤ 12) :
    ∃ c : Mat, Solves (refreshedSystem p).1 (refreshedSystem p).2 c := by
  have hdet : IsUnit (systemMatrix (refreshedSystem p).1).det :=
    isUnit_iff_ne_zero.mpr (det_ne_zero p h2 h12)
  let B : Matrix (Fin (4 * N)) (Fin 3) ℚ := Matrix.of fun i k => (refreshedSystem p).2 i k
  let C : Matrix (Fin (4 * N)) (Fin 3) ℚ := (systemMatrix (refreshedSystem p).1)⁻¹ * B
  have hC : systemMatrix (refreshedSystem p).1 * C = B := by
    show systemMatrix (refreshedSystem p).1 * ((systemMatrix (refreshedSystem p).1)⁻¹ * B) = B
    rw [← Matrix.mul_assoc, Matrix.mul_nonsing_inv _ hdet, Matrix.one_mul]
  refine ⟨fun j k => if h : j < 4 * N ∧ k < 3 then C ⟨j, h.1⟩ ⟨k, h.2⟩ else 0, ?_⟩
  intro r hr k hk
  have hentry := congrFun (congrFun hC ⟨r, hr⟩) ⟨k, hk⟩
  simp only [Matrix.mul_apply, systemMatrix, Matrix.of_apply, B] at hentry
  rw [Finset.sum_range]
  simp only [Fin.is_lt, hk, and_self, dite_true, Fin.eta]
  exact hentry

/-- Two solutions of the refreshed system agree on all `44 x 3` entries. -/
theorem solution_unique (p : List Vec3) (h2 : 2 ≤ p.length) (h12 : p.length ≤ 12)
    (c c2 : Mat) (hc : Solves (refreshedSystem p).1 (refreshedSystem p).2 c)
    (hc2 : Solves (refreshedSystem p).1 (refreshedSystem p).2 c2) :
    ∀ j, j < 44 → ∀ k, k < 3 → c j k = c2 j k := by
  intro j hj k hk
  have hz := kernel_trivial p h2 h12 (fun n => c n k - c2 n k) ?_ j hj
  · exact sub_eq_zero.mp hz
  · intro r hr
    have a1 := hc r hr k hk
    have a2 := hc2 r hr k hk
    have h44 : (44 : Nat) = 4 * N := rfl
    rw [h44]
    simp only [mul_sub, Finset.sum_sub_distrib]
    rw [a1, a2, sub_self]

end NaturalSpline

end CurveEditing

namespace CurveEditing

namespace NaturalSpline

/-! ## Solutions of the refreshed system -/

/-- The refreshed system, row by row: a matrix `c` that satisfies the equation of
every row solves it. -/
theorem solves_of_rows (p : List Vec3) (h2 : 2 ≤ p.length) (h12 : p.length ≤ 12) (c : Mat)
    (r0 : ∀ i, i < 11 → ∀ k, k < 3 → c (4 * i) k = (refreshedSystem p).2 (2 * i) k)
    (r1 : ∀ i, i < 11 → ∀ k, k < 3 →
      c (4 * i) k + c (4 * i + 1) k + c (4 * i + 2) k + c (4 * i + 3) k =
        (refreshedSystem p).2 (2 * i + 1) k)
    (r2 : ∀ i, i < 10 → ∀ k, k < 3 →
      c (4 * i + 1) k + 2 * c (4 * i + 2) k + 3 * c (4 * i + 3) k - c (4 * i + 5) k =
        (refreshedSystem p).2 (22 + i) k)
    (r3 : ∀ i, i < 10 → ∀ k, k < 3 →
      2 * c (4 * i + 2) k + 6 * c (4 * i + 3) k - 2 * c (4 * i + 6) k =
        (refreshedSystem p).2 (32 + i) k)
    (r4 : ∀ k, k < 3 → 2 * c 2 k = (refreshedSystem p).2 42 k)
    (r5 : ∀ k, k < 3 →
      2 * c (4 * (p.length - 2) + 2) k + 6 * c (4 * (p.length - 2) + 3) k =
        (refreshedSystem p).2 43 k) :
    Solves (refreshedSystem p).1 (refreshedSystem p).2 c := by
  intro r hr k hk
  have h44 : 4 * N = 44 := rfl
  rw [h44] at hr ⊢
  by_cases hA : r < 22
  · rcases Nat.even_or_odd' r with ⟨i, hi | hi⟩
    · subst hi
      rw [dot_interp0 p (fun j => c j k) i (by omega)]
      exact r0 i (by omega) k hk
    · subst hi
      rw [dot_interp1 p (fun j => c j k) i (by omega)]
      exact r1 i (by omega) k hk
  · by_cases hB : r < 32
    · obtain ⟨i, rfl⟩ : ∃ i, r = 22 + i := ⟨r - 22, by omega⟩
      rw [dot_tangent p (fun j => c j k) i (by omega)]
      exact r2 i (by omega) k hk
    · by_cases hC : r < 42
      · obtain ⟨i, rfl⟩ : ∃ i, r = 32 + i := ⟨r - 32, by omega⟩
        rw [dot_curvature p (fun j => c j k) i (by omega)]
        exact r3 i (by omega) k hk
      · by_cases hD : r = 42
        · subst hD
          rw [dot_start p (fun j => c j k)]
          exact r4 k hk
        · have hE : r = 43 := by omega
          subst hE
          rw [dot_end p (fun j => c j k) h2 h12]
          exact r5 k hk

/-- The equations that a solution satisfies, row by row. -/
theorem rows_of_solves (p : List Vec3) (h2 : 2 ≤ p.length) (h12 : p.length ≤ 12) (c : Mat)
    (hc : Solves (refreshedSystem p).1 (refreshedSystem p).2 c) (k : Nat) (hk : k < 3) :
    (∀ i, i < 11 → c (4 * i) k = (refreshedSystem p).2 (2 * i) k) ∧
    (∀ i, i < 11 → c (4 * i) k + c (4 * i + 1) k + c (4 * i + 2) k + c (4 * i + 3) k =
        (refreshedSystem p).2 (2 * i + 1) k) ∧
    (∀ i, i < 10 →
      c (4 * i + 1) k + 2 * c (4 * i + 2) k + 3 * c (4 * i + 3) k - c (4 * i + 5) k =
        (refreshedSystem p).2 (22 + i) k) ∧
    (∀ i, i < 10 → 2 * c (4 * i + 2) k + 6 * c (4 * i + 3) k - 2 * c (4 * i + 6) k =
        (refreshedSystem p).2 (32 + i) k) ∧
    2 * c 2 k = (refreshedSystem p).2 42 k ∧
    2 * c (4 * (p.length - 2) + 2) k + 6 * c (4 * (p.length - 2) + 3) k =
        (refreshedSystem p).2 43 k := by
  have h44 : 4 * N = 44 := rfl
  have hrow : ∀ r, r < 44 →
      (∑ j in Finset.range 44, (refreshedSystem p).1 r j * (fun j => c j k) j) =
        (refreshedSystem p).2 r k := by
    intro r hr
    have := hc r (by rw [h44]; exact hr) k hk
    rw [h44] at this
    exact this
  refine ⟨fun i hi => ?_, fun i hi => ?_, fun i hi => ?_, fun i hi => ?_, ?_, ?_⟩
  · rw [← hrow _ (by omega), dot_interp0 p (fun j => c j k) i hi]
  · rw [← hrow _ (by omega), dot_interp1 p (fun j => c j k) i hi]
  · rw [← hrow _ (by omega), dot_tangent p (fun j => c j k) i hi]
  · rw [← hrow _ (by omega), dot_curvature p (fun j => c j k) i hi]
  · rw [← hrow _ (by omega), dot_start p (fun j => c j k)]
  · rw [← hrow _ (by omega), dot_end p (fun j => c j k) h2 h12]

theorem rhs_first (p : List Vec3) (i k : Nat) (hi : i + 1 < p.length) (hk : k < 3) :
    (refreshedSystem p).2 (2 * i) k = coord (p.getD i ⟨0, 0, 0⟩) k := by
  unfold refreshedSystem
  rw [arrange_rhs, if_pos ⟨by omega, hk⟩]
  have : (2 * i + 1) / 2 = i := by omega
  rw [this]

theorem rhs_second (p : List Vec3) (i k : Nat) (hi : i + 1 < p.length) (hk : k < 3) :
    (refreshedSystem p).2 (2 * i + 1) k = coord (p.getD (i + 1) ⟨0, 0, 0⟩) k := by
  unfold refreshedSystem
  rw [arrange_rhs, if_pos ⟨by omega, hk⟩]
  have : (2 * i + 1 + 1) / 2 = i + 1 := by omega
  rw [this]

theorem rhs_zero (p : List Vec3) (r k : Nat) (h12 : p.length ≤ 12) (hr : 22 ≤ r) :
    (refreshedSystem p).2 r k = 0 := by
  unfold refreshedSystem
  rw [arrange_rhs, if_neg (by omega)]

theorem vec3_eq_of_coord (u v : Vec3) (h : ∀ k, k < 3 → coord u k = coord v k) : u = v := by
  have hx := h 0 (by norm_num)
  have hy := h 1 (by norm_num)
  have hz := h 2 (by norm_num)
  cases u
  cases v
  simp only [coord] at hx hy hz
  rw [hx, hy, hz]

/-- C2: for 2 to 12 data points the refreshed system `A * c = b` built by
`buildLinearSystem` and `arrangeMatrix` has a non-singular matrix, so it has
exactly one solution, and the cubic that `drawNaturalCubicSpline` evaluates for
an active segment `i` from that solution is `p[i]` at `t = 0` and `p[i+1]` at
`t = 1`. -/
theorem natural_spline_interpolates (p : List Vec3) (h2 : 2 ≤ p.length)
    (h12 : p.length ≤ 12) :
    (systemMatrix (refreshedSystem p).1).det ≠ 0 ∧
    (∃ c : Mat, Solves (refreshedSystem p).1 (refreshedSystem p).2 c) ∧
    (∀ c c2 : Mat, Solves (refreshedSystem p).1 (refreshedSystem p).2 c →
      Solves (refreshedSystem p).1 (refreshedSystem p).2 c2 →
      ∀ j, j < 4 * N → ∀ k, k < 3 → c j k = c2 j k) ∧
    (∀ c : Mat, Solves (refreshedSystem p).1 (refreshedSystem p).2 c →
      ∀ i, (hi : i + 1 < p.length) →
        cubicPoint c i 0 = p[i] ∧ cubicPoint c i 1 = p[i + 1]) := by
  refine ⟨det_ne_zero p h2 h12, solution_exists p h2 h12,
    fun c c2 hc hc2 => solution_unique p h2 h12 c c2 hc hc2, fun c hc i hi => ?_⟩
  have e0 : ∀ k, k < 3 → c (4 * i) k = coord p[i] k := by
    intro k hk
    rw [(rows_of_solves p h2 h12 c hc k hk).1 i (by omega), rhs_first p i k hi hk,
      List.getD_eq_getElem p _ (by omega)]
  have e1 : ∀ k, k < 3 →
      c (4 * i) k + c (4 * i + 1) k + c (4 * i + 2) k + c (4 * i + 3) k =
        coord p[i + 1] k := by
    intro k hk
    rw [(rows_of_solves p h2 h12 c hc k hk).2.1 i (by omega), rhs_second p i k hi hk,
      List.getD_eq_getElem p _ hi]
  constructor
  · apply vec3_eq_of_coord
    intro k hk
    rw [← e0 k hk]
    interval_cases k <;> simp [cubicPoint, coord]
  · apply vec3_eq_of_coord
    intro k hk
    rw [← e1 k hk]
    interval_cases k <;> simp only [cubicPoint, coord, Nat.add_zero] <;> ring

/-- C3: any solution of the refreshed system for 2 to 12 data points has equal
first and second derivatives on both sides of every interior data point, and
zero second derivative at the start of segment 0 (`2*c2 = 0`) and at the end of
the last active segment (`2*c2 + 6*c3 = 0`). -/
theorem natural_spline_smooth (p : List Vec3) (h2 : 2 ≤ p.length) (h12 : p.length ≤ 12)
    (c : Mat) (hc : Solves (refreshedSystem p).1 (refreshedSystem p).2 c) :
    (∀ j, 1 ≤ j → j ≤ p.length - 2 → ∀ k, k < 3 →
      firstDerivative c (j - 1) k 1 = firstDerivative c j k 0 ∧
      secondDerivative c (j - 1) k 1 = secondDerivative c j k 0) ∧
    (∀ k, k < 3 → 2 * c 2 k = 0 ∧ secondDerivative c 0 k 0 = 0) ∧
    (∀ k, k < 3 →
      2 * c (4 * (p.length - 2) + 2) k + 6 * c (4 * (p.length - 2) + 3) k = 0 ∧
      secondDerivative c (p.length - 2) k 1 = 0) := by
  refine ⟨fun j hj1 hj2 k hk => ?_, fun k hk => ?_, fun k hk => ?_⟩
  · obtain ⟨-, -, t2, t3, -, -⟩ := rows_of_solves p h2 h12 c hc k hk
    have a := t2 (j - 1) (by omega)
    have b := t3 (j - 1) (by omega)
    rw [rhs_zero p _ k h12 (by omega)] at a b
    have i1 : 4 * (j - 1) + 5 = 4 * j + 1 := by omega
    have i2 : 4 * (j - 1) + 6 = 4 * j + 2 := by omega
    rw [i1] at a
    rw [i2] at b
    unfold firstDerivative secondDerivative
    constructor <;> linarith
  · obtain ⟨-, -, -, -, t4, -⟩ := rows_of_solves p h2 h12 c hc k hk
    rw [rhs_zero p _ k h12 (by omega)] at t4
    unfold secondDerivative
    refine ⟨t4, ?_⟩
    simp only [Nat.mul_zero, Nat.zero_add]
    linarith
  · obtain ⟨-, -, -, -, -, t5⟩ := rows_of_solves p h2 h12 c hc k hk
    rw [rhs_zero p _ k h12 (by omega)] at t5
    unfold secondDerivative
    refine ⟨t5, ?_⟩
    linarith

/-- The functions `firstDerivative` and `secondDerivative` are the derivatives of
the cubic polynomial that `cubicPoint` evaluates. -/
theorem cubic_derivatives (c : Mat) (i k : Nat) (t : ℚ) :
    (k < 3 →
      (Polynomial.C (c (4 * i) k) + Polynomial.C (c (4 * i + 1) k) * Polynomial.X +
        Polynomial.C (c (4 * i + 2) k) * Polynomial.X ^ 2 +
        Polynomial.C (c (4 * i + 3) k) * Polynomial.X ^ 3).eval t =
      coord (cubicPoint c i t) k) ∧
    (Polynomial.derivative
      (Polynomial.C (c (4 * i) k) + Polynomial.C (c (4 * i + 1) k) * Polynomial.X +
        Polynomial.C (c (4 * i + 2) k) * Polynomial.X ^ 2 +
        Polynomial.C (c (4 * i + 3) k) * Polynomial.X ^ 3)).eval t =
      firstDerivative c i k t ∧
    (Polynomial.derivative (Polynomial.derivative
      (Polynomial.C (c (4 * i) k) + Polynomial.C (c (4 * i + 1) k) * Polynomial.X +
        Polynomial.C (c (4 * i + 2) k) * Polynomial.X ^ 2 +
        Polynomial.C (c (4 * i + 3) k) * Polynomial.X ^ 3))).eval t =
      secondDerivative c i k t := by
  refine ⟨fun hk => ?_, ?_, ?_⟩
  · interval_cases k <;>
      simp only [cubicPoint, coord, Nat.add_zero, Polynomial.eval_add, Polynomial.eval_mul,
        Polynomial.eval_C, Polynomial.eval_X, Polynomial.eval_pow] <;> ring
  · simp only [firstDerivative, Polynomial.derivative_add, Polynomial.derivative_mul,
      Polynomial.derivative_C, Polynomial.derivative_X, Polynomial.derivative_X_pow,
      Polynomial.eval_add, Polynomial.eval_mul, Polynomial.eval_C, Polynomial.eval_X,
      Polynomial.eval_pow, Polynomial.eval_zero, Polynomial.eval_one, Polynomial.eval_natCast,
      Polynomial.C_eq_natCast]
    norm_num
    ring
  · simp only [secondDerivative, Polynomial.derivative_add, Polynomial.derivative_mul,
      Polynomial.derivative_C, Polynomial.derivative_X, Polynomial.derivative_X_pow,
      Polynomial.derivative_one, Polynomial.derivative_zero, Polynomial.derivative_natCast,
      Polynomial.eval_add, Polynomial.eval_mul, Polynomial.eval_C, Polynomial.eval_X,
      Polynomial.eval_pow, Polynomial.eval_zero, Polynomial.eval_one, Polynomial.eval_natCast,
      Polynomial.C_eq_natCast]
    norm_num
    ring

/-! ## Straight-line data -/

theorem twoPoints_solved :
    Solves (refreshedSystem twoPoints).1 (refreshedSystem twoPoints).2 (lineSolution 1) :=
  solves_of_rows twoPoints (by decide) (by decide) (lineSolution 1)
    (by decide!) (by decide!) (by decide!) (by decide!) (by decide!) (by decide!)

theorem threePoints_solved :
    Solves (refreshedSystem threePoints).1 (refreshedSystem threePoints).2 (lineSolution 2) :=
  solves_of_rows threePoints (by decide) (by decide) (lineSolution 2)
    (by decide!) (by decide!) (by decide!) (by decide!) (by decide!) (by decide!)

/-- C2 at three equally spaced points. -/
theorem natural_spline_interpolates_witness :
    2 ≤ threePoints.length ∧ threePoints.length ≤ 12 ∧
    (systemMatrix (refreshedSystem threePoints).1).det ≠ 0 ∧
    (∃ c : Mat, Solves (refreshedSystem threePoints).1 (refreshedSystem threePoints).2 c) ∧
    (∀ c c2 : Mat, Solves (refreshedSystem threePoints).1 (refreshedSystem threePoints).2 c →
      Solves (refreshedSystem threePoints).1 (refreshedSystem threePoints).2 c2 →
      ∀ j, j < 4 * N → ∀ k, k < 3 → c j k = c2 j k) ∧
    (∀ c : Mat, Solves (refreshedSystem threePoints).1 (refreshedSystem threePoints).2 c →
      ∀ i, (hi : i + 1 < threePoints.length) →
        cubicPoint c i 0 = threePoints[i] ∧ cubicPoint c i 1 = threePoints[i + 1]) :=
  ⟨by decide, by decide, natural_spline_interpolates threePoints (by decide) (by decide)⟩

/-- C3 at three equally spaced points and their solution. -/
theorem natural_spline_smooth_witness :
    2 ≤ threePoints.length ∧ threePoints.length ≤ 12 ∧
    Solves (refreshedSystem threePoints).1 (refreshedSystem threePoints).2 (lineSolution 2) ∧
    (∀ j, 1 ≤ j → j ≤ threePoints.length - 2 → ∀ k, k < 3 →
      firstDerivative (lineSolution 2) (j - 1) k 1 = firstDerivative (lineSolution 2) j k 0 ∧
      secondDerivative (lineSolution 2) (j - 1) k 1 =
        secondDerivative (lineSolution 2) j k 0) ∧
    (∀ k, k < 3 → 2 * lineSolution 2 2 k = 0 ∧ secondDerivative (lineSolution 2) 0 k 0 = 0) ∧
    (∀ k, k < 3 →
      2 * lineSolution 2 (4 * (threePoints.length - 2) + 2) k +
        6 * lineSolution 2 (4 * (threePoints.length - 2) + 3) k = 0 ∧
      secondDerivative (lineSolution 2) (threePoints.length - 2) k 1 = 0) :=
  ⟨by decide, by decide, threePoints_solved,
    natural_spline_smooth threePoints (by decide) (by decide) (lineSolution 2)
      threePoints_solved⟩

/-- C4: for two data points `p0`, `p1` the refreshed system has a solution, and
every solution has `c0 = p0`, `c1 = p1 - p0`, `c2 = c3 = 0` on segment 0; for
`(0,0,0)`, `(1,0,0)` this is `c0 = (0,0,0)`, `c1 = (1,0,0)`, `c2 = c3 = (0,0,0)`. -/
theorem two_point_line (p0 p1 : Vec3) :
    (∃ c : Mat, Solves (refreshedSystem [p0, p1]).1 (refreshedSystem [p0, p1]).2 c) ∧
    (∀ c c2 : Mat, Solves (refreshedSystem [p0, p1]).1 (refreshedSystem [p0, p1]).2 c →
      Solves (refreshedSystem [p0, p1]).1 (refreshedSystem [p0, p1]).2 c2 →
      ∀ j, j < 4 * N → ∀ k, k < 3 → c j k = c2 j k) ∧
    (∀ c : Mat, Solves (refreshedSystem [p0, p1]).1 (refreshedSystem [p0, p1]).2 c →
      ∀ k, k < 3 →
        c 0 k = coord p0 k ∧ c 1 k = coord p1 k - coord p0 k ∧ c 2 k = 0 ∧ c 3 k = 0) ∧
    (∀ c : Mat, Solves (refreshedSystem twoPoints).1 (refreshedSystem twoPoints).2 c →
      (c 0 0 = 0 ∧ c 0 1 = 0 ∧ c 0 2 = 0) ∧ (c 1 0 = 1 ∧ c 1 1 = 0 ∧ c 1 2 = 0) ∧
      (c 2 0 = 0 ∧ c 2 1 = 0 ∧ c 2 2 = 0) ∧ (c 3 0 = 0 ∧ c 3 1 = 0 ∧ c 3 2 = 0)) := by
  have hlen2 : ∀ a b : Vec3, 2 ≤ [a, b].length := fun _ _ => le_refl _
  have hlen12 : ∀ a b : Vec3, [a, b].length ≤ 12 := fun _ _ => by simp
  have main : ∀ (a b : Vec3) (c : Mat),
      Solves (refreshedSystem [a, b]).1 (refreshedSystem [a, b]).2 c → ∀ k, k < 3 →
        c 0 k = coord a k ∧ c 1 k = coord b k - coord a k ∧ c 2 k = 0 ∧ c 3 k = 0 := by
    intro a b c hc k hk
    obtain ⟨t0, t1, -, -, t4, t5⟩ := rows_of_solves [a, b] (hlen2 a b) (hlen12 a b) c hc k hk
    have a0 := t0 0 (by norm_num)
    have a1 := t1 0 (by norm_num)
    rw [rhs_first [a, b] 0 k (by simp) hk] at a0
    rw [rhs_second [a, b] 0 k (by simp) hk] at a1
    rw [rhs_zero _ _ k (hlen12 a b) (by norm_num)] at t4 t5
    simp only [List.length_cons, List.length_nil, Nat.mul_zero, Nat.zero_add, Nat.reduceAdd,
      Nat.reduceSub, List.getD_cons_zero, List.getD_cons_succ] at a0 a1 t5
    refine ⟨a0, ?_, ?_, ?_⟩ <;> linarith
  refine ⟨solution_exists _ (hlen2 p0 p1) (hlen12 p0 p1),
    fun c c2 hc hc2 => solution_unique _ (hlen2 p0 p1) (hlen12 p0 p1) c c2 hc hc2,
    main p0 p1, fun c hc => ?_⟩
  have h0 := main ⟨0, 0, 0⟩ ⟨1, 0, 0⟩ c hc 0 (by norm_num)
  have h1 := main ⟨0, 0, 0⟩ ⟨1, 0, 0⟩ c hc 1 (by norm_num)
  have h2 := main ⟨0, 0, 0⟩ ⟨1, 0, 0⟩ c hc 2 (by norm_num)
  simp only [coord, sub_zero, sub_self] at h0 h1 h2
  exact ⟨⟨h0.1, h1.1, h2.1⟩, ⟨h0.2.1, h1.2.1, h2.2.1⟩, ⟨h0.2.2.1, h1.2.2.1, h2.2.2.1⟩,
    ⟨h0.2.2.2, h1.2.2.2, h2.2.2.2⟩⟩

/-- C4 at the points `(0,0,0)`, `(1,0,0)` and their solution. -/
theorem two_point_line_witness :
    Solves (refreshedSystem twoPoints).1 (refreshedSystem twoPoints).2 (lineSolution 1) ∧
    (lineSolution 1 0 0 = 0 ∧ lineSolution 1 0 1 = 0 ∧ lineSolution 1 0 2 = 0) ∧
    (lineSolution 1 1 0 = 1 ∧ lineSolution 1 1 1 = 0 ∧ lineSolution 1 1 2 = 0) ∧
    (lineSolution 1 2 0 = 0 ∧ lineSolution 1 2 1 = 0 ∧ lineSolution 1 2 2 = 0) ∧
    (lineSolution 1 3 0 = 0 ∧ lineSolution 1 3 1 = 0 ∧ lineSolution 1 3 2 = 0) :=
  ⟨twoPoints_solved,
    (two_point_line ⟨0, 0, 0⟩ ⟨1, 0, 0⟩).2.2.2 (lineSolution 1) twoPoints_solved⟩


end NaturalSpline

end CurveEditing

namespace CurveEditing

/-! ## Removal on a store of at most one point -/

theorem selectPoint_nil (x y : ℚ) : selectPoint [] x y = -1 := rfl

theorem selectPoint_single (v : Vec3) (x y : ℚ) :
    selectPoint [v] x y = if planarDistSq x y v < 225 then 0 else -1 := by
  have h : (15 : ℚ) * 15 = 225 := by norm_num
  have hr : List.range 1 = [0] := rfl
  simp only [selectPoint, selectStep, List.length_singleton, hr, List.foldl_cons,
    List.foldl_nil, List.getD_cons_zero, h]
  split_ifs <;> rfl

theorem BSpline.removeControlPoint_neg_one (s : BSpline.State) :
    BSpline.removeControlPoint s (-1) = s := by
  unfold BSpline.removeControlPoint
  rw [if_neg (by decide)]

theorem NaturalSpline.removeDataPoint_neg_one
    (solve : NaturalSpline.Mat → NaturalSpline.Mat → NaturalSpline.Mat)
    (s : NaturalSpline.State) : NaturalSpline.removeDataPoint solve s (-1) = s := by
  unfold NaturalSpline.removeDataPoint
  rw [if_neg (by decide)]

/-- C11, as stated, fails: on the store holding the single point `(0,0,0)` the
query `(1, 1)` selects index 0 and the removal empties the store, in exact
arithmetic and on the arithmetic of either program. -/
theorem single_point_is_removed :
    ¬ (selectPoint singlePoint 1 1 = -1 ∧
      erasePoint singlePoint (selectPoint singlePoint 1 1) = singlePoint) ∧
    ¬ (selectPointWith bsplineArith singlePoint 1 1 = -1 ∧
      erasePoint singlePoint (selectPointWith bsplineArith singlePoint 1 1) = singlePoint) ∧
    ¬ (selectPointWith naturalArith singlePoint 1 1 = -1 ∧
      erasePoint singlePoint (selectPointWith naturalArith singlePoint 1 1) = singlePoint) ∧
    selectPointWith bsplineArith singlePoint 1 1 = 0 ∧
    selectPointWith naturalArith singlePoint 1 1 = 0 ∧
    erasePoint singlePoint 0 = [] := by
  decide!

/-- Removal on a store of at most one point in exact arithmetic: on the empty
store `selectPoint` returns -1 and the removal changes nothing; on a store
holding exactly one point `v` the same holds when `v` is at planar distance at
least 15 from the query, and otherwise `selectPoint` returns 0 and the removal
leaves the empty store.  With index -1 the removal of either program returns its
state unchanged. -/
theorem removeNearest_tiny_store :
    (∀ x y : ℚ, selectPoint [] x y = -1 ∧ erasePoint [] (selectPoint [] x y) = []) ∧
    (∀ (v : Vec3) (x y : ℚ),
      ((15 : ℝ) ≤ Real.sqrt ((planarDistSq x y v : ℚ) : ℝ) →
        selectPoint [v] x y = -1 ∧ erasePoint [v] (selectPoint [v] x y) = [v]) ∧
      (Real.sqrt ((planarDistSq x y v : ℚ) : ℝ) < 15 →
        selectPoint [v] x y = 0 ∧ erasePoint [v] (selectPoint [v] x y) = [])) ∧
    (∀ s : BSpline.State, BSpline.removeControlPoint s (-1) = s) ∧
    (∀ (solve : NaturalSpline.Mat → NaturalSpline.Mat → NaturalSpline.Mat)
      (s : NaturalSpline.State), NaturalSpline.removeDataPoint solve s (-1) = s) := by
  refine ⟨fun x y => ⟨rfl, rfl⟩, fun v x y => ⟨fun h => ?_, fun h => ?_⟩,
    BSpline.removeControlPoint_neg_one, NaturalSpline.removeDataPoint_neg_one⟩
  · have hd : ¬ planarDistSq x y v < 225 := by
      rw [← sqrt_lt_fifteen]
      exact not_lt.mpr h
    rw [selectPoint_single, if_neg hd]
    exact ⟨rfl, erasePoint_neg_one [v]⟩
  · have hd : planarDistSq x y v < 225 := (sqrt_lt_fifteen _).mp h
    rw [selectPoint_single, if_pos hd]
    exact ⟨rfl, rfl⟩

/-- Removal in exact arithmetic at the single point `(0,0,0)`: the query `(1, 1)`
removes it, the query `(20, 0)` does not. -/
theorem removeNearest_tiny_store_witness :
    (selectPoint singlePoint 1 1 = 0 ∧
      erasePoint singlePoint (selectPoint singlePoint 1 1) = []) ∧
    (selectPoint singlePoint 20 0 = -1 ∧
      erasePoint singlePoint (selectPoint singlePoint 20 0) = singlePoint) ∧
    (∀ x y : ℚ, selectPoint [] x y = -1 ∧ erasePoint [] (selectPoint [] x y) = []) :=
  ⟨by decide!, by decide!, removeNearest_tiny_store.1⟩

/-! ## Insertion followed by removal -/

theorem planarDistSq_eq_zero (x y : ℚ) (v : Vec3) :
    planarDistSq x y v = 0 ↔ v.x = x ∧ v.y = y := by
  unfold planarDistSq
  constructor
  · intro h
    have hx := mul_self_nonneg (x - v.x)
    have hy := mul_self_nonneg (y - v.y)
    have h1 : (x - v.x) * (x - v.x) = 0 := by linarith
    have h2 : (y - v.y) * (y - v.y) = 0 := by linarith
    have h3 : x - v.x = 0 := by simpa using h1
    have h4 : y - v.y = 0 := by simpa using h2
    constructor <;> linarith
  · rintro ⟨h1, h2⟩
    rw [h1, h2]
    ring

theorem getD_insertIdx_self (p : List Vec3) (q d : Vec3) (n : Nat) (hn : n ≤ p.length) :
    (p.insertIdx n q).getD n d = q := by
  have hlen : n < (p.insertIdx n q).length := by
    rw [List.length_insertIdx n p hn]
    omega
  rw [List.getD_eq_getElem _ _ hlen, List.getElem_insertIdx_self p q n hn]

theorem getD_insertIdx_of_lt (p : List Vec3) (q d : Vec3) (n k : Nat) (hn : n ≤ p.length)
    (hk : k < n) : (p.insertIdx n q).getD k d = p.getD k d := by
  have hlen : k < (p.insertIdx n q).length := by
    rw [List.length_insertIdx n p hn]
    omega
  rw [List.getD_eq_getElem _ _ hlen, List.getD_eq_getElem _ _ (by omega),
    List.getElem_insertIdx_of_lt p q n k hk (by omega)]

/-- After inserting `q` at index `n`, with no earlier point at the position of
`q`, `selectPoint` at `q` returns `n`. -/
theorem selectPoint_inserted (p : List Vec3) (x y : ℚ) (n : Nat) (hn : n ≤ p.length)
    (hfree : ∀ j, j < n → ¬ ((p.getD j ⟨0, 0, 0⟩).x = x ∧ (p.getD j ⟨0, 0, 0⟩).y = y)) :
    selectPoint (p.insertIdx n ⟨x, y, 0⟩) x y = (n : ℤ) := by
  have hlen : (p.insertIdx n ⟨x, y, 0⟩).length = p.length + 1 := List.length_insertIdx n p hn
  have hq : planarDistSq x y ((p.insertIdx n ⟨x, y, 0⟩).getD n ⟨0, 0, 0⟩) = 0 := by
    rw [getD_insertIdx_self p _ _ n hn, planarDistSq_eq_zero]
    exact ⟨rfl, rfl⟩
  rcases selectPoint_scan (p.insertIdx n ⟨x, y, 0⟩) x y with ⟨-, h2⟩ | ⟨k, hk, h1, h3, h4, h5⟩
  · have := h2 n (by omega)
    rw [hq] at this
    norm_num at this
  · have hk0 : planarDistSq x y ((p.insertIdx n ⟨x, y, 0⟩).getD k ⟨0, 0, 0⟩) = 0 := by
      have hle := h4 n (by omega)
      rw [hq] at hle
      exact le_antisymm hle (planarDistSq_nonneg _ _ _)
    have hkn : k = n := by
      rcases Nat.lt_trichotomy k n with hlt | heq | hgt
      · exfalso
        rw [getD_insertIdx_of_lt p _ _ n k hn hlt, planarDistSq_eq_zero] at hk0
        exact hfree k hlt hk0
      · exact heq
      · exfalso
        have := h5 n hgt
        rw [hq, hk0] at this
        exact lt_irrefl _ this
    rw [h1, hkn]

/-- The point list after an insertion and the removal at the inserted position. -/
theorem insert_erase_list (p : List Vec3) (x y : ℚ)
    (hq : ∃ k, Qualifies p ⟨x, y, 0⟩ k)
    (hfree : ∀ j : Nat, (j : ℤ) ≤ nearestLine p ⟨x, y, 0⟩ →
      ¬ ((p.getD j ⟨0, 0, 0⟩).x = x ∧ (p.getD j ⟨0, 0, 0⟩).y = y)) :
    selectPoint (insertPoint p x y) x y = nearestLine p ⟨x, y, 0⟩ + 1 ∧
    erasePoint (insertPoint p x y) (selectPoint (insertPoint p x y) x y) = p := by
  rcases nearestLine_scan p ⟨x, y, 0⟩ with ⟨-, h2⟩ | ⟨i, hi, h1, -, -, -, -⟩
  · exfalso
    obtain ⟨k, hk⟩ := hq
    rw [qualifies_iff] at hk
    exact absurd hk.2.2 (not_lt.mpr (h2 k hk.1 hk.2.1))
  · have hins : insertPoint p x y = p.insertIdx (i + 1) ⟨x, y, 0⟩ := by
      unfold insertPoint
      simp only []
      rw [h1, if_pos (Int.natCast_nonneg i), Int.toNat_natCast]
    have hsel : selectPoint (insertPoint p x y) x y = ((i + 1 : Nat) : ℤ) := by
      rw [hins]
      apply selectPoint_inserted p x y (i + 1) (by omega)
      intro j hj
      apply hfree j
      rw [h1]
      exact_mod_cast Nat.lt_succ_iff.mp hj
    refine ⟨by rw [hsel, h1]; push_cast; ring, ?_⟩
    rw [hsel]
    unfold erasePoint
    rw [if_pos (Int.natCast_nonneg _), Int.toNat_natCast, hins, List.eraseIdx_insertIdx]

theorem NaturalSpline.zeroRow_arrange (A : NaturalSpline.Mat) (p : List Vec3) :
    ((NaturalSpline.arrangeMatrix A p).1).zeroRow (4 * NaturalSpline.N - 1) =
      A.zeroRow (4 * NaturalSpline.N - 1) := by
  funext r j
  unfold NaturalSpline.Mat.zeroRow
  by_cases h : r = 4 * NaturalSpline.N - 1
  · rw [if_pos h, if_pos h]
  · rw [if_neg h, if_neg h, NaturalSpline.arrange_other_rows A p r j h]

/-- A refresh forgets the previous refresh. -/
theorem NaturalSpline.arrange_absorb (A : NaturalSpline.Mat) (p2 p : List Vec3) :
    NaturalSpline.arrangeMatrix (NaturalSpline.arrangeMatrix A p2).1 p =
      NaturalSpline.arrangeMatrix A p := by
  have h := NaturalSpline.zeroRow_arrange A p2
  unfold NaturalSpline.arrangeMatrix at h ⊢
  rw [h]

theorem BSpline.bspline_round_trip_state (s : BSpline.State) (x y : ℚ)
    (hs : s.expanded = BSpline.construct s.p s.repetition)
    (hnl : 0 ≤ nearestLine s.p ⟨x, y, 0⟩)
    (hsel : 0 ≤ selectPoint (insertPoint s.p x y) x y)
    (herase : erasePoint (insertPoint s.p x y) (selectPoint (insertPoint s.p x y) x y) = s.p) :
    BSpline.removeControlPoint (BSpline.insertControlPoint s x y)
      (selectPoint (BSpline.insertControlPoint s x y).p x y) = s := by
  have hp : (BSpline.insertControlPoint s x y).p = insertPoint s.p x y :=
    BSpline.insertControlPoint_p s x y
  rw [hp]
  unfold BSpline.removeControlPoint
  rw [if_pos hsel]
  simp only [hp, herase]
  unfold BSpline.insertControlPoint
  rw [if_pos hnl]
  simp only [← hs]

theorem NaturalSpline.natural_round_trip_state
    (solve : NaturalSpline.Mat → NaturalSpline.Mat → NaturalSpline.Mat)
    (s : NaturalSpline.State) (x y : ℚ)
    (hA : s.A = (NaturalSpline.arrangeMatrix s.A s.p).1)
    (hb : s.b = (NaturalSpline.arrangeMatrix s.A s.p).2)
    (hc : s.c = solve s.A s.b)
    (hnl : 0 ≤ nearestLine s.p ⟨x, y, 0⟩)
    (hsel : 0 ≤ selectPoint (insertPoint s.p x y) x y)
    (herase : erasePoint (insertPoint s.p x y) (selectPoint (insertPoint s.p x y) x y) = s.p) :
    NaturalSpline.removeDataPoint solve (NaturalSpline.insertDataPoint solve s x y)
      (selectPoint (NaturalSpline.insertDataPoint solve s x y).p x y) = s := by
  have hp : (NaturalSpline.insertDataPoint solve s x y).p = insertPoint s.p x y :=
    NaturalSpline.insertDataPoint_p solve s x y
  rw [hp]
  unfold NaturalSpline.removeDataPoint
  rw [if_pos hsel]
  unfold NaturalSpline.insertDataPoint
  rw [if_pos hnl]
  simp only [NaturalSpline.refresh, herase, NaturalSpline.arrange_absorb]
  rw [← hA, ← hb, ← hc]

/-- C12, as stated, fails: with the stored points `(5,1,0), (0,0,0), (10,0,0)` the
query `(5, 1)` qualifies for the edge from `(0,0,0)` to `(10,0,0)`, but removing
at its position afterwards deletes the first stored point, not the inserted
one; in exact arithmetic and on the arithmetic of either program. -/
theorem round_trip_fails_on_coincident_point :
    (∃ k, Qualifies coincidentPoints ⟨5, 1, 0⟩ k) ∧
    insertPoint coincidentPoints 5 1 = [⟨5, 1, 0⟩, ⟨0, 0, 0⟩, ⟨5, 1, 0⟩, ⟨10, 0, 0⟩] ∧
    selectPoint (insertPoint coincidentPoints 5 1) 5 1 = 0 ∧
    erasePoint (insertPoint coincidentPoints 5 1)
      (selectPoint (insertPoint coincidentPoints 5 1) 5 1) ≠ coincidentPoints ∧
    (insertPointWith bsplineArith coincidentPoints 5 1 =
        [⟨5, 1, 0⟩, ⟨0, 0, 0⟩, ⟨5, 1, 0⟩, ⟨10, 0, 0⟩] ∧
      selectPointWith bsplineArith (insertPointWith bsplineArith coincidentPoints 5 1) 5 1 = 0 ∧
      erasePoint (insertPointWith bsplineArith coincidentPoints 5 1)
        (selectPointWith bsplineArith (insertPointWith bsplineArith coincidentPoints 5 1) 5 1) ≠
        coincidentPoints) ∧
    (insertPointWith naturalArith coincidentPoints 5 1 =
        [⟨5, 1, 0⟩, ⟨0, 0, 0⟩, ⟨5, 1, 0⟩, ⟨10, 0, 0⟩] ∧
      selectPointWith naturalArith (insertPointWith naturalArith coincidentPoints 5 1) 5 1 = 0 ∧
      erasePoint (insertPointWith naturalArith coincidentPoints 5 1)
        (selectPointWith naturalArith (insertPointWith naturalArith coincidentPoints 5 1) 5 1) ≠
        coincidentPoints) :=
  ⟨⟨1, (qualifies_iff coincidentPoints ⟨5, 1, 0⟩ 1).mpr (by decide!)⟩, by decide!, by decide!,
    by decide!, by decide!, by decide!⟩

/-- The round trip in exact arithmetic: when insertion of `q` succeeds and no
stored point up to the chosen segment index lies at the planar position of `q`,
`selectPoint` at `q` returns the inserted index and the removal restores the
point list; a state of either program whose derived curve data are those of its
point list is restored as a whole. -/
theorem insert_then_remove (p : List Vec3) (x y : ℚ)
    (hq : ∃ k, Qualifies p ⟨x, y, 0⟩ k)
    (hfree : ∀ j : Nat, (j : ℤ) ≤ nearestLine p ⟨x, y, 0⟩ →
      ¬ ((p.getD j ⟨0, 0, 0⟩).x = x ∧ (p.getD j ⟨0, 0, 0⟩).y = y)) :
    selectPoint (insertPoint p x y) x y = nearestLine p ⟨x, y, 0⟩ + 1 ∧
    erasePoint (insertPoint p x y) (selectPoint (insertPoint p x y) x y) = p ∧
    (∀ s : BSpline.State, s.p = p → s.expanded = BSpline.construct s.p s.repetition →
      BSpline.removeControlPoint (BSpline.insertControlPoint s x y)
        (selectPoint (BSpline.insertControlPoint s x y).p x y) = s) ∧
    (∀ (solve : NaturalSpline.Mat → NaturalSpline.Mat → NaturalSpline.Mat)
      (s : NaturalSpline.State), s.p = p →
      s.A = (NaturalSpline.arrangeMatrix s.A s.p).1 →
      s.b = (NaturalSpline.arrangeMatrix s.A s.p).2 → s.c = solve s.A s.b →
      NaturalSpline.removeDataPoint solve (NaturalSpline.insertDataPoint solve s x y)
        (selectPoint (NaturalSpline.insertDataPoint solve s x y).p x y) = s) := by
  obtain ⟨hsel, herase⟩ := insert_erase_list p x y hq hfree
  have hnl : 0 ≤ nearestLine p ⟨x, y, 0⟩ := by
    rcases nearestLine_scan p ⟨x, y, 0⟩ with ⟨-, h2⟩ | ⟨i, -, h1, -, -, -, -⟩
    · exfalso
      obtain ⟨k, hk⟩ := hq
      rw [qualifies_iff] at hk
      exact absurd hk.2.2 (not_lt.mpr (h2 k hk.1 hk.2.1))
    · rw [h1]
      exact Int.natCast_nonneg i
  have hsel0 : 0 ≤ selectPoint (insertPoint p x y) x y := by
    rw [hsel]
    omega
  refine ⟨hsel, herase, fun s hs he => ?_, fun solve s hs hA hb hc => ?_⟩
  · subst hs
    exact BSpline.bspline_round_trip_state s x y he hnl hsel0 herase
  · subst hs
    exact NaturalSpline.natural_round_trip_state solve s x y hA hb hc hnl hsel0 herase

/-- The round trip in exact arithmetic at the scenario points and the query
`(5, 1)`. -/
theorem insert_then_remove_witness :
    (∃ k, Qualifies BSpline.scenarioPoints ⟨5, 1, 0⟩ k) ∧
    selectPoint (insertPoint BSpline.scenarioPoints 5 1) 5 1 = 1 ∧
    erasePoint (insertPoint BSpline.scenarioPoints 5 1)
      (selectPoint (insertPoint BSpline.scenarioPoints 5 1) 5 1) = BSpline.scenarioPoints :=
  have hq : ∃ k, Qualifies BSpline.scenarioPoints ⟨5, 1, 0⟩ k :=
    ⟨0, (qualifies_iff BSpline.scenarioPoints ⟨5, 1, 0⟩ 0).mpr (by decide!)⟩
  have h0 : nearestLine BSpline.scenarioPoints ⟨5, 1, 0⟩ = 0 := by decide!
  have hfree : ∀ j : Nat, (j : ℤ) ≤ nearestLine BSpline.scenarioPoints ⟨5, 1, 0⟩ →
      ¬ ((BSpline.scenarioPoints.getD j ⟨0, 0, 0⟩).x = 5 ∧
        (BSpline.scenarioPoints.getD j ⟨0, 0, 0⟩).y = 1) := by
    intro j hj
    rw [h0] at hj
    have hj0 : j = 0 := by omega
    subst hj0
    decide!
  ⟨hq, by decide!, (insert_then_remove BSpline.scenarioPoints 5 1 hq hfree).2.1⟩

end CurveEditing

namespace CurveEditing

namespace BSpline

/-! ## The expanded array does not depend on the previous array contents -/

theorem readAt_eq_getElem (cp : List (Option Vec3)) (j : Nat) (h : j < cp.length) :
    readAt cp j = cp[j] := by
  unfold readAt
  exact List.getD_eq_getElem cp none h

/-- State of the array after the first loop of `construct`, for any previous
contents. -/
theorem copyStored_from (fresh : List (Option Vec3)) (p : List Vec3) (r : Nat)
    (hlen : fresh.length = p.length + 2 * r) :
    (copyStored p r fresh).length = p.length + 2 * r ∧
    ∀ j, readAt (copyStored p r fresh) j =
      if r ≤ j ∧ j < r + p.length then p[j - r]? else readAt fresh j := by
  unfold copyStored
  refine foldl_range_invariant (fun a i => a.set (i + r) p[i]?)
    (fun k a => a.length = p.length + 2 * r ∧
      ∀ j, readAt a j = if r ≤ j ∧ j < r + k then p[j - r]? else readAt fresh j)
    _ p.length ?_ ?_
  · refine ⟨hlen, fun j => ?_⟩
    rw [if_neg (by omega)]
  · rintro k a hk ⟨hl, hrd⟩
    refine ⟨by simp [hl], fun j => ?_⟩
    rw [readAt_set, hrd j]
    split_ifs <;> first | rfl | (exfalso; omega) | (congr 1; omega)

/-- Contents of the expanded array for a non-empty point list, for any previous
contents of the array. -/
theorem constructFrom_entries (fresh : List (Option Vec3)) (p : List Vec3) (r : Nat)
    (hL : 1 ≤ p.length) (hlen : fresh.length = p.length + 2 * r) :
    (constructFrom fresh p r).controlPoints.length = p.length + 2 * r ∧
    ∀ j, readAt (constructFrom fresh p r).controlPoints j =
      if r ≤ j ∧ j < r + p.length then p[j - r]?
      else if j < r then p[0]?
      else if p.length + r ≤ j ∧ j < p.length + 2 * r then p[p.length - 1]?
      else readAt fresh j := by
  obtain ⟨hlen0, hrd0⟩ := copyStored_from fresh p r hlen
  show (repeatEnds p.length r _).length = _ ∧ ∀ j, readAt (repeatEnds p.length r _) j = _
  unfold repeatEnds
  have key := foldl_range_invariant (repeatStep p.length r)
    (fun k a => a.length = p.length + 2 * r ∧
      ∀ j, readAt a j =
        if r ≤ j ∧ j < r + p.length then p[j - r]?
        else if j < k then p[0]?
        else if p.length + r ≤ j ∧ j < p.length + r + k then p[p.length - 1]?
        else readAt fresh j)
    (copyStored p r fresh) r ?_ ?_
  · refine ⟨key.1, fun j => ?_⟩
    rw [key.2 j]
    have : p.length + r + r = p.length + 2 * r := by omega
    rw [this]
  · refine ⟨hlen0, fun j => ?_⟩
    rw [hrd0 j]
    split_ifs <;> first | rfl | (exfalso; omega)
  · rintro k a hk ⟨hl, hrd⟩
    have hr0 : readAt a r = p[0]? := by
      rw [hrd r, if_pos (by omega)]
      congr 1
      omega
    have hlast : readAt (a.set k (readAt a r)) (p.length + r - 1) = p[p.length - 1]? := by
      rw [readAt_set, if_neg (by omega), hrd, if_pos (by omega)]
      congr 1
      omega
    unfold repeatStep
    refine ⟨by simp [hl], fun j => ?_⟩
    simp only []
    rw [readAt_set, hlast, readAt_set, hr0, hrd j, List.length_set]
    split_ifs <;> first | rfl | (exfalso; omega)

/-- For a non-empty point list the result of `construct` is the same whatever the
fresh array held before. -/
theorem constructFrom_eq_construct (fresh : List (Option Vec3)) (p : List Vec3) (r : Nat)
    (hL : 1 ≤ p.length) (hlen : fresh.length = p.length + 2 * r) :
    constructFrom fresh p r = construct p r := by
  obtain ⟨h1, h2⟩ := constructFrom_entries fresh p r hL hlen
  obtain ⟨h3, h4⟩ := construct_entries p r hL
  have hcp : (constructFrom fresh p r).controlPoints = (construct p r).controlPoints := by
    apply List.ext_getElem (by rw [h1, h3])
    intro j hj1 hj2
    rw [← readAt_eq_getElem _ j hj1, ← readAt_eq_getElem _ j hj2, h2 j, h4 j]
    rw [h1] at hj1
    split_ifs <;> first | rfl | (exfalso; omega)
  have hn : (constructFrom fresh p r).nControlPoints = (construct p r).nControlPoints := rfl
  cases hc : constructFrom fresh p r
  cases hd : construct p r
  rw [hc] at hcp hn
  rw [hd] at hcp hn
  simp only at hcp hn
  rw [hcp, hn]

end BSpline

namespace NaturalSpline

/-! ## The refresh is determined by the current points -/

theorem refreshes_other_rows (history : List (List Vec3)) (A : Mat) (r j : Nat)
    (hr : r ≠ 4 * N - 1) :
    (history.foldl (fun M p => (arrangeMatrix M p).1) A) r j = A r j := by
  induction history generalizing A with
  | nil => rfl
  | cons p rest ih =>
    rw [List.foldl_cons, ih, arrange_other_rows A p r j hr]

theorem refreshedAfter_other_rows (history : List (List Vec3)) (r j : Nat)
    (hr : r ≠ 4 * N - 1) : refreshedAfter history r j = buildLinearSystem.1 r j :=
  refreshes_other_rows history _ r j hr

theorem zeroRow_congr (A B : Mat) (row : Nat) (h : ∀ r j, r ≠ row → A r j = B r j) :
    A.zeroRow row = B.zeroRow row := by
  funext r j
  unfold Mat.zeroRow
  by_cases hr : r = row
  · rw [if_pos hr, if_pos hr]
  · rw [if_neg hr, if_neg hr, h r j hr]

theorem arrange_history_free (history : List (List Vec3)) (p : List Vec3) :
    arrangeMatrix (refreshedAfter history) p = refreshedSystem p := by
  have h := zeroRow_congr (refreshedAfter history) buildLinearSystem.1 (4 * N - 1)
    (fun r j hr => refreshedAfter_other_rows history r j hr)
  unfold refreshedSystem arrangeMatrix
  rw [h]

theorem refresh_idempotent (solve : Mat → Mat → Mat) (s : State) :
    refresh solve (refresh solve s) = refresh solve s := by
  simp only [refresh, arrange_absorb]

end NaturalSpline

/-- C13: in the natural-spline program, after `buildLinearSystem` and any sequence
of earlier refreshes, `arrangeMatrix` yields the pair `(A, b)` that it yields
right after `buildLinearSystem` for the same points; a second `arrangeMatrix`
on the same points changes neither `A` nor `b`, and a second refresh leaves the
whole state, the solved `c` included, as it is.  In the B-spline program
`construct` on a non-empty point list yields the same expanded array whatever
the freshly allocated array held, so two runs agree. -/
theorem rebuild_history_free :
    (∀ (history : List (List Vec3)) (p : List Vec3),
      NaturalSpline.arrangeMatrix (NaturalSpline.refreshedAfter history) p =
        NaturalSpline.refreshedSystem p) ∧
    (∀ (A : NaturalSpline.Mat) (p : List Vec3),
      NaturalSpline.arrangeMatrix (NaturalSpline.arrangeMatrix A p).1 p =
        NaturalSpline.arrangeMatrix A p) ∧
    (∀ (solve : NaturalSpline.Mat → NaturalSpline.Mat → NaturalSpline.Mat)
      (s : NaturalSpline.State),
      NaturalSpline.refresh solve (NaturalSpline.refresh solve s) =
        NaturalSpline.refresh solve s) ∧
    (∀ (fresh1 fresh2 : List (Option Vec3)) (p : List Vec3) (r : Nat), 1 ≤ p.length →
      fresh1.length = p.length + 2 * r → fresh2.length = p.length + 2 * r →
      BSpline.constructFrom fresh1 p r = BSpline.constructFrom fresh2 p r ∧
      BSpline.constructFrom fresh1 p r = BSpline.construct p r) :=
  ⟨NaturalSpline.arrange_history_free, fun A p => NaturalSpline.arrange_absorb A p p,
   NaturalSpline.refresh_idempotent,
   fun fresh1 fresh2 p r hL h1 h2 =>
     ⟨by rw [BSpline.constructFrom_eq_construct fresh1 p r hL h1,
        BSpline.constructFrom_eq_construct fresh2 p r hL h2],
      BSpline.constructFrom_eq_construct fresh1 p r hL h1⟩⟩

/-- C13 at the scenario points: built on the array left by a previous `construct`
of three other points, or after a history of two refreshes. -/
theorem rebuild_history_free_witness :
    BSpline.constructFrom (BSpline.construct NaturalSpline.threePoints 2).controlPoints
      BSpline.scenarioPoints 2 = BSpline.construct BSpline.scenarioPoints 2 ∧
    NaturalSpline.arrangeMatrix
      (NaturalSpline.refreshedAfter [NaturalSpline.twoPoints, NaturalSpline.threePoints])
      BSpline.scenarioPoints = NaturalSpline.refreshedSystem BSpline.scenarioPoints :=
  ⟨(rebuild_history_free.2.2.2 (BSpline.construct NaturalSpline.threePoints 2).controlPoints
      (BSpline.construct NaturalSpline.threePoints 2).controlPoints BSpline.scenarioPoints 2
      (by decide) (by decide!) (by decide!)).2,
   rebuild_history_free.1 _ _⟩

end CurveEditing

namespace CurveEditing

namespace BSpline

/-! ## Shape of the sampled B-spline -/

theorem readAt_map_some (cp : List Vec3) (j : Nat) (hj : j < cp.length) :
    readAt (cp.map some) j = some cp[j] := by
  unfold readAt
  rw [List.getD_eq_getElem?_getD, List.getElem?_map, List.getElem?_eq_getElem hj]
  rfl

theorem window_map_some (cp : List Vec3) (i : Nat) (hi : i + 3 < cp.length) :
    window (cp.map some) i = some ![cp[i], cp[i + 1], cp[i + 2], cp[i + 3]] := by
  unfold window
  rw [readAt_map_some cp i (by omega), readAt_map_some cp (i + 1) (by omega),
    readAt_map_some cp (i + 2) (by omega), readAt_map_some cp (i + 3) hi]

theorem drawBSpline_segment (cp : List Vec3) (i : Nat) (hi : i + 3 < cp.length) :
    (drawBSpline ⟨cp.length, cp.map some⟩)[i]? =
      some (some (sampleSegment ![cp[i], cp[i + 1], cp[i + 2], cp[i + 3]])) := by
  rw [drawBSpline_getElem? _ _ (by show i < cp.length - 3; omega)]
  show some ((window (cp.map some) i).map sampleSegment) = _
  rw [window_map_some cp i hi]
  rfl

theorem sampleSegment_getElem? (b : Fin 4 → Vec3) (j : Nat) (hj : j < 40) :
    (sampleSegment b)[j]? = some (BsplinePoint b ((j : ℚ) / 39)) := by
  have h : sampleParam j = (j : ℚ) / 39 := by
    unfold sampleParam N_POINTS_PER_SEGMENTS
    norm_num
  simp [sampleSegment, N_POINTS_PER_SEGMENTS, List.getElem?_range, hj, h]

/-- Every entry of the array that `construct` builds from a non-empty point list
is a stored point. -/
theorem construct_entry_stored (p : List Vec3) (r : Nat) (hL : 1 ≤ p.length) (j : Nat)
    (hj : j < p.length + 2 * r) :
    ∃ v, v ∈ p ∧ readAt (construct p r).controlPoints j = some v := by
  obtain ⟨-, hrd⟩ := construct_entries p r hL
  rw [hrd j]
  split_ifs with h1 h2 h3
  · exact ⟨p[j - r], List.getElem_mem _, List.getElem?_eq_getElem (by omega)⟩
  · exact ⟨p[0], List.getElem_mem _, List.getElem?_eq_getElem (by omega)⟩
  · exact ⟨p[p.length - 1], List.getElem_mem _, List.getElem?_eq_getElem (by omega)⟩
  · exfalso
    omega

/-- The array that `construct` builds from a non-empty point list is a list of
assigned values. -/
theorem construct_all_set (p : List Vec3) (r : Nat) (hL : 1 ≤ p.length) :
    ∃ cp : List Vec3, construct p r = ⟨cp.length, cp.map some⟩ ∧ ∀ v ∈ cp, v ∈ p := by
  obtain ⟨hlen, -⟩ := construct_entries p r hL
  have hsome : ∀ j, (hj : j < (construct p r).controlPoints.length) →
      ∃ v, v ∈ p ∧ (construct p r).controlPoints[j] = some v := by
    intro j hj
    obtain ⟨v, hv, hr⟩ := construct_entry_stored p r hL j (by rw [← hlen]; exact hj)
    rw [readAt_eq_getElem _ j hj] at hr
    exact ⟨v, hv, hr⟩
  refine ⟨(construct p r).controlPoints.map (fun o => o.getD ⟨0, 0, 0⟩), ?_, ?_⟩
  · have hmap : ((construct p r).controlPoints.map (fun o => o.getD ⟨0, 0, 0⟩)).map some =
        (construct p r).controlPoints := by
      apply List.ext_getElem (by simp)
      intro j h1 h2
      obtain ⟨v, -, hv⟩ := hsome j h2
      simp [hv]
    have hn : (construct p r).nControlPoints =
        ((construct p r).controlPoints.map (fun o => o.getD ⟨0, 0, 0⟩)).length := by
      rw [List.length_map, hlen]
      rfl
    cases hc : construct p r with
    | mk n l =>
      rw [hc] at hmap hn
      simp only at hmap hn
      rw [hmap, ← hn]
  · intro v hv
    obtain ⟨o, ho, rfl⟩ := List.mem_map.mp hv
    obtain ⟨j, hj, rfl⟩ := List.mem_iff_getElem.mp ho
    obtain ⟨w, hw, hv2⟩ := hsome j hj
    rw [hv2]
    exact hw

/-- C14: for an expanded array `cp` of `n` values the sampled curve has
`max(0, n - 3)` segments (none when `n < 4`), in window order; segment `i` has 40
points and its point `j` is `BsplinePoint` of `cp[i..i+3]` at `j/39`.  Every array
that `construct` builds from a non-empty point list is such an array, and the
scenario points with `r = 0` give `n = 3` and no segment. -/
theorem sampling_shape (cp : List Vec3) :
    ((drawBSpline ⟨cp.length, cp.map some⟩).length : ℤ) = max 0 ((cp.length : ℤ) - 3) ∧
    (cp.length < 4 → drawBSpline ⟨cp.length, cp.map some⟩ = []) ∧
    (∀ i, (hi : i + 3 < cp.length) →
      ∃ seg, (drawBSpline ⟨cp.length, cp.map some⟩)[i]? = some (some seg) ∧
        seg.length = 40 ∧
        ∀ j : Nat, j < 40 →
          seg[j]? = some (BsplinePoint ![cp[i], cp[i + 1], cp[i + 2], cp[i + 3]]
            ((j : ℚ) / 39))) ∧
    (∀ (p : List Vec3) (r : Nat), 1 ≤ p.length →
      ∃ vals : List Vec3, construct p r = ⟨vals.length, vals.map some⟩) ∧
    ((construct scenarioPoints 0).nControlPoints = 3 ∧
      drawBSpline (construct scenarioPoints 0) = []) := by
  refine ⟨?_, fun h => ?_, fun i hi => ?_, fun p r hL => ?_, rfl, by decide!⟩
  · simp only [drawBSpline, List.length_map, List.length_range]
    omega
  · have h0 : cp.length - 3 = 0 := by omega
    simp only [drawBSpline, h0, List.range_zero, List.map_nil]
  · exact ⟨_, drawBSpline_segment cp i hi, sampleSegment_length _,
      fun j hj => sampleSegment_getElem? _ j hj⟩
  · obtain ⟨vals, hv, -⟩ := construct_all_set p r hL
    exact ⟨vals, hv⟩

/-- C14 on the expanded array of the scenario points with `r = 2`. -/
theorem sampling_shape_witness :
    ((drawBSpline ⟨scenarioExpanded.length, scenarioExpanded.map some⟩).length : ℤ) =
      max 0 ((scenarioExpanded.length : ℤ) - 3) ∧
    construct scenarioPoints 2 = ⟨scenarioExpanded.length, scenarioExpanded.map some⟩ ∧
    (drawBSpline (construct scenarioPoints 2)).length = 4 :=
  ⟨(sampling_shape scenarioExpanded).1, by decide!, by decide!⟩

/-! ## Adjacent segments meet -/

theorem BsplinePoint_join (b0 b1 b2 b3 b4 : Vec3) :
    BsplinePoint ![b0, b1, b2, b3] 1 = BsplinePoint ![b1, b2, b3, b4] 0 := by
  simp only [BsplinePoint, Vec3.add, Vec3.scale, Vec3.divide, Vec3.mk.injEq,
    Matrix.cons_val_zero, Matrix.cons_val_one, Matrix.head_cons, Matrix.cons_val_two,
    Matrix.tail_cons, Matrix.cons_val_three]
  refine ⟨?_, ?_, ?_⟩ <;> ring

/-- C19: in an expanded array `cp` of `n >= 5` values, for `i < n - 4` the last
sample of segment `i` (`BsplinePoint` of `cp[i..i+3]` at `t = 1`, sample 39) is the
first sample of segment `i + 1` (`BsplinePoint` of `cp[i+1..i+4]` at `t = 0`). -/
theorem segments_join (cp : List Vec3) (i : Nat) (hi : i + 4 < cp.length) :
    BsplinePoint ![cp[i], cp[i + 1], cp[i + 2], cp[i + 3]] 1 =
      BsplinePoint ![cp[i + 1], cp[i + 2], cp[i + 3], cp[i + 4]] 0 ∧
    ∃ (s1 s2 : List Vec3) (v : Vec3),
      (drawBSpline ⟨cp.length, cp.map some⟩)[i]? = some (some s1) ∧
      (drawBSpline ⟨cp.length, cp.map some⟩)[i + 1]? = some (some s2) ∧
      s1[39]? = some v ∧ s2[0]? = some v := by
  refine ⟨BsplinePoint_join _ _ _ _ _, _, _, _, drawBSpline_segment cp i (by omega),
    drawBSpline_segment cp (i + 1) (by omega), sampleSegment_last _, ?_⟩
  rw [sampleSegment_first]
  exact congrArg some (BsplinePoint_join cp[i] cp[i + 1] cp[i + 2] cp[i + 3] cp[i + 4]).symm

/-- C19 on the expanded array of the scenario points with `r = 2`, segments 0 and 1. -/
theorem segments_join_witness :
    0 + 4 < scenarioExpanded.length ∧
    BsplinePoint ![scenarioExpanded[0], scenarioExpanded[0 + 1], scenarioExpanded[0 + 2],
        scenarioExpanded[0 + 3]] 1 =
      BsplinePoint ![scenarioExpanded[0 + 1], scenarioExpanded[0 + 2], scenarioExpanded[0 + 3],
        scenarioExpanded[0 + 4]] 0 ∧
    ∃ (s1 s2 : List Vec3) (v : Vec3),
      (drawBSpline ⟨scenarioExpanded.length, scenarioExpanded.map some⟩)[0]? =
        some (some s1) ∧
      (drawBSpline ⟨scenarioExpanded.length, scenarioExpanded.map some⟩)[0 + 1]? =
        some (some s2) ∧
      s1[39]? = some v ∧ s2[0]? = some v :=
  ⟨by decide, segments_join scenarioExpanded 0 (by decide)⟩

/-! ## Unset control points -/

/-- C18 on the code: built from the empty point list with `r = 2`, the array has
four entries and none of them was assigned from a stored point (each is a copy
of an entry never written), and `drawBSpline` samples one segment from them.
The state is reached by adding one point and removing it again in a program
started with repetition 2.  For a non-empty point list every entry is a stored
point. -/
theorem construct_empty_unset :
    (construct [] 2).nControlPoints = 4 ∧
    (construct [] 2).controlPoints = [none, none, none, none] ∧
    drawBSpline (construct [] 2) = [none] ∧
    (run ⟨0, 0⟩ (initial 2) addRemoveEvents).map (fun s => (s.p, s.expanded)) =
      some ([], construct [] 2) ∧
    (∀ (p : List Vec3) (r : Nat), 1 ≤ p.length → ∀ j, j < p.length + 2 * r →
      ∃ v, v ∈ p ∧ (construct p r).controlPoints[j]? = some (some v)) := by
  refine ⟨rfl, by decide!, by decide!, by decide!, fun p r hL j hj => ?_⟩
  obtain ⟨v, hv, hr⟩ := construct_entry_stored p r hL j hj
  exact ⟨v, hv, getElem?_of_readAt _ j v hr⟩

end BSpline

/-! ## The drag index -/

/-- C17 on the code: after a point is added, grabbed in drag mode, and removed in
remove mode (the mode was switched while the button was held, so the release did
not end the drag), `isDragging` is still true and `dragPoint = 0` while the point
list is empty; the next drag update of the main loop writes `p[0]` outside the
vector.  Both programs behave the same. -/
theorem stale_drag_index :
    (BSpline.run ⟨0, 0⟩ (BSpline.initial 0) staleDragEvents).map
        (fun s => (s.isDragging, s.dragPoint, s.p.length)) = some (true, 0, 0) ∧
    BSpline.run ⟨0, 0⟩ (BSpline.initial 0) (staleDragEvents ++ [Event.frame 1 1]) = none ∧
    (NaturalSpline.run (fun _ _ => NaturalSpline.Mat.setZero) ⟨0, 0⟩ NaturalSpline.initial
        staleDragEvents).map (fun s => (s.isDragging, s.dragPoint, s.p.length)) =
      some (true, 0, 0) ∧
    (NaturalSpline.run (fun _ _ => NaturalSpline.Mat.setZero) ⟨0, 0⟩ NaturalSpline.initial
        (staleDragEvents ++ [Event.frame 1 1])).isNone = true := by
  refine ⟨by decide!, by decide!, by decide!, by decide!⟩

end CurveEditing

namespace CurveEditing

namespace NaturalSpline

/-! ## What a refresh changes -/

theorem arrange_last_row_short (A : Mat) (p : List Vec3) (j : Nat) (h : p.length < 2) :
    (arrangeMatrix A p).1 (4 * N - 1) j = 0 := by
  unfold arrangeMatrix boundaryWrites
  simp only [if_neg (not_le.mpr h), writes_nil, Mat.zeroRow, if_true]

theorem arrange_last_row_cases (A : Mat) (p : List Vec3) (j : Nat) (h : 2 ≤ p.length) :
    (arrangeMatrix A p).1 (4 * N - 1) j =
      if j = 4 * (p.length - 2) + 2 then 2
      else if j = 4 * (p.length - 2) + 3 then 6
      else 0 := by
  unfold arrangeMatrix boundaryWrites
  simp only [if_pos h, writes_cons, writes_nil, Mat.write, Mat.zeroRow, true_and]
  split_ifs <;> first | rfl | (exfalso; omega)

/-- C15: for a matrix `A` left by `buildLinearSystem` and any number of
refreshes, `arrangeMatrix` leaves every row other than row `4N-1 = 43` as it was,
in particular the start-condition row (row 42, with 2 in column 2); row 43
becomes all zero when there are fewer than 2 points, and otherwise the row whose
only non-zero entries are 2 in column `4(k-2)+2` and 6 in column `4(k-2)+3`, both
columns inside the matrix when `k <= 12`. -/
theorem refresh_touches_last_row (history : List (List Vec3)) (p : List Vec3) :
    (4 * N - 1 = 43) ∧
    (∀ r j, r ≠ 43 →
      (arrangeMatrix (refreshedAfter history) p).1 r j = refreshedAfter history r j) ∧
    (∀ j, (arrangeMatrix (refreshedAfter history) p).1 42 j = if j = 2 then 2 else 0) ∧
    (p.length < 2 → ∀ j, (arrangeMatrix (refreshedAfter history) p).1 43 j = 0) ∧
    (2 ≤ p.length → ∀ j, (arrangeMatrix (refreshedAfter history) p).1 43 j =
      if j = 4 * (p.length - 2) + 2 then 2
      else if j = 4 * (p.length - 2) + 3 then 6
      else 0) ∧
    (2 ≤ p.length → p.length ≤ 12 → 4 * (p.length - 2) + 3 < 4 * N) := by
  have h43 : 4 * N - 1 = 43 := rfl
  refine ⟨h43, fun r j hr => ?_, fun j => ?_, fun h j => ?_, fun h j => ?_, fun h2 h12 => ?_⟩
  · exact arrange_other_rows _ p r j (by rw [h43]; exact hr)
  · rw [arrange_other_rows _ p 42 j (by rw [h43]; omega),
      refreshedAfter_other_rows history 42 j (by rw [h43]; omega), build_entries]
    unfold builtEntry
    rw [if_neg (by omega), if_neg (by omega), if_neg (by omega)]
    split_ifs <;> first | rfl | (exfalso; omega)
  · rw [← h43]
    exact arrange_last_row_short _ p j h
  · rw [← h43]
    exact arrange_last_row_cases _ p j h
  · unfold N
    omega

/-- C15 after two earlier refreshes, for the three scenario points. -/
theorem refresh_touches_last_row_witness :
    (∀ j, (arrangeMatrix (refreshedAfter [twoPoints, threePoints])
        BSpline.scenarioPoints).1 42 j = if j = 2 then 2 else 0) ∧
    (arrangeMatrix (refreshedAfter [twoPoints, threePoints]) BSpline.scenarioPoints).1 43 6
      = 2 ∧
    (arrangeMatrix (refreshedAfter [twoPoints, threePoints]) BSpline.scenarioPoints).1 43 7
      = 6 ∧
    (arrangeMatrix (refreshedAfter [twoPoints, threePoints]) BSpline.scenarioPoints).1 43 2
      = 0 :=
  ⟨(refresh_touches_last_row [twoPoints, threePoints] BSpline.scenarioPoints).2.2.1,
    by decide!, by decide!, by decide!⟩

/-! ## Index bounds of the refresh and of the drawing -/

theorem rhsWrites_bounds (p : List Vec3) :
    ∀ w ∈ rhsWrites p, w.row < 2 * (p.length - 1) ∧ w.col < 3 := by
  have key := foldl_range_invariant (rhsStep p)
    (fun i (acc : List Write × Nat) => acc.2 = 2 * i ∧
      ∀ w ∈ acc.1, w.row < 2 * i ∧ w.col < 3)
    ([], 0) (p.length - 1) ?_ ?_
  · exact key.2
  · exact ⟨rfl, fun w hw => absurd hw (List.not_mem_nil w)⟩
  · rintro i ⟨ws, row⟩ hi ⟨hrow, hb⟩
    simp only at hrow
    subst hrow
    refine ⟨by simp only [rhsStep]; omega, fun w hw => ?_⟩
    simp only [rhsStep, List.mem_append, List.mem_cons, List.mem_singleton,
      List.not_mem_nil, or_false] at hw
    rcases hw with hw | hw | hw | hw | hw | hw | hw
    · have := hb w hw
      omega
    all_goals
      subst hw
      simp only
      omega

theorem segmentReads_bounds (i : Nat) :
    ∀ rc ∈ segmentReads i, rc.1 ≤ 4 * i + 3 ∧ rc.2 < 3 := by
  intro rc hrc
  simp only [segmentReads, List.mem_cons, List.mem_singleton, List.not_mem_nil,
    or_false] at hrc
  rcases hrc with h | h | h | h | h | h | h | h | h | h | h | h <;>
    (subst h; simp only; omega)

theorem cubicPoint_congr (c c2 : Mat) (i : Nat) (t : ℚ)
    (h : ∀ rc ∈ segmentReads i, c rc.1 rc.2 = c2 rc.1 rc.2) :
    cubicPoint c i t = cubicPoint c2 i t := by
  have e : ∀ a b : Nat, (a, b) ∈ segmentReads i → c a b = c2 a b := fun a b hab => h (a, b) hab
  unfold cubicPoint
  rw [e (4 * i + 0) 0 (by simp [segmentReads]), e (4 * i + 1) 0 (by simp [segmentReads]),
    e (4 * i + 2) 0 (by simp [segmentReads]), e (4 * i + 3) 0 (by simp [segmentReads]),
    e (4 * i + 0) 1 (by simp [segmentReads]), e (4 * i + 1) 1 (by simp [segmentReads]),
    e (4 * i + 2) 1 (by simp [segmentReads]), e (4 * i + 3) 1 (by simp [segmentReads]),
    e (4 * i + 0) 2 (by simp [segmentReads]), e (4 * i + 1) 2 (by simp [segmentReads]),
    e (4 * i + 2) 2 (by simp [segmentReads]), e (4 * i + 3) 2 (by simp [segmentReads])]

/-- The drawn curve depends on `c` only through the entries listed by `drawReads`. -/
theorem draw_congr (p : List Vec3) (c c2 : Mat)
    (h : ∀ rc ∈ drawReads p, c rc.1 rc.2 = c2 rc.1 rc.2) :
    drawNaturalCubicSpline p c = drawNaturalCubicSpline p c2 := by
  unfold drawNaturalCubicSpline
  apply List.map_congr_left
  intro i hi
  apply List.map_congr_left
  intro j _
  apply cubicPoint_congr
  intro rc hrc
  apply h
  unfold drawReads
  exact List.mem_flatMap.mpr ⟨i, hi, hrc⟩

/-- C16: for at most 12 points, every assignment of `arrangeMatrix` to `b` has
its row in `0..43` and its column in `0..2`, the row that is zeroed and the two
boundary assignments to `A` have row and column in `0..43`, and every entry of
`c` that `drawNaturalCubicSpline` reads has its row in `0..43` and its column in
`0..2`; with fewer than 2 points there is no boundary assignment and `b` is
entirely zero. -/
theorem refresh_in_bounds (p : List Vec3) (h12 : p.length ≤ 12) :
    (∀ w ∈ rhsWrites p, w.row < 4 * N ∧ w.col < 3) ∧
    (4 * N - 1 < 4 * N) ∧
    (∀ w ∈ boundaryWrites p, w.row < 4 * N ∧ w.col < 4 * N) ∧
    (∀ rc ∈ drawReads p, rc.1 < 4 * N ∧ rc.2 < 3) ∧
    (∀ c c2 : Mat, (∀ rc ∈ drawReads p, c rc.1 rc.2 = c2 rc.1 rc.2) →
      drawNaturalCubicSpline p c = drawNaturalCubicSpline p c2) ∧
    (p.length < 2 → boundaryWrites p = [] ∧ rhsWrites p = [] ∧
      ∀ (A : Mat) (r k : Nat), (arrangeMatrix A p).2 r k = 0) := by
  have hN : 4 * N = 44 := rfl
  refine ⟨fun w hw => ?_, by rw [hN]; omega, fun w hw => ?_, fun rc hrc => ?_,
    fun c c2 h => draw_congr p c c2 h, fun h => ⟨?_, ?_, fun A r k => ?_⟩⟩
  · have := rhsWrites_bounds p w hw
    rw [hN]
    omega
  · unfold boundaryWrites at hw
    by_cases h2 : 2 ≤ p.length
    · rw [if_pos h2] at hw
      simp only [List.mem_cons, List.mem_singleton, List.not_mem_nil, or_false] at hw
      rw [hN] at hw ⊢
      rcases hw with hw | hw <;> (subst hw; simp only; omega)
    · rw [if_neg h2] at hw
      exact absurd hw (List.not_mem_nil w)
  · unfold drawReads at hrc
    obtain ⟨i, hi, hrc⟩ := List.mem_flatMap.mp hrc
    have hi2 := List.mem_range.mp hi
    have := segmentReads_bounds i rc hrc
    rw [hN]
    omega
  · unfold boundaryWrites
    rw [if_neg (by omega)]
  · have h0 : p.length - 1 = 0 := by omega
    unfold rhsWrites
    rw [h0]
    rfl
  · rw [arrange_rhs, if_neg (by omega)]

/-- C16 at three points. -/
theorem refresh_in_bounds_witness :
    threePoints.length ≤ 12 ∧
    rhsWrites threePoints =
      [⟨0, 0, 0⟩, ⟨0, 1, 0⟩, ⟨0, 2, 0⟩, ⟨1, 0, 1⟩, ⟨1, 1, 0⟩, ⟨1, 2, 0⟩,
       ⟨2, 0, 1⟩, ⟨2, 1, 0⟩, ⟨2, 2, 0⟩, ⟨3, 0, 2⟩, ⟨3, 1, 0⟩, ⟨3, 2, 0⟩] ∧
    boundaryWrites threePoints = [⟨43, 6, 2⟩, ⟨43, 7, 6⟩] ∧
    (∀ w ∈ rhsWrites threePoints, w.row < 4 * N ∧ w.col < 3) :=
  ⟨by decide, by decide!, by decide!, (refresh_in_bounds threePoints (by decide)).1⟩

/-! ## Position of the start-condition row -/

/-- C20, as stated, fails: after `buildLinearSystem` row 43 does not hold the
start condition; its entry in column 2 is 0. -/
theorem start_row_is_not_last :
    ¬ (∀ j, j < 4 * N → buildLinearSystem.1 (4 * N - 1) j = if j = 2 then 2 else 0) := by
  intro h
  have h2 := h 2 (by decide)
  have h43 : 4 * N - 1 = 43 := rfl
  rw [h43, build_last 2 (by omega)] at h2
  norm_num at h2

/-- C20, amended: after `buildLinearSystem` the start condition `2*c2^0 = 0`
(single non-zero entry 2, in column 2) is row `4N-2 = 42`, the last assignment of
`buildLinearSystem`; row `4N-1 = 43` is all zero.  The refresh overwrites row 43
and leaves row 42 as it is. -/
theorem start_row_position :
    (4 * N - 2 = 42 ∧ 4 * N - 1 = 43) ∧
    buildWrites.getLast? = some ⟨42, 2, 2⟩ ∧
    (∀ j, buildLinearSystem.1 42 j = if j = 2 then 2 else 0) ∧
    (∀ j, buildLinearSystem.1 43 j = 0) ∧
    (∀ (A : Mat) (p : List Vec3) (j : Nat), (arrangeMatrix A p).1 42 j = A 42 j) ∧
    (∀ (A : Mat) (p : List Vec3), 2 ≤ p.length →
      (arrangeMatrix A p).1 43 (4 * (p.length - 2) + 2) = 2 ∧
      (arrangeMatrix A p).1 43 (4 * (p.length - 2) + 3) = 6) := by
  have h43 : 4 * N - 1 = 43 := rfl
  refine ⟨⟨rfl, rfl⟩, by decide!, fun j => ?_, fun j => ?_, fun A p j => ?_, fun A p h => ?_⟩
  · rw [build_entries]
    unfold builtEntry
    rw [if_neg (by omega), if_neg (by omega), if_neg (by omega)]
    split_ifs <;> first | rfl | (exfalso; omega)
  · rw [build_entries]
    unfold builtEntry
    rw [if_neg (by omega), if_neg (by omega), if_neg (by omega), if_neg (by omega)]
  · exact arrange_other_rows A p 42 j (by rw [h43]; omega)
  · rw [← h43, arrange_last_row_cases A p _ h, arrange_last_row_cases A p _ h]
    constructor
    · rw [if_pos rfl]
    · rw [if_neg (by omega), if_pos rfl]

end NaturalSpline

end CurveEditing

namespace CurveEditing

/-! ## The rounding of the floating-point arithmetic -/

/-- The function `twoPow` is the integer power of 2. -/
theorem twoPow_eq_zpow (e : ℤ) : twoPow e = (2 : ℚ) ^ e := by
  unfold twoPow
  split_ifs with h
  · obtain ⟨n, rfl⟩ := Int.eq_ofNat_of_zero_le h
    simp [zpow_natCast]
  · push_neg at h
    obtain ⟨n, hn⟩ := Int.exists_eq_neg_ofNat (le_of_lt h)
    subst hn
    simp [zpow_neg, zpow_natCast, one_div]

/-- Powers of 2 grow with the exponent. -/
theorem zpow_two_lt (a b : ℤ) (h : a < b) : (2 : ℚ) ^ a < (2 : ℚ) ^ b :=
  zpow_lt_zpow_right₀ (by norm_num) h

/-- The binary search keeps `q` between two powers of 2 and ends with adjacent
exponents. -/
theorem binaryExponentAux_spec (q : ℚ) (k : Nat) : ∀ r : Nat,
    (2 : ℚ) ^ ((r : ℤ) - 2048) ≤ q → q < (2 : ℚ) ^ (((r + 2 ^ k : Nat) : ℤ) - 2048) →
    (2 : ℚ) ^ ((binaryExponentAux q k r : ℤ) - 2048) ≤ q ∧
      q < (2 : ℚ) ^ ((binaryExponentAux q k r : ℤ) - 2048 + 1) := by
  induction k with
  | zero =>
    intro r hlo hhi
    refine ⟨hlo, ?_⟩
    have : (((r + 2 ^ 0 : Nat) : ℤ) - 2048) = (r : ℤ) - 2048 + 1 := by push_cast; ring
    rw [this] at hhi
    exact hhi
  | succ k ih =>
    intro r hlo hhi
    unfold binaryExponentAux
    rw [twoPow_eq_zpow]
    split_ifs with hmid
    · apply ih (r + 2 ^ k) hmid
      have : r + 2 ^ k + 2 ^ k = r + 2 ^ (k + 1) := by rw [pow_succ]; ring
      rw [this]
      exact hhi
    · exact ih r hlo (not_le.mp hmid)

/-- For `2^-2048 ≤ |q| < 2^2048` the exponent `e` found has `2^e ≤ |q| < 2^(e+1)`. -/
theorem binaryExponent_spec (q : ℚ) (hlo : (2 : ℚ) ^ (-2048 : ℤ) ≤ |q|)
    (hhi : |q| < (2 : ℚ) ^ (2048 : ℤ)) :
    (2 : ℚ) ^ binaryExponent q ≤ |q| ∧ |q| < (2 : ℚ) ^ (binaryExponent q + 1) := by
  unfold binaryExponent
  apply binaryExponentAux_spec |q| 12 0
  · simpa using hlo
  · have : (((0 + 2 ^ 12 : Nat) : ℤ) - 2048) = 2048 := by norm_num
    rw [this]
    exact hhi

/-- The rounded integer is `n` or `n + 1` and at most one half from `n + r`. -/
theorem nearestEven_spec (n : ℤ) (r : ℚ) (h0 : 0 ≤ r) (h1 : r < 1) :
    (nearestEven n r = n ∨ nearestEven n r = n + 1) ∧
      |(nearestEven n r : ℚ) - ((n : ℚ) + r)| ≤ 1 / 2 := by
  unfold nearestEven
  split_ifs with ha hb hc
  · refine ⟨Or.inl rfl, ?_⟩
    rw [abs_le]
    constructor <;> linarith
  · refine ⟨Or.inr rfl, ?_⟩
    push_cast
    rw [abs_le]
    constructor <;> linarith
  · refine ⟨Or.inl rfl, ?_⟩
    rw [abs_le]
    constructor <;> linarith [not_lt.mp ha, not_lt.mp hb]
  · refine ⟨Or.inr rfl, ?_⟩
    push_cast
    rw [abs_le]
    constructor <;> linarith [not_lt.mp ha, not_lt.mp hb]

/-- The rounding `roundFloat P` returns a number `n * ulp` with `ulp` the grid
spacing at `q` and `2^(P-1) ≤ |n| ≤ 2^P`, at most half a grid step from `q`. -/
theorem roundFloat_spec (P : Nat) (hP : 1 ≤ P) (q : ℚ) (hlo : (2 : ℚ) ^ (-2048 : ℤ) ≤ |q|)
    (hhi : |q| < (2 : ℚ) ^ (2048 : ℤ)) :
    ∃ n : ℤ, roundFloat P q = (n : ℚ) * (2 : ℚ) ^ (binaryExponent q - ((P : ℤ) - 1)) ∧
      (2 : ℚ) ^ (P - 1) ≤ |(n : ℚ)| ∧ |(n : ℚ)| ≤ (2 : ℚ) ^ P ∧
      |roundFloat P q - q| ≤ (2 : ℚ) ^ (binaryExponent q - ((P : ℤ) - 1)) / 2 := by
  obtain ⟨he1, he2⟩ := binaryExponent_spec q hlo hhi
  have hq0 : q ≠ 0 := by
    intro h
    rw [h, abs_zero] at hlo
    exact absurd hlo (not_le.mpr (zpow_pos (by norm_num) _))
  set e := binaryExponent q with he
  set ulp : ℚ := (2 : ℚ) ^ (e - ((P : ℤ) - 1)) with hulp
  have hu : 0 < ulp := zpow_pos (by norm_num) _
  set m : ℚ := |q| / ulp with hm
  have hm1 : (2 : ℚ) ^ (P - 1) ≤ m := by
    rw [hm, le_div_iff₀ hu, hulp, ← zpow_natCast, ← zpow_add₀ (by norm_num)]
    have : ((P - 1 : Nat) : ℤ) + (e - ((P : ℤ) - 1)) = e := by
      rw [Nat.cast_sub hP]
      push_cast
      ring
    rw [this]
    exact he1
  have hm2 : m < (2 : ℚ) ^ P := by
    rw [hm, div_lt_iff₀ hu, hulp, ← zpow_natCast, ← zpow_add₀ (by norm_num)]
    have : (P : ℤ) + (e - ((P : ℤ) - 1)) = e + 1 := by ring
    rw [this]
    exact he2
  obtain ⟨hN, hNm⟩ := nearestEven_spec ⌊m⌋ (m - ⌊m⌋) (Int.fract_nonneg m) (Int.fract_lt_one m)
  set N := nearestEven ⌊m⌋ (m - ⌊m⌋) with hNdef
  have hfl1 : ((2 ^ (P - 1) : Nat) : ℤ) ≤ ⌊m⌋ := by
    rw [Int.le_floor]
    push_cast
    exact hm1
  have hfl2 : ⌊m⌋ < ((2 ^ P : Nat) : ℤ) := by
    rw [Int.floor_lt]
    push_cast
    exact hm2
  have hN1 : ((2 ^ (P - 1) : Nat) : ℤ) ≤ N := by
    rcases hN with h | h <;> rw [h] <;> omega
  have hN2 : N ≤ ((2 ^ P : Nat) : ℤ) := by
    rcases hN with h | h <;> rw [h] <;> omega
  have hN0 : (0 : ℚ) ≤ (N : ℚ) := by
    have : (0 : ℤ) ≤ N := le_trans (Int.natCast_nonneg _) hN1
    exact_mod_cast this
  have hN1q : (2 : ℚ) ^ (P - 1) ≤ (N : ℚ) := by exact_mod_cast hN1
  have hN2q : (N : ℚ) ≤ (2 : ℚ) ^ P := by exact_mod_cast hN2
  have hdist : abs ((N : ℚ) * ulp - abs q) ≤ ulp / 2 := by
    have hq : |q| = m * ulp := by
      rw [hm, div_mul_cancel₀ _ (ne_of_gt hu)]
    have h2 : (⌊m⌋ : ℚ) + (m - ⌊m⌋) = m := by ring
    rw [h2] at hNm
    rw [hq, ← sub_mul, abs_mul, abs_of_pos hu]
    calc |(N : ℚ) - m| * ulp ≤ 1 / 2 * ulp := mul_le_mul_of_nonneg_right hNm (le_of_lt hu)
      _ = ulp / 2 := by ring
  have hval : roundFloat P q = if q < 0 then -((N : ℚ) * ulp) else (N : ℚ) * ulp := by
    unfold roundFloat
    rw [if_neg hq0]
    simp only [twoPow_eq_zpow]
  by_cases hneg : q < 0
  · refine ⟨-N, ?_, ?_, ?_, ?_⟩
    · rw [hval, if_pos hneg]
      push_cast
      ring
    · push_cast
      rw [abs_neg, abs_of_nonneg hN0]
      exact hN1q
    · push_cast
      rw [abs_neg, abs_of_nonneg hN0]
      exact hN2q
    · rw [hval, if_pos hneg]
      rw [abs_of_neg hneg] at hdist
      have : -((N : ℚ) * ulp) - q = -((N : ℚ) * ulp - -q) := by ring
      rw [this, abs_neg]
      exact hdist
  · refine ⟨N, ?_, ?_, ?_, ?_⟩
    · rw [hval, if_neg hneg]
    · rw [abs_of_nonneg hN0]
      exact hN1q
    · rw [abs_of_nonneg hN0]
      exact hN2q
    · rw [hval, if_neg hneg]
      rw [abs_of_nonneg (not_lt.mp hneg)] at hdist
      exact hdist

/-- The binary search keeps `n` between two squares and ends with adjacent roots. -/
theorem isqrtAux_spec (n : Nat) (k : Nat) : ∀ r : Nat,
    r * r ≤ n → n < (r + 2 ^ k) * (r + 2 ^ k) →
    isqrtAux n k r * isqrtAux n k r ≤ n ∧
      n < (isqrtAux n k r + 1) * (isqrtAux n k r + 1) := by
  induction k with
  | zero =>
    intro r hlo hhi
    exact ⟨hlo, by simpa using hhi⟩
  | succ k ih =>
    intro r hlo hhi
    unfold isqrtAux
    split_ifs with hmid
    · apply ih (r + 2 ^ k) hmid
      have : r + 2 ^ k + 2 ^ k = r + 2 ^ (k + 1) := by rw [pow_succ]; ring
      rw [this]
      exact hhi
    · exact ih r hlo (not_le.mp hmid)

/-- The integer `nearestRoot P t` is a natural number `k` with `2^(P-1) ≤ k ≤ 2^P`
at most one half from the root of `t`: `t` lies between the squares of `k - 1/2`
and `k + 1/2`. -/
theorem nearestRoot_spec (P : Nat) (t : ℚ)
    (ht1 : ((2 ^ (P - 1) : Nat) : ℚ) * ((2 ^ (P - 1) : Nat) : ℚ) ≤ t)
    (ht2 : t < ((2 ^ P : Nat) : ℚ) * ((2 ^ P : Nat) : ℚ)) :
    ∃ k : Nat, (nearestRoot P t : ℚ) = (k : ℚ) ∧ 2 ^ (P - 1) ≤ k ∧ k ≤ 2 ^ P ∧
      ((k : ℚ) - 1 / 2) ^ 2 ≤ t ∧ t ≤ ((k : ℚ) + 1 / 2) ^ 2 := by
  have ht0 : 0 ≤ t := le_trans (mul_self_nonneg _) ht1
  have hfl0 : 0 ≤ ⌊t⌋ := Int.floor_nonneg.mpr ht0
  have hflt : ((⌊t⌋.toNat : Nat) : ℤ) = ⌊t⌋ := Int.toNat_of_nonneg hfl0
  have hflq : ((⌊t⌋.toNat : Nat) : ℚ) = ((⌊t⌋ : ℤ) : ℚ) := by
    rw [← hflt]
    push_cast
    rw [hflt]
  have hfl_hi : ⌊t⌋.toNat < (0 + 2 ^ P) * (0 + 2 ^ P) := by
    have h1 : ((⌊t⌋.toNat : Nat) : ℚ) < (((0 + 2 ^ P) * (0 + 2 ^ P) : Nat) : ℚ) := by
      rw [hflq]
      push_cast
      rw [zero_add]
      exact lt_of_le_of_lt (Int.floor_le t) (by exact_mod_cast ht2)
    exact_mod_cast h1
  obtain ⟨hs1, hs2⟩ := isqrtAux_spec ⌊t⌋.toNat P 0 (Nat.zero_le _) hfl_hi
  unfold nearestRoot
  generalize isqrtAux ⌊t⌋.toNat P 0 = n at hs1 hs2
  have hn1 : (n : ℚ) * (n : ℚ) ≤ t := by
    have : ((n * n : Nat) : ℚ) ≤ ((⌊t⌋.toNat : Nat) : ℚ) := by exact_mod_cast hs1
    rw [hflq] at this
    push_cast at this
    exact le_trans this (Int.floor_le t)
  have hn2 : t < ((n : ℚ) + 1) * ((n : ℚ) + 1) := by
    have h1 : ⌊t⌋.toNat + 1 ≤ (n + 1) * (n + 1) := hs2
    have h2 : (((⌊t⌋.toNat + 1 : Nat)) : ℚ) ≤ (((n + 1) * (n + 1) : Nat) : ℚ) := by
      exact_mod_cast h1
    push_cast at h2
    rw [hflq] at h2
    exact lt_of_lt_of_le (Int.lt_floor_add_one t) h2
  have hnlo : 2 ^ (P - 1) ≤ n := by
    have h1 : ((2 ^ (P - 1) : Nat) : ℚ) * ((2 ^ (P - 1) : Nat) : ℚ) <
        ((n + 1 : Nat) : ℚ) * ((n + 1 : Nat) : ℚ) := by
      push_cast
      exact lt_of_le_of_lt (by exact_mod_cast ht1) hn2
    have h2 : 2 ^ (P - 1) * 2 ^ (P - 1) < (n + 1) * (n + 1) := by exact_mod_cast h1
    have h3 := Nat.mul_self_lt_mul_self_iff.mp h2
    omega
  have hnhi : n < 2 ^ P := by
    have h1 : ((n : Nat) : ℚ) * ((n : Nat) : ℚ) < ((2 ^ P : Nat) : ℚ) * ((2 ^ P : Nat) : ℚ) :=
      lt_of_le_of_lt hn1 ht2
    have h2 : n * n < 2 ^ P * 2 ^ P := by exact_mod_cast h1
    exact Nat.mul_self_lt_mul_self_iff.mp h2
  have hn_pos : (1 : ℚ) ≤ (n : ℚ) := by
    have : 1 ≤ n := le_trans (Nat.one_le_two_pow) hnlo
    exact_mod_cast this
  have eA : ((n : ℚ) - 1 / 2) ^ 2 = (n : ℚ) * (n : ℚ) - (n : ℚ) + 1 / 4 := by ring
  have eB : ((n : ℚ) + 1 / 2) ^ 2 = ((n : ℚ) + 1 / 2) * ((n : ℚ) + 1 / 2) := by ring
  have eC : (((n + 1 : Nat) : ℚ) - 1 / 2) ^ 2 = ((n : ℚ) + 1 / 2) * ((n : ℚ) + 1 / 2) := by
    push_cast
    ring
  have eD : (((n + 1 : Nat) : ℚ) + 1 / 2) ^ 2 =
      ((n : ℚ) + 1) * ((n : ℚ) + 1) + ((n : ℚ) + 1) + 1 / 4 := by
    push_cast
    ring
  have lowA : ((n : ℚ) - 1 / 2) ^ 2 ≤ t := by
    rw [eA]
    linarith
  have uppB : t ≤ (((n + 1 : Nat) : ℚ) + 1 / 2) ^ 2 := by
    rw [eD]
    linarith
  have castB : (((n : ℤ) + 1 : ℤ) : ℚ) = ((n + 1 : Nat) : ℚ) := by
    push_cast
    ring
  simp only [Int.cast_natCast]
  split_ifs with ha hb hc
  · exact ⟨n, Int.cast_natCast n, hnlo, le_of_lt hnhi, lowA, by rw [eB]; exact le_of_lt ha⟩
  · exact ⟨n + 1, castB, by omega, by omega, by rw [eC]; exact le_of_lt hb, uppB⟩
  · exact ⟨n, Int.cast_natCast n, hnlo, le_of_lt hnhi, lowA, by rw [eB]; exact not_lt.mp hb⟩
  · exact ⟨n + 1, castB, by omega, by omega, by rw [eC]; exact not_lt.mp ha, uppB⟩

/-- The square root `sqrtFloat P` returns a number `n * ulp` with `ulp` the grid
spacing at the root and `2^(P-1) ≤ n ≤ 2^P`, at most half a grid step from the
root of `q`: `q` lies between the squares of the result minus and plus half a
step. -/
theorem sqrtFloat_spec (P : Nat) (hP : 1 ≤ P) (q : ℚ) (hlo : (2 : ℚ) ^ (-2048 : ℤ) ≤ q)
    (hhi : q < (2 : ℚ) ^ (2048 : ℤ)) :
    ∃ n : Nat,
      sqrtFloat P q = (n : ℚ) * (2 : ℚ) ^ (Int.fdiv (binaryExponent q) 2 - ((P : ℤ) - 1)) ∧
      2 ^ (P - 1) ≤ n ∧ n ≤ 2 ^ P ∧
      (2 : ℚ) ^ (Int.fdiv (binaryExponent q) 2 - ((P : ℤ) - 1)) / 2 ≤ sqrtFloat P q ∧
      (sqrtFloat P q - (2 : ℚ) ^ (Int.fdiv (binaryExponent q) 2 - ((P : ℤ) - 1)) / 2) ^ 2 ≤ q ∧
      q ≤ (sqrtFloat P q + (2 : ℚ) ^ (Int.fdiv (binaryExponent q) 2 - ((P : ℤ) - 1)) / 2) ^ 2 := by
  have hq : 0 < q := lt_of_lt_of_le (zpow_pos (by norm_num) _) hlo
  have habs : |q| = q := abs_of_pos hq
  obtain ⟨he1, he2⟩ := binaryExponent_spec q (by rw [habs]; exact hlo) (by rw [habs]; exact hhi)
  rw [habs] at he1 he2
  have hval : sqrtFloat P q =
      (nearestRoot P (q / ((2 : ℚ) ^ (Int.fdiv (binaryExponent q) 2 - ((P : ℤ) - 1)) *
        (2 : ℚ) ^ (Int.fdiv (binaryExponent q) 2 - ((P : ℤ) - 1)))) : ℚ) *
        (2 : ℚ) ^ (Int.fdiv (binaryExponent q) 2 - ((P : ℤ) - 1)) := by
    unfold sqrtFloat
    rw [if_neg (not_le.mpr hq)]
    simp only [twoPow_eq_zpow]
  generalize binaryExponent q = e at he1 he2 hval ⊢
  have hfd : Int.fdiv e 2 = e / 2 := Int.fdiv_eq_ediv e (by norm_num)
  rw [hfd] at hval ⊢
  have hlow : 2 * (e / 2) ≤ e := by omega
  have hupp : e ≤ 2 * (e / 2) + 1 := by omega
  generalize e / 2 = e2 at hval hlow hupp ⊢
  generalize hulp : (2 : ℚ) ^ (e2 - ((P : ℤ) - 1)) = ulp at hval ⊢
  have hu : 0 < ulp := by
    rw [← hulp]
    exact zpow_pos (by norm_num) _
  have huu : 0 < ulp * ulp := mul_pos hu hu
  have huu_eq : ulp * ulp = (2 : ℚ) ^ (2 * e2 - 2 * ((P : ℤ) - 1)) := by
    rw [← hulp, ← zpow_add₀ (by norm_num)]
    congr 1
    ring
  have hqt : q = q / (ulp * ulp) * (ulp * ulp) := by
    rw [div_mul_cancel₀ _ (ne_of_gt huu)]
  have ht1 : ((2 ^ (P - 1) : Nat) : ℚ) * ((2 ^ (P - 1) : Nat) : ℚ) ≤ q / (ulp * ulp) := by
    rw [le_div_iff₀ huu, huu_eq]
    push_cast
    rw [← zpow_natCast, ← zpow_add₀ (by norm_num), ← zpow_add₀ (by norm_num)]
    refine le_trans ?_ he1
    apply zpow_le_zpow_right₀ (by norm_num)
    rw [Nat.cast_sub hP]
    push_cast
    omega
  have ht2 : q / (ulp * ulp) < ((2 ^ P : Nat) : ℚ) * ((2 ^ P : Nat) : ℚ) := by
    rw [div_lt_iff₀ huu, huu_eq]
    push_cast
    rw [← zpow_natCast, ← zpow_add₀ (by norm_num), ← zpow_add₀ (by norm_num)]
    refine lt_of_lt_of_le he2 ?_
    apply zpow_le_zpow_right₀ (by norm_num)
    omega
  obtain ⟨k, hk, hk1, hk2, hk4, hk5⟩ := nearestRoot_spec P (q / (ulp * ulp)) ht1 ht2
  have hk3 : (1 : ℚ) ≤ (k : ℚ) := by
    have : 1 ≤ k := le_trans (Nat.one_le_two_pow) hk1
    exact_mod_cast this
  rw [hval, hk]
  refine ⟨k, rfl, hk1, hk2, ?_, ?_, ?_⟩
  · nlinarith
  · have : ((k : ℚ) * ulp - ulp / 2) ^ 2 = ((k : ℚ) - 1 / 2) ^ 2 * (ulp * ulp) := by ring
    rw [this]
    calc ((k : ℚ) - 1 / 2) ^ 2 * (ulp * ulp) ≤ q / (ulp * ulp) * (ulp * ulp) :=
          mul_le_mul_of_nonneg_right hk4 (le_of_lt huu)
      _ = q := hqt.symm
  · have : ((k : ℚ) * ulp + ulp / 2) ^ 2 = ((k : ℚ) + 1 / 2) ^ 2 * (ulp * ulp) := by ring
    rw [this]
    calc q = q / (ulp * ulp) * (ulp * ulp) := hqt
      _ ≤ ((k : ℚ) + 1 / 2) ^ 2 * (ulp * ulp) :=
          mul_le_mul_of_nonneg_right hk5 (le_of_lt huu)

/-! ## The searches on the arithmetic of the programs -/

/-- Known values of the two formats: `0.1f`, `0.1`, `0.6f`, the two square roots
of 2, a tie that goes to the even neighbour on either side, and a negative
number. -/
theorem float_samples :
    float32 (1 / 10) = 13421773 / 134217728 ∧
    float64 (1 / 10) = 3602879701896397 / 36028797018963968 ∧
    float32 (3 / 5) = 5033165 / 8388608 ∧
    sqrt32 2 = 11863283 / 8388608 ∧
    sqrt64 2 = 6369051672525773 / 4503599627370496 ∧
    float32 16777217 = 16777216 ∧
    float32 16777219 = 16777220 ∧
    float32 (-1 / 3) = -(11184811 / 33554432) ∧
    float32 18 = 18 ∧ sqrt32 900 = 30 := by
  decide!

/-- Exact arithmetic gives the scan of `selectPoint` on squared distances. -/
theorem selectPoint_eq_with (p : List Vec3) (x y : ℚ) :
    selectPointWith exactArith p x y = selectPoint p x y := rfl

theorem nearestLineStep_eq_with (p : List Vec3) (q : Vec3) :
    nearestLineStepWith exactArith p q = nearestLineStep p q := by
  funext acc i
  unfold nearestLineStepWith nearestLineStep exactArith
  simp only [decide_eq_true_eq]

/-- Exact arithmetic gives the edge search on squared distances. -/
theorem nearestLine_eq_with (p : List Vec3) (q : Vec3) :
    nearestLineWith exactArith p q = nearestLine p q := by
  unfold nearestLineWith nearestLine
  rw [nearestLineStep_eq_with]
  rfl

/-- Exact arithmetic gives the insertion on squared distances. -/
theorem insertPoint_eq_with (p : List Vec3) (x y : ℚ) :
    insertPointWith exactArith p x y = insertPoint p x y := by
  unfold insertPointWith insertPoint inputPoint
  simp only [nearestLine_eq_with]
  rfl

theorem BSpline.insertControlPoint_eq_with (s : BSpline.State) (x y : ℚ) :
    BSpline.insertControlPointWith exactArith s x y = BSpline.insertControlPoint s x y := by
  unfold BSpline.insertControlPointWith BSpline.insertControlPoint inputPoint
  simp only [nearestLine_eq_with, insertPoint_eq_with]
  rfl

theorem NaturalSpline.insertDataPoint_eq_with
    (solve : NaturalSpline.Mat → NaturalSpline.Mat → NaturalSpline.Mat)
    (s : NaturalSpline.State) (x y : ℚ) :
    NaturalSpline.insertDataPointWith exactArith solve s x y =
      NaturalSpline.insertDataPoint solve s x y := by
  unfold NaturalSpline.insertDataPointWith NaturalSpline.insertDataPoint inputPoint
  simp only [nearestLine_eq_with, insertPoint_eq_with]
  rfl

/-- In exact arithmetic a segment qualifies exactly when it does in the words of
the specification. -/
theorem qualifiesWith_exact (p : List Vec3) (q : Vec3) (i : Nat) :
    QualifiesWith exactArith p q i ↔ Qualifies p q i := by
  have h100 : (10 : ℚ) * 10 = 100 := by norm_num
  rw [qualifies_iff]
  unfold QualifiesWith exactArith
  simp only [decide_eq_true_eq, h100]
  constructor
  · rintro ⟨h1, h2, h3⟩
    exact ⟨by omega, h2, h3⟩
  · rintro ⟨h1, h2, h3⟩
    exact ⟨by omega, h2, h3⟩

/-- Result of the scan of `selectPoint` on the computed distances. -/
theorem selectPointWith_scan (A : Arith) (p : List Vec3) (x y : ℚ) :
    (selectPointWith A p x y = -1 ∧
      ∀ j, j < p.length → A.pointLimit ≤ A.pointDist x y (p.getD j ⟨0, 0, 0⟩)) ∨
    (∃ i, i < p.length ∧ selectPointWith A p x y = (i : ℤ) ∧
      A.pointDist x y (p.getD i ⟨0, 0, 0⟩) < A.pointLimit ∧
      (∀ j, j < p.length →
        A.pointDist x y (p.getD i ⟨0, 0, 0⟩) ≤ A.pointDist x y (p.getD j ⟨0, 0, 0⟩)) ∧
      ∀ j, j < i →
        A.pointDist x y (p.getD i ⟨0, 0, 0⟩) < A.pointDist x y (p.getD j ⟨0, 0, 0⟩)) := by
  have key := foldl_range_invariant (selectStepWith A p x y)
    (fun k (acc : ℚ × ℤ) =>
      (acc.2 = -1 ∧ acc.1 = A.pointLimit ∧
        ∀ j, j < k → A.pointLimit ≤ A.pointDist x y (p.getD j ⟨0, 0, 0⟩)) ∨
      (∃ i, i < k ∧ acc.2 = (i : ℤ) ∧ acc.1 = A.pointDist x y (p.getD i ⟨0, 0, 0⟩) ∧
        A.pointDist x y (p.getD i ⟨0, 0, 0⟩) < A.pointLimit ∧
        (∀ j, j < k →
          A.pointDist x y (p.getD i ⟨0, 0, 0⟩) ≤ A.pointDist x y (p.getD j ⟨0, 0, 0⟩)) ∧
        ∀ j, j < i →
          A.pointDist x y (p.getD i ⟨0, 0, 0⟩) < A.pointDist x y (p.getD j ⟨0, 0, 0⟩)))
    (A.pointLimit, -1) p.length ?_ ?_
  · rcases key with ⟨h1, -, h3⟩ | ⟨i, hi, h1, -, h3, h4, h5⟩
    · exact Or.inl ⟨h1, h3⟩
    · exact Or.inr ⟨i, hi, h1, h3, h4, h5⟩
  · left
    refine ⟨rfl, rfl, fun j hj => ?_⟩
    omega
  · rintro k ⟨m, n⟩ hk (⟨h1, h2, h3⟩ | ⟨i, hi, h1, h2, h3, h4, h5⟩)
    · simp only at h1 h2
      subst h1 h2
      unfold selectStepWith
      simp only []
      by_cases hd : A.pointDist x y (p.getD k ⟨0, 0, 0⟩) < A.pointLimit
      · rw [if_pos hd]
        right
        refine ⟨k, Nat.lt_succ_self k, rfl, rfl, hd, fun j hj => ?_, fun j hj => ?_⟩
        · rcases Nat.lt_succ_iff_lt_or_eq.mp hj with hj | hj
          · exact le_of_lt (lt_of_lt_of_le hd (h3 j hj))
          · rw [hj]
        · exact lt_of_lt_of_le hd (h3 j hj)
      · rw [if_neg hd]
        left
        refine ⟨rfl, rfl, fun j hj => ?_⟩
        rcases Nat.lt_succ_iff_lt_or_eq.mp hj with hj | hj
        · exact h3 j hj
        · rw [hj]; exact not_lt.mp hd
    · simp only at h1 h2
      subst h1 h2
      unfold selectStepWith
      simp only []
      by_cases hd : A.pointDist x y (p.getD k ⟨0, 0, 0⟩) <
          A.pointDist x y (p.getD i ⟨0, 0, 0⟩)
      · rw [if_pos hd]
        right
        refine ⟨k, Nat.lt_succ_self k, rfl, rfl, lt_trans hd h3, fun j hj => ?_,
          fun j hj => ?_⟩
        · rcases Nat.lt_succ_iff_lt_or_eq.mp hj with hj | hj
          · exact le_of_lt (lt_of_lt_of_le hd (h4 j hj))
          · rw [hj]
        · exact lt_of_lt_of_le hd (h4 j hj)
      · rw [if_neg hd]
        right
        refine ⟨i, Nat.lt_succ_of_lt hi, rfl, rfl, h3, fun j hj => ?_, h5⟩
        rcases Nat.lt_succ_iff_lt_or_eq.mp hj with hj | hj
        · exact h4 j hj
        · rw [hj]; exact not_lt.mp hd

/-- Result of the edge search of the insertion on the computed distances. -/
theorem nearestLineWith_scan (A : Arith) (p : List Vec3) (q : Vec3) :
    (nearestLineWith A p q = -1 ∧
      ∀ j, j < p.length - 1 →
        A.inArea (p.getD j ⟨0, 0, 0⟩) (p.getD (j + 1) ⟨0, 0, 0⟩) q = true →
        A.lineLimit ≤ A.lineDist (p.getD j ⟨0, 0, 0⟩) (p.getD (j + 1) ⟨0, 0, 0⟩) q) ∨
    (∃ i, i < p.length - 1 ∧ nearestLineWith A p q = (i : ℤ) ∧
      A.inArea (p.getD i ⟨0, 0, 0⟩) (p.getD (i + 1) ⟨0, 0, 0⟩) q = true ∧
      A.lineDist (p.getD i ⟨0, 0, 0⟩) (p.getD (i + 1) ⟨0, 0, 0⟩) q < A.lineLimit ∧
      (∀ j, j < p.length - 1 →
        A.inArea (p.getD j ⟨0, 0, 0⟩) (p.getD (j + 1) ⟨0, 0, 0⟩) q = true →
        A.lineDist (p.getD i ⟨0, 0, 0⟩) (p.getD (i + 1) ⟨0, 0, 0⟩) q ≤
          A.lineDist (p.getD j ⟨0, 0, 0⟩) (p.getD (j + 1) ⟨0, 0, 0⟩) q) ∧
      ∀ j, j < i →
        A.inArea (p.getD j ⟨0, 0, 0⟩) (p.getD (j + 1) ⟨0, 0, 0⟩) q = true →
        A.lineDist (p.getD i ⟨0, 0, 0⟩) (p.getD (i + 1) ⟨0, 0, 0⟩) q <
          A.lineDist (p.getD j ⟨0, 0, 0⟩) (p.getD (j + 1) ⟨0, 0, 0⟩) q) := by
  have key := foldl_range_invariant (nearestLineStepWith A p q)
    (fun k (acc : ℚ × ℤ) =>
      (acc.2 = -1 ∧ acc.1 = A.lineLimit ∧
        ∀ j, j < k →
          A.inArea (p.getD j ⟨0, 0, 0⟩) (p.getD (j + 1) ⟨0, 0, 0⟩) q = true →
          A.lineLimit ≤ A.lineDist (p.getD j ⟨0, 0, 0⟩) (p.getD (j + 1) ⟨0, 0, 0⟩) q) ∨
      (∃ i, i < k ∧ acc.2 = (i : ℤ) ∧
        acc.1 = A.lineDist (p.getD i ⟨0, 0, 0⟩) (p.getD (i + 1) ⟨0, 0, 0⟩) q ∧
        A.inArea (p.getD i ⟨0, 0, 0⟩) (p.getD (i + 1) ⟨0, 0, 0⟩) q = true ∧
        A.lineDist (p.getD i ⟨0, 0, 0⟩) (p.getD (i + 1) ⟨0, 0, 0⟩) q < A.lineLimit ∧
        (∀ j, j < k →
          A.inArea (p.getD j ⟨0, 0, 0⟩) (p.getD (j + 1) ⟨0, 0, 0⟩) q = true →
          A.lineDist (p.getD i ⟨0, 0, 0⟩) (p.getD (i + 1) ⟨0, 0, 0⟩) q ≤
            A.lineDist (p.getD j ⟨0, 0, 0⟩) (p.getD (j + 1) ⟨0, 0, 0⟩) q) ∧
        ∀ j, j < i →
          A.inArea (p.getD j ⟨0, 0, 0⟩) (p.getD (j + 1) ⟨0, 0, 0⟩) q = true →
          A.lineDist (p.getD i ⟨0, 0, 0⟩) (p.getD (i + 1) ⟨0, 0, 0⟩) q <
            A.lineDist (p.getD j ⟨0, 0, 0⟩) (p.getD (j + 1) ⟨0, 0, 0⟩) q))
    (A.lineLimit, -1) (p.length - 1) ?_ ?_
  · rcases key with ⟨h1, -, h3⟩ | ⟨i, hi, h1, -, ha, h3, h4, h5⟩
    · exact Or.inl ⟨h1, h3⟩
    · exact Or.inr ⟨i, hi, h1, ha, h3, h4, h5⟩
  · left
    refine ⟨rfl, rfl, fun j hj => ?_⟩
    omega
  · rintro k ⟨m, n⟩ hk (⟨h1, h2, h3⟩ | ⟨i, hi, h1, h2, ha, h3, h4, h5⟩)
    · simp only at h1 h2
      subst h1 h2
      unfold nearestLineStepWith
      simp only []
      by_cases hA : A.inArea (p.getD k ⟨0, 0, 0⟩) (p.getD (k + 1) ⟨0, 0, 0⟩) q = true
      · rw [if_pos hA]
        by_cases hd : A.lineDist (p.getD k ⟨0, 0, 0⟩) (p.getD (k + 1) ⟨0, 0, 0⟩) q <
            A.lineLimit
        · rw [if_pos hd]
          right
          refine ⟨k, Nat.lt_succ_self k, rfl, rfl, hA, hd, fun j hj hAj => ?_,
            fun j hj hAj => ?_⟩
          · rcases Nat.lt_succ_iff_lt_or_eq.mp hj with hj | hj
            · exact le_of_lt (lt_of_lt_of_le hd (h3 j hj hAj))
            · rw [hj]
          · exact lt_of_lt_of_le hd (h3 j hj hAj)
        · rw [if_neg hd]
          left
          refine ⟨rfl, rfl, fun j hj hAj => ?_⟩
          rcases Nat.lt_succ_iff_lt_or_eq.mp hj with hj | hj
          · exact h3 j hj hAj
          · rw [hj]; exact not_lt.mp hd
      · rw [if_neg hA]
        left
        refine ⟨rfl, rfl, fun j hj hAj => ?_⟩
        rcases Nat.lt_succ_iff_lt_or_eq.mp hj with hj | hj
        · exact h3 j hj hAj
        · rw [hj] at hAj; exact absurd hAj hA
    · simp only at h1 h2
      subst h1 h2
      unfold nearestLineStepWith
      simp only []
      by_cases hA : A.inArea (p.getD k ⟨0, 0, 0⟩) (p.getD (k + 1) ⟨0, 0, 0⟩) q = true
      · rw [if_pos hA]
        by_cases hd : A.lineDist (p.getD k ⟨0, 0, 0⟩) (p.getD (k + 1) ⟨0, 0, 0⟩) q <
            A.lineDist (p.getD i ⟨0, 0, 0⟩) (p.getD (i + 1) ⟨0, 0, 0⟩) q
        · rw [if_pos hd]
          right
          refine ⟨k, Nat.lt_succ_self k, rfl, rfl, hA, lt_trans hd h3, fun j hj hAj => ?_,
            fun j hj hAj => ?_⟩
          · rcases Nat.lt_succ_iff_lt_or_eq.mp hj with hj | hj
            · exact le_of_lt (lt_of_lt_of_le hd (h4 j hj hAj))
            · rw [hj]
          · exact lt_of_lt_of_le hd (h4 j hj hAj)
        · rw [if_neg hd]
          right
          refine ⟨i, Nat.lt_succ_of_lt hi, rfl, rfl, ha, h3, fun j hj hAj => ?_, h5⟩
          rcases Nat.lt_succ_iff_lt_or_eq.mp hj with hj | hj
          · exact h4 j hj hAj
          · rw [hj]; exact not_lt.mp hd
      · rw [if_neg hA]
        right
        refine ⟨i, Nat.lt_succ_of_lt hi, rfl, rfl, ha, h3, fun j hj hAj => ?_, h5⟩
        rcases Nat.lt_succ_iff_lt_or_eq.mp hj with hj | hj
        · exact h4 j hj hAj
        · rw [hj] at hAj; exact absurd hAj hA

end CurveEditing

namespace CurveEditing

/-! ## Removal of the nearest point on the arithmetic of the programs -/

/-- C9, as stated, fails in both programs.  Natural-spline program: the stored
point `(0,0,0)` is at distance `15 - 2^-28` from the query `(15 - 2^-28, 0)`, the
`float` value of the distance is 15 and `selectPoint` returns -1.  B-spline
program: the stored point is at distance below 15 from the query
`(9 + 2^-49, 12 - 2^-49)`, the `double` value of the distance is 15 and
`selectPoint` returns -1. -/
theorem selectPoint_misses_point_below_limit :
    (Real.sqrt ((planarDistSq (15 - 1 / 2 ^ 28) 0 ⟨0, 0, 0⟩ : ℚ) : ℝ) < 15 ∧
      floatDist (15 - 1 / 2 ^ 28) 0 ⟨0, 0, 0⟩ = 15 ∧
      selectPointWith naturalArith singlePoint (15 - 1 / 2 ^ 28) 0 = -1 ∧
      ¬ (selectPointWith naturalArith singlePoint (15 - 1 / 2 ^ 28) 0 = -1 ↔
        ∀ v ∈ singlePoint,
          (15 : ℝ) ≤ Real.sqrt ((planarDistSq (15 - 1 / 2 ^ 28) 0 v : ℚ) : ℝ))) ∧
    (Real.sqrt ((planarDistSq (9 + 1 / 2 ^ 49) (12 - 1 / 2 ^ 49) ⟨0, 0, 0⟩ : ℚ) : ℝ) < 15 ∧
      doubleDist (9 + 1 / 2 ^ 49) (12 - 1 / 2 ^ 49) ⟨0, 0, 0⟩ = 15 ∧
      selectPointWith bsplineArith singlePoint (9 + 1 / 2 ^ 49) (12 - 1 / 2 ^ 49) = -1 ∧
      ¬ (selectPointWith bsplineArith singlePoint (9 + 1 / 2 ^ 49) (12 - 1 / 2 ^ 49) = -1 ↔
        ∀ v ∈ singlePoint, (15 : ℝ) ≤
          Real.sqrt ((planarDistSq (9 + 1 / 2 ^ 49) (12 - 1 / 2 ^ 49) v : ℚ) : ℝ))) := by
  have h1 : Real.sqrt ((planarDistSq (15 - 1 / 2 ^ 28) 0 ⟨0, 0, 0⟩ : ℚ) : ℝ) < 15 :=
    (sqrt_lt_fifteen _).mpr (by decide!)
  have h2 : selectPointWith naturalArith singlePoint (15 - 1 / 2 ^ 28) 0 = -1 := by decide!
  have h3 : Real.sqrt ((planarDistSq (9 + 1 / 2 ^ 49) (12 - 1 / 2 ^ 49) ⟨0, 0, 0⟩ : ℚ) : ℝ)
      < 15 := (sqrt_lt_fifteen _).mpr (by decide!)
  have h4 : selectPointWith bsplineArith singlePoint (9 + 1 / 2 ^ 49) (12 - 1 / 2 ^ 49) = -1 := by
    decide!
  refine ⟨⟨h1, by decide!, h2, fun h => ?_⟩, ⟨h3, by decide!, h4, fun h => ?_⟩⟩
  · exact absurd h1 (not_lt.mpr (h.mp h2 ⟨0, 0, 0⟩ (List.mem_singleton.mpr rfl)))
  · exact absurd h3 (not_lt.mpr (h.mp h4 ⟨0, 0, 0⟩ (List.mem_singleton.mpr rfl)))

/-- C9, amended: on every arithmetic `A` (that of the B-spline program, that of
the natural-spline program, exact arithmetic), with the distance from the query
to a stored point as `A` computes it, `selectPoint` returns -1 exactly when every
stored point is at computed distance at least the limit; otherwise it returns the
lowest index whose computed distance is the minimum over all stored points, that
minimum is below the limit, and removing with that index (in either program)
deletes exactly that element and keeps the order of the others.  The limit is 15
in both programs, and in exact arithmetic the comparisons are those of the planar
Euclidean distance with 15 and with each other. -/
theorem selectPoint_removeNearest_computed (A : Arith) (p : List Vec3) (x y : ℚ) :
    (selectPointWith A p x y = -1 ↔ ∀ v ∈ p, A.pointLimit ≤ A.pointDist x y v) ∧
    (selectPointWith A p x y ≠ -1 →
      ∃ i, ∃ hi : i < p.length, selectPointWith A p x y = (i : ℤ) ∧
        A.pointDist x y p[i] < A.pointLimit ∧
        (∀ v ∈ p, A.pointDist x y p[i] ≤ A.pointDist x y v) ∧
        (∀ j, (hj : j < i) → A.pointDist x y p[i] < A.pointDist x y p[j]) ∧
        erasePoint p (selectPointWith A p x y) = p.take i ++ p.drop (i + 1) ∧
        (∀ s : BSpline.State, s.p = p →
          (BSpline.removeControlPoint s (selectPointWith A s.p x y)).p =
            p.take i ++ p.drop (i + 1)) ∧
        (∀ (solve : NaturalSpline.Mat → NaturalSpline.Mat → NaturalSpline.Mat)
          (s : NaturalSpline.State), s.p = p →
          (NaturalSpline.removeDataPoint solve s (selectPointWith A s.p x y)).p =
            p.take i ++ p.drop (i + 1))) ∧
    (bsplineArith.pointLimit = 15 ∧ naturalArith.pointLimit = 15) ∧
    (∀ v : Vec3, exactArith.pointDist x y v < exactArith.pointLimit ↔
      Real.sqrt ((planarDistSq x y v : ℚ) : ℝ) < 15) ∧
    (∀ u v : Vec3, exactArith.pointDist x y u ≤ exactArith.pointDist x y v ↔
      Real.sqrt ((planarDistSq x y u : ℚ) : ℝ) ≤ Real.sqrt ((planarDistSq x y v : ℚ) : ℝ)) := by
  have hexact1 : ∀ v : Vec3, exactArith.pointDist x y v < exactArith.pointLimit ↔
      Real.sqrt ((planarDistSq x y v : ℚ) : ℝ) < 15 := by
    intro v
    have h225 : exactArith.pointLimit = 225 := by
      unfold exactArith
      norm_num
    rw [sqrt_lt_fifteen, h225]
    rfl
  have hexact2 : ∀ u v : Vec3, exactArith.pointDist x y u ≤ exactArith.pointDist x y v ↔
      Real.sqrt ((planarDistSq x y u : ℚ) : ℝ) ≤ Real.sqrt ((planarDistSq x y v : ℚ) : ℝ) := by
    intro u v
    rw [sqrt_cast_le_iff _ _ (planarDistSq_nonneg _ _ _)]
    rfl
  refine ⟨?_, ?_, ⟨rfl, rfl⟩, hexact1, hexact2⟩
  · rcases selectPointWith_scan A p x y with ⟨h1, h2⟩ | ⟨i, hi, h1, h3, -, -⟩
    · refine ⟨fun _ v hv => ?_, fun _ => h1⟩
      obtain ⟨n, hn, rfl⟩ := List.mem_iff_getElem.mp hv
      have := h2 n hn
      rwa [List.getD_eq_getElem p _ hn] at this
    · refine ⟨fun h => ?_, fun h => ?_⟩
      · rw [h1] at h
        have : (0 : ℤ) ≤ (i : ℤ) := Int.natCast_nonneg i
        omega
      · exfalso
        have hlim := h p[i] (List.getElem_mem hi)
        rw [List.getD_eq_getElem p _ hi] at h3
        exact absurd h3 (not_lt.mpr hlim)
  · intro hne
    rcases selectPointWith_scan A p x y with ⟨h1, -⟩ | ⟨i, hi, h1, h3, h4, h5⟩
    · exact absurd h1 hne
    · rw [List.getD_eq_getElem p _ hi] at h3 h4 h5
      have hE : erasePoint p (selectPointWith A p x y) = p.take i ++ p.drop (i + 1) := by
        rw [h1, erasePoint_natCast]
      refine ⟨i, hi, h1, h3, fun v hv => ?_, fun j hj => ?_, hE, fun s hs => ?_,
        fun solve s hs => ?_⟩
      · obtain ⟨n, hn, rfl⟩ := List.mem_iff_getElem.mp hv
        have := h4 n hn
        rwa [List.getD_eq_getElem p _ hn] at this
      · have := h5 j hj
        rwa [List.getD_eq_getElem p _ (by omega)] at this
      · rw [BSpline.removeControlPoint_p, hs, hE]
      · rw [NaturalSpline.removeDataPoint_p, hs, hE]

/-- C9, amended, at the scenario points on the arithmetic of the natural-spline
program: the query `(9, 9)` selects index 2. -/
theorem selectPoint_removeNearest_computed_witness :
    selectPointWith naturalArith BSpline.scenarioPoints 9 9 = 2 ∧
    erasePoint BSpline.scenarioPoints (selectPointWith naturalArith BSpline.scenarioPoints 9 9) =
      [⟨0, 0, 0⟩, ⟨10, 0, 0⟩] ∧
    (selectPointWith naturalArith BSpline.scenarioPoints 9 9 = -1 ↔
      ∀ v ∈ BSpline.scenarioPoints, naturalArith.pointLimit ≤ naturalArith.pointDist 9 9 v) :=
  ⟨by decide!, by decide!,
    (selectPoint_removeNearest_computed naturalArith BSpline.scenarioPoints 9 9).1⟩

/-! ## Insertion on the nearest edge on the arithmetic of the programs -/

theorem qualifiesWith_iff (A : Arith) (p : List Vec3) (q : Vec3) (i : Nat) :
    QualifiesWith A p q i ↔ i < p.length - 1 ∧
      A.inArea (p.getD i ⟨0, 0, 0⟩) (p.getD (i + 1) ⟨0, 0, 0⟩) q = true ∧
      A.lineDist (p.getD i ⟨0, 0, 0⟩) (p.getD (i + 1) ⟨0, 0, 0⟩) q < A.lineLimit := by
  unfold QualifiesWith
  constructor
  · rintro ⟨h1, h2, h3⟩
    exact ⟨by omega, h2, h3⟩
  · rintro ⟨h1, h2, h3⟩
    exact ⟨by omega, h2, h3⟩

theorem insertPointWith_of_nearest (A : Arith) (p : List Vec3) (x y : ℚ) (i : Nat)
    (hi : i < p.length - 1) (h : nearestLineWith A p (inputPoint A x y) = (i : ℤ)) :
    insertPointWith A p x y = p.take (i + 1) ++ [inputPoint A x y] ++ p.drop (i + 1) := by
  unfold insertPointWith
  simp only []
  rw [h, if_pos (Int.natCast_nonneg i), Int.toNat_natCast,
    insertIdx_eq_take_append p _ (i + 1) (by omega)]

theorem insertPointWith_of_none (A : Arith) (p : List Vec3) (x y : ℚ)
    (h : nearestLineWith A p (inputPoint A x y) = -1) : insertPointWith A p x y = p := by
  unfold insertPointWith
  simp only []
  rw [h, if_neg (by decide)]

theorem BSpline.insertControlPointWith_p (A : Arith) (s : BSpline.State) (x y : ℚ) :
    (BSpline.insertControlPointWith A s x y).p = insertPointWith A s.p x y := by
  unfold BSpline.insertControlPointWith
  by_cases h : 0 ≤ nearestLineWith A s.p (inputPoint A x y)
  · rw [if_pos h]
  · rw [if_neg h]
    unfold insertPointWith
    simp only []
    rw [if_neg h]

theorem NaturalSpline.insertDataPointWith_p (A : Arith)
    (solve : NaturalSpline.Mat → NaturalSpline.Mat → NaturalSpline.Mat)
    (s : NaturalSpline.State) (x y : ℚ) :
    (NaturalSpline.insertDataPointWith A solve s x y).p = insertPointWith A s.p x y := by
  unfold NaturalSpline.insertDataPointWith
  by_cases h : 0 ≤ nearestLineWith A s.p (inputPoint A x y)
  · rw [if_pos h]
    rfl
  · rw [if_neg h]
    unfold insertPointWith
    simp only []
    rw [if_neg h]

/-- The `float` values on the way to the distance from `(23, 14)` to the line
through `(0,0,0)` and `(18,24,0)`, and from `(-6, 8)` to the line through `(0,0,0)`
and `(569,427,0)`: the direction, its product with the difference, the
projection, the rest, its squared norm and the root. -/
theorem edge_distance_traces :
    ((Vec3.subF ⟨18, 24, 0⟩ ⟨0, 0, 0⟩).normalizedF =
        ⟨5033165 / 8388608, 13421773 / 16777216, 0⟩ ∧
      Vec3.dotF ⟨5033165 / 8388608, 13421773 / 16777216, 0⟩ ⟨23, 14, 0⟩ = 25 ∧
      Vec3.scaleF 25 ⟨5033165 / 8388608, 13421773 / 16777216, 0⟩ =
        ⟨15728641 / 1048576, 20, 0⟩ ∧
      Vec3.subF ⟨23, 14, 0⟩ ⟨15728641 / 1048576, 20, 0⟩ = ⟨8388607 / 1048576, -6, 0⟩ ∧
      Vec3.dotF ⟨8388607 / 1048576, -6, 0⟩ ⟨8388607 / 1048576, -6, 0⟩ = 6553599 / 65536 ∧
      sqrt32 (6553599 / 65536) = 10485759 / 1048576) ∧
    (Vec3.dotF ⟨569, 427, 0⟩ ⟨569, 427, 0⟩ = 506090 ∧
      sqrt32 506090 = 5827789 / 8192 ∧
      (Vec3.subF ⟨569, 427, 0⟩ ⟨0, 0, 0⟩).normalizedF =
        ⟨6709471 / 8388608, 10070103 / 16777216, 0⟩ ∧
      Vec3.dotF ⟨6709471 / 8388608, 10070103 / 16777216, 0⟩ ⟨-6, 8, 0⟩ = 5897 / 2097152 ∧
      Vec3.scaleF (5897 / 2097152) ⟨6709471 / 8388608, 10070103 / 16777216, 0⟩ =
        ⟨9659607 / 4294967296, 3624475 / 2147483648, 0⟩ ∧
      Vec3.subF ⟨-6, 8, 0⟩ ⟨9659607 / 4294967296, 3624475 / 2147483648, 0⟩ =
        ⟨-12587629 / 2097152, 4193419 / 524288, 0⟩ ∧
      Vec3.dotF ⟨-12587629 / 2097152, 4193419 / 524288, 0⟩
        ⟨-12587629 / 2097152, 4193419 / 524288, 0⟩ = 13107199 / 131072 ∧
      sqrt32 (13107199 / 131072) = 10) := by
  decide!

/-- C10, as stated, fails in both programs, in either direction.  The edge from
`(0,0,0)` to `(18,24,0)` is at distance exactly 10 from `(23, 14)`, so no segment
qualifies, but the `float` value of the distance is `10485759 / 1048576`, below
10, and the point is inserted.  The edge from `(0,0,0)` to `(569,427,0)` is at
distance below 10 from `(-6, 8)` and qualifies, but the `float` value of the
distance is 10 and the point list is left unchanged. -/
theorem insertion_differs_at_limit :
    ((∀ i, ¬ Qualifies edgeAtTen ⟨23, 14, 0⟩ i) ∧
      Real.sqrt ((lineDistSq ⟨0, 0, 0⟩ ⟨18, 24, 0⟩ ⟨23, 14, 0⟩ : ℚ) : ℝ) = 10 ∧
      lineDistF ⟨0, 0, 0⟩ ⟨18, 24, 0⟩ ⟨23, 14, 0⟩ = 10485759 / 1048576 ∧
      insertPointWith bsplineArith edgeAtTen 23 14 = [⟨0, 0, 0⟩, ⟨23, 14, 0⟩, ⟨18, 24, 0⟩] ∧
      insertPointWith naturalArith edgeAtTen 23 14 = [⟨0, 0, 0⟩, ⟨23, 14, 0⟩, ⟨18, 24, 0⟩]) ∧
    ((∃ i, Qualifies edgeBelowTen ⟨-6, 8, 0⟩ i) ∧
      lineDistF ⟨0, 0, 0⟩ ⟨569, 427, 0⟩ ⟨-6, 8, 0⟩ = 10 ∧
      insertPointWith bsplineArith edgeBelowTen (-6) 8 = edgeBelowTen ∧
      insertPointWith naturalArith edgeBelowTen (-6) 8 = edgeBelowTen) := by
  have hsq : lineDistSq ⟨0, 0, 0⟩ ⟨18, 24, 0⟩ ⟨23, 14, 0⟩ = 100 := by decide!
  refine ⟨⟨fun i hq => ?_, ?_, by decide!, by decide!, by decide!⟩,
    ⟨⟨0, (qualifies_iff edgeBelowTen ⟨-6, 8, 0⟩ 0).mpr (by decide!)⟩, by decide!, by decide!,
      by decide!⟩⟩
  · rw [qualifies_iff] at hq
    obtain ⟨h1, -, h3⟩ := hq
    have hi : i = 0 := by
      have : edgeAtTen.length = 2 := rfl
      omega
    subst hi
    exact absurd h3 (by decide!)
  · rw [hsq]
    have h : ((100 : ℚ) : ℝ) = 10 ^ 2 := by norm_num
    rw [h, Real.sqrt_sq (by norm_num)]

/-- C10, amended: on every arithmetic `A`, with the query point as stored
(`inputPos`), the segment test and the distance from the query to the line as `A`
computes them, a segment qualifies when the test holds and the computed distance
is below the limit.  When no segment qualifies (in particular when `p` has fewer
than two points) the insertion leaves the point list unchanged; otherwise the
query point is inserted right after the lowest-index qualifying segment of
minimum computed distance: the result is `p[0..i] ++ [q] ++ p[i+1..]`, one element
longer.  The list part is what `insertControlPoint` and `insertDataPoint` store.
The limit is 10 in both programs, and in exact arithmetic a segment qualifies
exactly when it does in the words of the specification, the distances comparing
like the perpendicular distances. -/
theorem insertOnNearestEdge_computed (A : Arith) (p : List Vec3) (x y : ℚ) :
    ((∀ i, ¬ QualifiesWith A p (inputPoint A x y) i) → insertPointWith A p x y = p) ∧
    (p.length < 2 →
      (∀ i, ¬ QualifiesWith A p (inputPoint A x y) i) ∧ insertPointWith A p x y = p) ∧
    ((∃ i, QualifiesWith A p (inputPoint A x y) i) →
      ∃ i, QualifiesWith A p (inputPoint A x y) i ∧
        (∀ j, QualifiesWith A p (inputPoint A x y) j →
          A.lineDist (p.getD i ⟨0, 0, 0⟩) (p.getD (i + 1) ⟨0, 0, 0⟩) (inputPoint A x y) ≤
          A.lineDist (p.getD j ⟨0, 0, 0⟩) (p.getD (j + 1) ⟨0, 0, 0⟩) (inputPoint A x y)) ∧
        (∀ j, j < i → QualifiesWith A p (inputPoint A x y) j →
          A.lineDist (p.getD i ⟨0, 0, 0⟩) (p.getD (i + 1) ⟨0, 0, 0⟩) (inputPoint A x y) <
          A.lineDist (p.getD j ⟨0, 0, 0⟩) (p.getD (j + 1) ⟨0, 0, 0⟩) (inputPoint A x y)) ∧
        insertPointWith A p x y = p.take (i + 1) ++ [inputPoint A x y] ++ p.drop (i + 1) ∧
        (insertPointWith A p x y).length = p.length + 1) ∧
    (∀ s : BSpline.State, s.p = p →
      (BSpline.insertControlPointWith A s x y).p = insertPointWith A p x y) ∧
    (∀ (solve : NaturalSpline.Mat → NaturalSpline.Mat → NaturalSpline.Mat)
      (s : NaturalSpline.State), s.p = p →
      (NaturalSpline.insertDataPointWith A solve s x y).p = insertPointWith A p x y) ∧
    (bsplineArith.lineLimit = 10 ∧ naturalArith.lineLimit = 10) ∧
    (inputPoint exactArith x y = ⟨x, y, 0⟩ ∧
      ∀ i, QualifiesWith exactArith p ⟨x, y, 0⟩ i ↔ Qualifies p ⟨x, y, 0⟩ i) ∧
    (∀ a b c d q : Vec3, exactArith.lineDist a b q ≤ exactArith.lineDist c d q ↔
      Real.sqrt ((lineDistSq a b q : ℚ) : ℝ) ≤ Real.sqrt ((lineDistSq c d q : ℚ) : ℝ)) := by
  have hstate : (∀ s : BSpline.State, s.p = p →
        (BSpline.insertControlPointWith A s x y).p = insertPointWith A p x y) ∧
      (∀ (solve : NaturalSpline.Mat → NaturalSpline.Mat → NaturalSpline.Mat)
        (s : NaturalSpline.State), s.p = p →
        (NaturalSpline.insertDataPointWith A solve s x y).p = insertPointWith A p x y) :=
    ⟨fun s hs => by rw [BSpline.insertControlPointWith_p, hs],
     fun solve s hs => by rw [NaturalSpline.insertDataPointWith_p, hs]⟩
  have hexact : ∀ a b c d q : Vec3, exactArith.lineDist a b q ≤ exactArith.lineDist c d q ↔
      Real.sqrt ((lineDistSq a b q : ℚ) : ℝ) ≤ Real.sqrt ((lineDistSq c d q : ℚ) : ℝ) := by
    intro a b c d q
    rw [sqrt_cast_le_iff _ _ (lineDistSq_nonneg _ _ _)]
    rfl
  have hshort : p.length < 2 → ∀ i, ¬ QualifiesWith A p (inputPoint A x y) i := by
    intro hp i hq
    have := hq.1
    omega
  refine ⟨?_, ?_, ?_, hstate.1, hstate.2, ⟨rfl, rfl⟩,
    ⟨rfl, fun i => qualifiesWith_exact p ⟨x, y, 0⟩ i⟩, hexact⟩
  · intro hnone
    rcases nearestLineWith_scan A p (inputPoint A x y) with ⟨h1, -⟩ | ⟨i, hi, -, ha, h3, -, -⟩
    · exact insertPointWith_of_none A p x y h1
    · exact absurd ((qualifiesWith_iff A p _ i).mpr ⟨hi, ha, h3⟩) (hnone i)
  · intro hp
    refine ⟨hshort hp, ?_⟩
    rcases nearestLineWith_scan A p (inputPoint A x y) with ⟨h1, -⟩ | ⟨i, hi, -, ha, h3, -, -⟩
    · exact insertPointWith_of_none A p x y h1
    · exact absurd ((qualifiesWith_iff A p _ i).mpr ⟨hi, ha, h3⟩) (hshort hp i)
  · rintro ⟨k, hk⟩
    rcases nearestLineWith_scan A p (inputPoint A x y) with
      ⟨-, h2⟩ | ⟨i, hi, h1, ha, h3, h4, h5⟩
    · exfalso
      rw [qualifiesWith_iff] at hk
      exact absurd hk.2.2 (not_lt.mpr (h2 k hk.1 hk.2.1))
    · have hins := insertPointWith_of_nearest A p x y i hi h1
      refine ⟨i, (qualifiesWith_iff A p _ i).mpr ⟨hi, ha, h3⟩, fun j hj => ?_,
        fun j hji hj => ?_, hins, ?_⟩
      · rw [qualifiesWith_iff] at hj
        exact h4 j hj.1 hj.2.1
      · rw [qualifiesWith_iff] at hj
        exact h5 j hji hj.2.1
      · rw [hins]
        simp only [List.length_append, List.length_take, List.length_drop, List.length_cons,
          List.length_nil]
        omega

/-- C10, amended, on the arithmetic of the B-spline program: `(5, 1)` lies over
the first edge of the scenario points and is inserted at index 1; `(5, 20)` is
over no edge. -/
theorem insertOnNearestEdge_computed_witness :
    insertPointWith bsplineArith BSpline.scenarioPoints 5 1 =
      [⟨0, 0, 0⟩, ⟨5, 1, 0⟩, ⟨10, 0, 0⟩, ⟨10, 10, 0⟩] ∧
    insertPointWith bsplineArith BSpline.scenarioPoints 5 20 = BSpline.scenarioPoints ∧
    ((∀ i, ¬ QualifiesWith bsplineArith BSpline.scenarioPoints (inputPoint bsplineArith 5 20) i) →
      insertPointWith bsplineArith BSpline.scenarioPoints 5 20 = BSpline.scenarioPoints) :=
  ⟨by decide!, by decide!,
    (insertOnNearestEdge_computed bsplineArith BSpline.scenarioPoints 5 20).1⟩

end CurveEditing

namespace CurveEditing

/-! ## Removal on a store of at most one point, on the arithmetic of the programs -/

theorem selectPointWith_nil (A : Arith) (x y : ℚ) : selectPointWith A [] x y = -1 := rfl

theorem selectPointWith_single (A : Arith) (v : Vec3) (x y : ℚ) :
    selectPointWith A [v] x y = if A.pointDist x y v < A.pointLimit then 0 else -1 := by
  have hr : List.range 1 = [0] := rfl
  simp only [selectPointWith, selectStepWith, List.length_singleton, hr, List.foldl_cons,
    List.foldl_nil, List.getD_cons_zero]
  split_ifs <;> rfl

/-- C11, amended: on every arithmetic `A`, on the empty store `selectPoint`
returns -1 and the removal changes nothing; on a store holding exactly one point
`v` the same holds when the distance of `v` from the query, as `A` computes it, is
at least the limit, and otherwise `selectPoint` returns 0 and the removal leaves
the empty store.  With index -1 the removal of either program returns its state
unchanged.  The limit is 15 in both programs, and in exact arithmetic the
comparison is that of the planar Euclidean distance with 15. -/
theorem removeNearest_tiny_store_computed (A : Arith) :
    (∀ x y : ℚ, selectPointWith A [] x y = -1 ∧
      erasePoint [] (selectPointWith A [] x y) = []) ∧
    (∀ (v : Vec3) (x y : ℚ),
      (A.pointLimit ≤ A.pointDist x y v →
        selectPointWith A [v] x y = -1 ∧ erasePoint [v] (selectPointWith A [v] x y) = [v]) ∧
      (A.pointDist x y v < A.pointLimit →
        selectPointWith A [v] x y = 0 ∧ erasePoint [v] (selectPointWith A [v] x y) = [])) ∧
    (∀ s : BSpline.State, BSpline.removeControlPoint s (-1) = s) ∧
    (∀ (solve : NaturalSpline.Mat → NaturalSpline.Mat → NaturalSpline.Mat)
      (s : NaturalSpline.State), NaturalSpline.removeDataPoint solve s (-1) = s) ∧
    (bsplineArith.pointLimit = 15 ∧ naturalArith.pointLimit = 15) ∧
    (∀ (v : Vec3) (x y : ℚ), exactArith.pointDist x y v < exactArith.pointLimit ↔
      Real.sqrt ((planarDistSq x y v : ℚ) : ℝ) < 15) := by
  refine ⟨fun x y => ⟨rfl, rfl⟩, fun v x y => ⟨fun h => ?_, fun h => ?_⟩,
    BSpline.removeControlPoint_neg_one, NaturalSpline.removeDataPoint_neg_one, ⟨rfl, rfl⟩,
    fun v x y => ?_⟩
  · rw [selectPointWith_single, if_neg (not_lt.mpr h)]
    exact ⟨rfl, erasePoint_neg_one [v]⟩
  · rw [selectPointWith_single, if_pos h]
    exact ⟨rfl, rfl⟩
  · have h225 : exactArith.pointLimit = 225 := by
      unfold exactArith
      norm_num
    rw [sqrt_lt_fifteen, h225]
    rfl

/-- C11, amended, at the single point `(0,0,0)` on the arithmetic of the
natural-spline program: the query `(1, 1)` removes it, the queries `(20, 0)` and
`(15 - 2^-28, 0)` do not. -/
theorem removeNearest_tiny_store_computed_witness :
    (selectPointWith naturalArith singlePoint 1 1 = 0 ∧
      erasePoint singlePoint (selectPointWith naturalArith singlePoint 1 1) = []) ∧
    (selectPointWith naturalArith singlePoint 20 0 = -1 ∧
      erasePoint singlePoint (selectPointWith naturalArith singlePoint 20 0) = singlePoint) ∧
    (selectPointWith naturalArith singlePoint (15 - 1 / 2 ^ 28) 0 = -1 ∧
      erasePoint singlePoint (selectPointWith naturalArith singlePoint (15 - 1 / 2 ^ 28) 0) =
        singlePoint) ∧
    (∀ x y : ℚ, selectPointWith naturalArith [] x y = -1 ∧
      erasePoint [] (selectPointWith naturalArith [] x y) = []) :=
  ⟨by decide!, by decide!,
    ((removeNearest_tiny_store_computed naturalArith).2.1 ⟨0, 0, 0⟩ (15 - 1 / 2 ^ 28) 0).1
      (by decide!),
    (removeNearest_tiny_store_computed naturalArith).1⟩

/-! ## Insertion followed by removal, on the arithmetic of the programs -/

theorem getD_insertIdx_add_succ (p : List Vec3) (q d : Vec3) (n k : Nat)
    (hk : n + k < p.length) : (p.insertIdx n q).getD (n + k + 1) d = p.getD (n + k) d := by
  have hlen : n + k + 1 < (p.insertIdx n q).length := by
    rw [List.length_insertIdx n p (by omega)]
    omega
  rw [List.getD_eq_getElem _ _ hlen, List.getD_eq_getElem _ _ hk,
    List.getElem_insertIdx_add_succ p q n k hk]

/-- After inserting `q` at index `n`, when the computed distance of `q` from the
query is below the limit, below that of every point in front of it and not above
that of any point behind it, `selectPoint` returns `n`. -/
theorem selectPointWith_inserted (A : Arith) (p : List Vec3) (q : Vec3) (x y : ℚ) (n : Nat)
    (hn : n ≤ p.length) (hnear : A.pointDist x y q < A.pointLimit)
    (hfront : ∀ j, j < n → A.pointDist x y q < A.pointDist x y (p.getD j ⟨0, 0, 0⟩))
    (hback : ∀ j, n ≤ j → j < p.length →
      A.pointDist x y q ≤ A.pointDist x y (p.getD j ⟨0, 0, 0⟩)) :
    selectPointWith A (p.insertIdx n q) x y = (n : ℤ) := by
  have hlen : (p.insertIdx n q).length = p.length + 1 := List.length_insertIdx n p hn
  have hq : A.pointDist x y ((p.insertIdx n q).getD n ⟨0, 0, 0⟩) = A.pointDist x y q := by
    rw [getD_insertIdx_self p _ _ n hn]
  rcases selectPointWith_scan A (p.insertIdx n q) x y with ⟨-, h2⟩ | ⟨k, hk, h1, -, h4, h5⟩
  · have := h2 n (by omega)
    rw [hq] at this
    exact absurd hnear (not_lt.mpr this)
  · have hkn : k = n := by
      rcases Nat.lt_trichotomy k n with hlt | heq | hgt
      · exfalso
        have hle := h4 n (by omega)
        rw [hq, getD_insertIdx_of_lt p _ _ n k hn hlt] at hle
        exact absurd (hfront k hlt) (not_lt.mpr hle)
      · exact heq
      · exfalso
        have hlt := h5 n hgt
        obtain ⟨m, rfl⟩ : ∃ m, k = n + m + 1 := ⟨k - n - 1, by omega⟩
        rw [hq, getD_insertIdx_add_succ p _ _ n m (by omega)] at hlt
        exact absurd hlt (not_lt.mpr (hback (n + m) (by omega) (by omega)))
    rw [h1, hkn]

/-- The point list after an insertion and the removal at the inserted position,
on the arithmetic `A`. -/
theorem insert_erase_list_with (A : Arith) (p : List Vec3) (x y : ℚ)
    (hq : ∃ k, QualifiesWith A p (inputPoint A x y) k)
    (hnear : A.pointDist x y (inputPoint A x y) < A.pointLimit)
    (hfront : ∀ j : Nat, (j : ℤ) ≤ nearestLineWith A p (inputPoint A x y) →
      A.pointDist x y (inputPoint A x y) < A.pointDist x y (p.getD j ⟨0, 0, 0⟩))
    (hback : ∀ j : Nat, nearestLineWith A p (inputPoint A x y) < (j : ℤ) → j < p.length →
      A.pointDist x y (inputPoint A x y) ≤ A.pointDist x y (p.getD j ⟨0, 0, 0⟩)) :
    0 ≤ nearestLineWith A p (inputPoint A x y) ∧
    selectPointWith A (insertPointWith A p x y) x y =
      nearestLineWith A p (inputPoint A x y) + 1 ∧
    erasePoint (insertPointWith A p x y) (selectPointWith A (insertPointWith A p x y) x y) =
      p := by
  rcases nearestLineWith_scan A p (inputPoint A x y) with ⟨-, h2⟩ | ⟨i, hi, h1, -, -, -, -⟩
  · exfalso
    obtain ⟨k, hk⟩ := hq
    rw [qualifiesWith_iff] at hk
    exact absurd hk.2.2 (not_lt.mpr (h2 k hk.1 hk.2.1))
  · have hins : insertPointWith A p x y = p.insertIdx (i + 1) (inputPoint A x y) := by
      unfold insertPointWith
      simp only []
      rw [h1, if_pos (Int.natCast_nonneg i), Int.toNat_natCast]
    have hsel : selectPointWith A (insertPointWith A p x y) x y = ((i + 1 : Nat) : ℤ) := by
      rw [hins]
      apply selectPointWith_inserted A p _ x y (i + 1) (by omega) hnear
      · intro j hj
        apply hfront j
        rw [h1]
        exact_mod_cast Nat.lt_succ_iff.mp hj
      · intro j hj hjl
        apply hback j _ hjl
        rw [h1]
        exact_mod_cast hj
    refine ⟨by rw [h1]; exact Int.natCast_nonneg i, by rw [hsel, h1]; push_cast; ring, ?_⟩
    rw [hsel]
    unfold erasePoint
    rw [if_pos (Int.natCast_nonneg _), Int.toNat_natCast, hins, List.eraseIdx_insertIdx]

theorem BSpline.bspline_round_trip_state_with (A : Arith) (s : BSpline.State) (x y : ℚ)
    (hs : s.expanded = BSpline.construct s.p s.repetition)
    (hnl : 0 ≤ nearestLineWith A s.p (inputPoint A x y))
    (hsel : 0 ≤ selectPointWith A (insertPointWith A s.p x y) x y)
    (herase : erasePoint (insertPointWith A s.p x y)
      (selectPointWith A (insertPointWith A s.p x y) x y) = s.p) :
    BSpline.removeControlPoint (BSpline.insertControlPointWith A s x y)
      (selectPointWith A (BSpline.insertControlPointWith A s x y).p x y) = s := by
  have hp : (BSpline.insertControlPointWith A s x y).p = insertPointWith A s.p x y :=
    BSpline.insertControlPointWith_p A s x y
  rw [hp]
  unfold BSpline.removeControlPoint
  rw [if_pos hsel]
  simp only [hp, herase]
  unfold BSpline.insertControlPointWith
  rw [if_pos hnl]
  simp only [← hs]

theorem NaturalSpline.natural_round_trip_state_with (A : Arith)
    (solve : NaturalSpline.Mat → NaturalSpline.Mat → NaturalSpline.Mat)
    (s : NaturalSpline.State) (x y : ℚ)
    (hA : s.A = (NaturalSpline.arrangeMatrix s.A s.p).1)
    (hb : s.b = (NaturalSpline.arrangeMatrix s.A s.p).2)
    (hc : s.c = solve s.A s.b)
    (hnl : 0 ≤ nearestLineWith A s.p (inputPoint A x y))
    (hsel : 0 ≤ selectPointWith A (insertPointWith A s.p x y) x y)
    (herase : erasePoint (insertPointWith A s.p x y)
      (selectPointWith A (insertPointWith A s.p x y) x y) = s.p) :
    NaturalSpline.removeDataPoint solve (NaturalSpline.insertDataPointWith A solve s x y)
      (selectPointWith A (NaturalSpline.insertDataPointWith A solve s x y).p x y) = s := by
  have hp : (NaturalSpline.insertDataPointWith A solve s x y).p = insertPointWith A s.p x y :=
    NaturalSpline.insertDataPointWith_p A solve s x y
  rw [hp]
  unfold NaturalSpline.removeDataPoint
  rw [if_pos hsel]
  unfold NaturalSpline.insertDataPointWith
  rw [if_pos hnl]
  simp only [NaturalSpline.refresh, herase, NaturalSpline.arrange_absorb]
  rw [← hA, ← hb, ← hc]

/-- In exact arithmetic the inserted point is at distance 0 from the query, so it
is below the limit and not farther than any stored point, and it is strictly
nearer than every stored point that does not lie at the position of the query. -/
theorem exact_inserted_is_nearest (p : List Vec3) (x y : ℚ) :
    exactArith.pointDist x y (inputPoint exactArith x y) < exactArith.pointLimit ∧
    (∀ j : Nat, exactArith.pointDist x y (inputPoint exactArith x y) ≤
      exactArith.pointDist x y (p.getD j ⟨0, 0, 0⟩)) ∧
    (∀ j : Nat, ¬ ((p.getD j ⟨0, 0, 0⟩).x = x ∧ (p.getD j ⟨0, 0, 0⟩).y = y) →
      exactArith.pointDist x y (inputPoint exactArith x y) <
        exactArith.pointDist x y (p.getD j ⟨0, 0, 0⟩)) := by
  have h0 : exactArith.pointDist x y (inputPoint exactArith x y) = 0 := by
    have : exactArith.pointDist x y (inputPoint exactArith x y) =
        planarDistSq x y ⟨x, y, 0⟩ := rfl
    rw [this, planarDistSq_eq_zero]
    exact ⟨rfl, rfl⟩
  have hd : ∀ v : Vec3, exactArith.pointDist x y v = planarDistSq x y v := fun _ => rfl
  rw [h0]
  refine ⟨?_, fun j => ?_, fun j hj => ?_⟩
  · unfold exactArith
    norm_num
  · rw [hd]
    exact planarDistSq_nonneg _ _ _
  · rw [hd]
    rcases lt_or_eq_of_le (planarDistSq_nonneg x y (p.getD j ⟨0, 0, 0⟩)) with h | h
    · exact h
    · exact absurd ((planarDistSq_eq_zero x y _).mp h.symm) hj

/-- C12, amended: on every arithmetic `A`, when insertion of `q` succeeds and, by
the distances from the query that `selectPoint` computes, the inserted point is
below the limit, strictly nearer than every stored point at an index up to the
chosen segment index and not farther than any stored point behind it,
`selectPoint` at `q` returns the inserted index and the removal restores the
point list; a state of either program whose derived curve data are those of its
point list is restored as a whole.  In exact arithmetic the three conditions on
the distances hold as soon as no stored point at an index up to the chosen
segment index lies at the planar position of `q`. -/
theorem insert_then_remove_computed (A : Arith) (p : List Vec3) (x y : ℚ)
    (hq : ∃ k, QualifiesWith A p (inputPoint A x y) k)
    (hnear : A.pointDist x y (inputPoint A x y) < A.pointLimit)
    (hfront : ∀ j : Nat, (j : ℤ) ≤ nearestLineWith A p (inputPoint A x y) →
      A.pointDist x y (inputPoint A x y) < A.pointDist x y (p.getD j ⟨0, 0, 0⟩))
    (hback : ∀ j : Nat, nearestLineWith A p (inputPoint A x y) < (j : ℤ) → j < p.length →
      A.pointDist x y (inputPoint A x y) ≤ A.pointDist x y (p.getD j ⟨0, 0, 0⟩)) :
    selectPointWith A (insertPointWith A p x y) x y =
      nearestLineWith A p (inputPoint A x y) + 1 ∧
    erasePoint (insertPointWith A p x y) (selectPointWith A (insertPointWith A p x y) x y) =
      p ∧
    (∀ s : BSpline.State, s.p = p → s.expanded = BSpline.construct s.p s.repetition →
      BSpline.removeControlPoint (BSpline.insertControlPointWith A s x y)
        (selectPointWith A (BSpline.insertControlPointWith A s x y).p x y) = s) ∧
    (∀ (solve : NaturalSpline.Mat → NaturalSpline.Mat → NaturalSpline.Mat)
      (s : NaturalSpline.State), s.p = p →
      s.A = (NaturalSpline.arrangeMatrix s.A s.p).1 →
      s.b = (NaturalSpline.arrangeMatrix s.A s.p).2 → s.c = solve s.A s.b →
      NaturalSpline.removeDataPoint solve (NaturalSpline.insertDataPointWith A solve s x y)
        (selectPointWith A (NaturalSpline.insertDataPointWith A solve s x y).p x y) = s) ∧
    ((∀ j : Nat, (j : ℤ) ≤ nearestLineWith exactArith p (inputPoint exactArith x y) →
        ¬ ((p.getD j ⟨0, 0, 0⟩).x = x ∧ (p.getD j ⟨0, 0, 0⟩).y = y)) →
      exactArith.pointDist x y (inputPoint exactArith x y) < exactArith.pointLimit ∧
      (∀ j : Nat, (j : ℤ) ≤ nearestLineWith exactArith p (inputPoint exactArith x y) →
        exactArith.pointDist x y (inputPoint exactArith x y) <
          exactArith.pointDist x y (p.getD j ⟨0, 0, 0⟩)) ∧
      (∀ j : Nat, nearestLineWith exactArith p (inputPoint exactArith x y) < (j : ℤ) →
        j < p.length →
        exactArith.pointDist x y (inputPoint exactArith x y) ≤
          exactArith.pointDist x y (p.getD j ⟨0, 0, 0⟩))) := by
  obtain ⟨hnl, hsel, herase⟩ := insert_erase_list_with A p x y hq hnear hfront hback
  have hsel0 : 0 ≤ selectPointWith A (insertPointWith A p x y) x y := by
    rw [hsel]
    omega
  obtain ⟨e1, e2, e3⟩ := exact_inserted_is_nearest p x y
  refine ⟨hsel, herase, fun s hs he => ?_, fun solve s hs hA hb hc => ?_,
    fun hfree => ⟨e1, fun j hj => e3 j (hfree j hj), fun j _ _ => e2 j⟩⟩
  · subst hs
    exact BSpline.bspline_round_trip_state_with A s x y he hnl hsel0 herase
  · subst hs
    exact NaturalSpline.natural_round_trip_state_with A solve s x y hA hb hc hnl hsel0 herase

/-- C12, amended, at the scenario points and the query `(5, 1)` on the arithmetic
of the B-spline program. -/
theorem insert_then_remove_computed_witness :
    (∃ k, QualifiesWith bsplineArith BSpline.scenarioPoints (inputPoint bsplineArith 5 1) k) ∧
    selectPointWith bsplineArith (insertPointWith bsplineArith BSpline.scenarioPoints 5 1) 5 1 =
      1 ∧
    erasePoint (insertPointWith bsplineArith BSpline.scenarioPoints 5 1)
      (selectPointWith bsplineArith (insertPointWith bsplineArith BSpline.scenarioPoints 5 1)
        5 1) = BSpline.scenarioPoints :=
  have hq : ∃ k, QualifiesWith bsplineArith BSpline.scenarioPoints
      (inputPoint bsplineArith 5 1) k :=
    ⟨0, (qualifiesWith_iff bsplineArith BSpline.scenarioPoints _ 0).mpr (by decide!)⟩
  have h0 : nearestLineWith bsplineArith BSpline.scenarioPoints (inputPoint bsplineArith 5 1) =
      0 := by decide!
  have hnear : bsplineArith.pointDist 5 1 (inputPoint bsplineArith 5 1) <
      bsplineArith.pointLimit := by decide!
  have hfront : ∀ j : Nat,
      (j : ℤ) ≤ nearestLineWith bsplineArith BSpline.scenarioPoints
        (inputPoint bsplineArith 5 1) →
      bsplineArith.pointDist 5 1 (inputPoint bsplineArith 5 1) <
        bsplineArith.pointDist 5 1 (BSpline.scenarioPoints.getD j ⟨0, 0, 0⟩) := by
    intro j hj
    rw [h0] at hj
    have hj0 : j = 0 := by omega
    subst hj0
    decide!
  have hback : ∀ j : Nat,
      nearestLineWith bsplineArith BSpline.scenarioPoints (inputPoint bsplineArith 5 1) <
        (j : ℤ) → j < BSpline.scenarioPoints.length →
      bsplineArith.pointDist 5 1 (inputPoint bsplineArith 5 1) ≤
        bsplineArith.pointDist 5 1 (BSpline.scenarioPoints.getD j ⟨0, 0, 0⟩) := by
    intro j hj hjl
    rw [h0] at hj
    have h3 : BSpline.scenarioPoints.length = 3 := rfl
    have hj12 : j = 1 ∨ j = 2 := by omega
    rcases hj12 with rfl | rfl
    · decide!
    · decide!
  ⟨hq, by decide!,
    (insert_then_remove_computed bsplineArith BSpline.scenarioPoints 5 1 hq hnear hfront
      hback).2.1⟩

end CurveEditing
